import Mathlib

/-!
The direction-resolution state machine of `JoyDPad` (antimicroXS).

A shallow embedding of `src/src/joydpad.cpp`.  A `JoyDPad` value holds the
member variables of the C++ object; everything the object does to its
collaborators (calls on the eight direction buttons, Qt signals, calls on
the single-shot delay timer) is appended to a log kept in the same value, so
that an operation is a function from state to state.  An operation that
would dereference a null button pointer returns `none`.
-/

set_option autoImplicit false

namespace JoyDPadButton

/-- Modelled from the spec: the enum `JoyDPadButton::JoyDPadDirections` is
declared in joydpadbutton.h, which is not among the sources.  The spec gives
independent flags for Up/Down/Left/Right, diagonals as the bitwise OR of two
adjacent cardinals, and a centered value without flags; the numeric flags are
those of the hat encoding the raw value arrives in. -/
abbrev DpadCentered : Nat := 0

/-- Modelled from the spec: the Up flag of `JoyDPadDirections`. -/
abbrev DpadUp : Nat := 1

/-- Modelled from the spec: the Right flag of `JoyDPadDirections`. -/
abbrev DpadRight : Nat := 2

/-- Modelled from the spec: the Down flag of `JoyDPadDirections`. -/
abbrev DpadDown : Nat := 4

/-- Modelled from the spec: the Left flag of `JoyDPadDirections`. -/
abbrev DpadLeft : Nat := 8

/-- Modelled from the spec: Right and Up together. -/
abbrev DpadRightUp : Nat := 3

/-- Modelled from the spec: Right and Down together. -/
abbrev DpadRightDown : Nat := 6

/-- Modelled from the spec: Left and Up together. -/
abbrev DpadLeftUp : Nat := 9

/-- Modelled from the spec: Left and Down together. -/
abbrev DpadLeftDown : Nat := 12

end JoyDPadButton

open JoyDPadButton

/-- The enum `JoyDPad::JoyMode`. -/
inductive JoyMode where
  | StandardMode
  | EightWayMode
  | FourWayCardinal
  | FourWayDiagonal
deriving DecidableEq, Repr

/-- A `JoyDPadButton*`: the button stored under key `direction` in the
`buttons` hash of the `JoyDPad` object whose identity is `owner`. -/
structure ButtonRef where
  owner : Nat
  direction : Nat
deriving DecidableEq, Repr

/-- One call `button->joyEvent(pressed, ignoresets)`. -/
structure ButtonCall where
  button : ButtonRef
  pressed : Bool
  ignoresets : Bool
deriving DecidableEq, Repr

/-- The Qt signals `JoyDPad` emits. -/
inductive Signal where
  | active (value : Nat)
  | released (value : Nat)
  | joyModeChanged
  | dpadDelayChanged (value : Int)
  | propertyUpdated
deriving DecidableEq, Repr

/-- One call on `directionDelayTimer`. -/
inductive TimerCall where
  | start (msec : Int)
  | stop
deriving DecidableEq, Repr

/-- The part of `QTimer` the class uses: whether the single-shot timer is
running, and the interval it was last started with. -/
structure QTimer where
  isActive : Bool
  interval : Int
deriving DecidableEq, Repr

/-- The member variables of `JoyDPad` that the direction logic reads or
writes, followed by the logs of what the object did to its collaborators. -/
structure JoyDPad where
  addr : Nat
  activeDiagonalButton : Option ButtonRef
  prevDirection : Nat
  pendingDirection : Nat
  currentMode : JoyMode
  dpadDelay : Int
  pendingEvent : Bool
  pendingEventDirection : Nat
  pendingIgnoreSets : Bool
  directionDelayTimer : QTimer
  buttonCalls : List ButtonCall
  signals : List Signal
  timerCalls : List TimerCall
deriving DecidableEq, Repr

namespace JoyDPad

/-- The value `JoyDPad::DEFAULTDPADDELAY`. -/
def DEFAULTDPADDELAY : Int := 0

/-- The constructor `JoyDPad::JoyDPad` for the object with identity `addr`:
no diagonal held, both directions centered, Standard mode, default delay,
nothing queued, timer not running; nothing has been done to a collaborator. -/
def new (addr : Nat) : JoyDPad :=
  { addr := addr
    activeDiagonalButton := none
    prevDirection := DpadCentered
    pendingDirection := DpadCentered
    currentMode := JoyMode.StandardMode
    dpadDelay := DEFAULTDPADDELAY
    pendingEvent := false
    pendingEventDirection := DpadCentered
    pendingIgnoreSets := false
    directionDelayTimer := { isActive := false, interval := 0 }
    buttonCalls := []
    signals := []
    timerCalls := [] }

/-- The lookup `buttons.value(key)`: `populateButtons` inserts a button under
each of the eight direction keys, and `QHash::value` gives a null pointer for
any other key. -/
def buttons_value (s : JoyDPad) (key : Nat) : Option ButtonRef :=
  if key = DpadUp ∨ key = DpadDown ∨ key = DpadRight ∨ key = DpadLeft ∨
      key = DpadLeftUp ∨ key = DpadRightUp ∨ key = DpadRightDown ∨ key = DpadLeftDown
  then some { owner := s.addr, direction := key }
  else none

/-- The call `b->joyEvent(pressed, ignoresets)` on a button, recorded. -/
def buttonJoyEvent (s : JoyDPad) (b : ButtonRef) (pressed ignoresets : Bool) : JoyDPad :=
  { s with buttonCalls := s.buttonCalls ++ [{ button := b, pressed := pressed, ignoresets := ignoresets }] }

/-- The statement pair `x = buttons.value(key); x->joyEvent(pressed, ignoresets)`:
fails when the lookup gives a null pointer. -/
def callButton (key : Nat) (pressed ignoresets : Bool) (s : JoyDPad) : Option JoyDPad :=
  match s.buttons_value key with
  | some b => some (s.buttonJoyEvent b pressed ignoresets)
  | none => none

/-- One guarded statement `if (c) { x = buttons.value(key); x->joyEvent(..); }`. -/
def callButtonIf (c : Bool) (key : Nat) (pressed ignoresets : Bool) (s : JoyDPad) : Option JoyDPad :=
  if c then callButton key pressed ignoresets s else some s

/-- The statement pair
`activeDiagonalButton = buttons.value(key); activeDiagonalButton->joyEvent(true, ignoresets)`. -/
def activateDiagonal (key : Nat) (ignoresets : Bool) (s : JoyDPad) : Option JoyDPad :=
  match s.buttons_value key with
  | some b => some ({ s with activeDiagonalButton := some b }.buttonJoyEvent b true ignoresets)
  | none => none

/-- The C++ test `(d & flag)` used as a condition. -/
def hasFlag (d flag : Nat) : Bool := (d &&& flag) != 0

/-- The choice of `prevButton` in the FourWayCardinal release branch of
`createDeskEvent` (lines 969-992); `none` is the null pointer it starts as. -/
def fourWayCardinalPrevButton (s : JoyDPad) (value : Nat) : Option ButtonRef :=
  if (s.prevDirection = DpadUp ∨ s.prevDirection = DpadRightUp) ∧
      (value ≠ DpadUp ∧ value ≠ DpadRightUp) then
    s.buttons_value DpadUp
  else if (s.prevDirection = DpadDown ∨ s.prevDirection = DpadLeftDown) ∧
      (value ≠ DpadDown ∧ value ≠ DpadLeftDown) then
    s.buttons_value DpadDown
  else if (s.prevDirection = DpadLeft ∨ s.prevDirection = DpadLeftUp) ∧
      (value ≠ DpadLeft ∧ value ≠ DpadLeftUp) then
    s.buttons_value DpadLeft
  else if (s.prevDirection = DpadRight ∨ s.prevDirection = DpadRightDown) ∧
      (value ≠ DpadRight ∧ value ≠ DpadRightDown) then
    s.buttons_value DpadRight
  else none

/-- The release half of `createDeskEvent` (lines 930-1005), entered with
`value = pendingDirection` different from `prevDirection`. -/
def releasePhase (s : JoyDPad) (ignoresets : Bool) : Option JoyDPad :=
  let value := s.pendingDirection
  let prev := s.prevDirection
  match s.activeDiagonalButton with
  | some b => some { s.buttonJoyEvent b false ignoresets with activeDiagonalButton := none }
  | none =>
    if s.currentMode = JoyMode.StandardMode then
      (callButtonIf (hasFlag prev DpadUp && !hasFlag value DpadUp) DpadUp false ignoresets s).bind fun s1 =>
      (callButtonIf (hasFlag prev DpadDown && !hasFlag value DpadDown) DpadDown false ignoresets s1).bind fun s2 =>
      (callButtonIf (hasFlag prev DpadLeft && !hasFlag value DpadLeft) DpadLeft false ignoresets s2).bind fun s3 =>
      callButtonIf (hasFlag prev DpadRight && !hasFlag value DpadRight) DpadRight false ignoresets s3
    else if s.currentMode = JoyMode.EightWayMode ∧ prev ≠ 0 then
      callButton prev false ignoresets s
    else if s.currentMode = JoyMode.FourWayCardinal ∧ prev ≠ 0 then
      match fourWayCardinalPrevButton s value with
      | some b => some (s.buttonJoyEvent b false ignoresets)
      | none => some s
    else if s.currentMode = JoyMode.FourWayDiagonal ∧ prev ≠ 0 then
      callButton prev false ignoresets s
    else some s

/-- The activation half of `createDeskEvent` (lines 1007-1125); `prev` is
`prevDirection`, which the release half does not modify. -/
def activatePhase (s : JoyDPad) (ignoresets : Bool) : Option JoyDPad :=
  let value := s.pendingDirection
  let prev := s.prevDirection
  if s.currentMode = JoyMode.StandardMode then
    (callButtonIf (hasFlag value DpadUp && !hasFlag prev DpadUp) DpadUp true ignoresets s).bind fun s1 =>
    (callButtonIf (hasFlag value DpadDown && !hasFlag prev DpadDown) DpadDown true ignoresets s1).bind fun s2 =>
    (callButtonIf (hasFlag value DpadLeft && !hasFlag prev DpadLeft) DpadLeft true ignoresets s2).bind fun s3 =>
    callButtonIf (hasFlag value DpadRight && !hasFlag prev DpadRight) DpadRight true ignoresets s3
  else if s.currentMode = JoyMode.EightWayMode then
    if value = DpadLeftUp then activateDiagonal DpadLeftUp ignoresets s
    else if value = DpadRightUp then activateDiagonal DpadRightUp ignoresets s
    else if value = DpadRightDown then activateDiagonal DpadRightDown ignoresets s
    else if value = DpadLeftDown then activateDiagonal DpadLeftDown ignoresets s
    else if value = DpadUp then callButton DpadUp true ignoresets s
    else if value = DpadDown then callButton DpadDown true ignoresets s
    else if value = DpadLeft then callButton DpadLeft true ignoresets s
    else if value = DpadRight then callButton DpadRight true ignoresets s
    else some s
  else if s.currentMode = JoyMode.FourWayCardinal then
    if value = DpadUp ∨ value = DpadRightUp then callButton DpadUp true ignoresets s
    else if value = DpadDown ∨ value = DpadLeftDown then callButton DpadDown true ignoresets s
    else if value = DpadLeft ∨ value = DpadLeftUp then callButton DpadLeft true ignoresets s
    else if value = DpadRight ∨ value = DpadRightDown then callButton DpadRight true ignoresets s
    else some s
  else if s.currentMode = JoyMode.FourWayDiagonal then
    if value = DpadLeftUp then activateDiagonal DpadLeftUp ignoresets s
    else if value = DpadRightUp then activateDiagonal DpadRightUp ignoresets s
    else if value = DpadRightDown then activateDiagonal DpadRightDown ignoresets s
    else if value = DpadLeftDown then activateDiagonal DpadLeftDown ignoresets s
    else some s
  else some s

/-- The method `JoyDPad::createDeskEvent`: the commit. -/
def createDeskEvent (s : JoyDPad) (ignoresets : Bool) : Option JoyDPad :=
  if s.pendingDirection ≠ s.prevDirection then
    (releasePhase s ignoresets).bind fun s1 =>
    (activatePhase s1 ignoresets).bind fun s2 =>
    some { s2 with prevDirection := s2.pendingDirection }
  else some s

/-- The default of the parameter in `createDeskEvent(bool ignoresets = false)`,
declared in joydpad.h (not among the sources) and used by the timer slot. -/
def createDeskEventDefaultIgnoresets : Bool := false

/-- The slot `JoyDPad::dpadDirectionChangeEvent`, connected to the timer. -/
def dpadDirectionChangeEvent (s : JoyDPad) : Option JoyDPad :=
  createDeskEvent s createDeskEventDefaultIgnoresets

/-- Emission of a signal, recorded. -/
def emit (s : JoyDPad) (sig : Signal) : JoyDPad :=
  { s with signals := s.signals ++ [sig] }

/-- The call `directionDelayTimer.start(msec)`. -/
def timerStart (s : JoyDPad) (msec : Int) : JoyDPad :=
  { s with directionDelayTimer := { isActive := true, interval := msec }
           timerCalls := s.timerCalls ++ [TimerCall.start msec] }

/-- The call `directionDelayTimer.stop()`. -/
def timerStop (s : JoyDPad) : JoyDPad :=
  { s with directionDelayTimer := { s.directionDelayTimer with isActive := false }
           timerCalls := s.timerCalls ++ [TimerCall.stop] }

/-- The statement `if (directionDelayTimer.isActive()) directionDelayTimer.stop();`. -/
def stopTimerIfActive (s : JoyDPad) : JoyDPad :=
  if s.directionDelayTimer.isActive then s.timerStop else s

/-- The statement `if (!directionDelayTimer.isActive()) directionDelayTimer.start(dpadDelay);`. -/
def startTimerIfIdle (s : JoyDPad) : JoyDPad :=
  if s.directionDelayTimer.isActive then s else s.timerStart s.dpadDelay

/-- The method `JoyDPad::joyEvent`: submission of a raw direction. -/
def joyEvent (s : JoyDPad) (value : Nat) (ignoresets : Bool) : Option JoyDPad :=
  if value ≠ s.pendingDirection then
    if value ≠ DpadCentered then
      let s1 := if s.prevDirection = DpadCentered then s.emit (Signal.active value) else s
      let s2 := { s1 with pendingDirection := value }
      if ignoresets = true ∨ s2.dpadDelay = 0 then
        createDeskEvent (stopTimerIfActive s2) ignoresets
      else if s2.pendingDirection ≠ s2.prevDirection then
        some (startTimerIfIdle s2)
      else
        some (stopTimerIfActive s2)
    else
      let s1 := s.emit (Signal.released value)
      let s2 := { s1 with pendingDirection := DpadCentered }
      if ignoresets = true ∨ s2.dpadDelay = 0 then
        createDeskEvent (stopTimerIfActive s2) ignoresets
      else
        some (startTimerIfIdle s2)
  else some s

/-- The method `JoyDPad::setJoyMode`. -/
def setJoyMode (s : JoyDPad) (mode : JoyMode) : JoyDPad :=
  ({ s with currentMode := mode }.emit Signal.joyModeChanged).emit Signal.propertyUpdated

/-- The method `JoyDPad::setDPadDelay`. -/
def setDPadDelay (s : JoyDPad) (value : Int) : JoyDPad :=
  if (value ≥ 10 ∧ value ≤ 1000) ∨ value = 0 then
    ({ s with dpadDelay := value }.emit (Signal.dpadDelayChanged value)).emit Signal.propertyUpdated
  else s

/-- The timer firing: a running single-shot timer stops and its `timeout`
signal runs the connected slot; a timer that is not running does not fire. -/
def timerTimeout (s : JoyDPad) : Option JoyDPad :=
  if s.directionDelayTimer.isActive then
    dpadDirectionChangeEvent
      { s with directionDelayTimer := { s.directionDelayTimer with isActive := false } }
  else some s

end JoyDPad

/-- What can happen to a `JoyDPad` between two observations. -/
inductive DPadAction where
  | joyEvent (value : Nat) (ignoresets : Bool)
  | timeout
  | setJoyMode (mode : JoyMode)
  | setDPadDelay (value : Int)
deriving DecidableEq, Repr

namespace JoyDPad

/-- One action applied to a state. -/
def step (s : JoyDPad) : DPadAction → Option JoyDPad
  | DPadAction.joyEvent value ignoresets => s.joyEvent value ignoresets
  | DPadAction.timeout => s.timerTimeout
  | DPadAction.setJoyMode mode => some (s.setJoyMode mode)
  | DPadAction.setDPadDelay value => some (s.setDPadDelay value)

/-- A sequence of actions applied in order; `none` as soon as one fails. -/
def run (s : JoyDPad) : List DPadAction → Option JoyDPad
  | [] => some s
  | a :: rest => (s.step a).bind fun s1 => run s1 rest

end JoyDPad

/-! ## Closed forms of the two halves of the commit -/

namespace JoyDPad

/-- The calls of one pass over the four cardinal flags in the order Up, Down,
Left, Right: a call on each cardinal button whose flag is set in `d1` and
clear in `d2`. -/
def standardCalls (addr d1 d2 : Nat) (pressed ignoresets : Bool) : List ButtonCall :=
  ([DpadUp, DpadDown, DpadLeft, DpadRight].filter fun k => hasFlag d1 k && !hasFlag d2 k).map
    fun k => { button := { owner := addr, direction := k }, pressed := pressed, ignoresets := ignoresets }

/-- The quadrant assignment of FourWayCardinal mode: the key of the cardinal
button a direction folds to, and 0 for a value that folds to no button. -/
def foldCardinal (d : Nat) : Nat :=
  if d = DpadUp ∨ d = DpadRightUp then DpadUp
  else if d = DpadDown ∨ d = DpadLeftDown then DpadDown
  else if d = DpadLeft ∨ d = DpadLeftUp then DpadLeft
  else if d = DpadRight ∨ d = DpadRightDown then DpadRight
  else 0

/-- Whether a direction is one of the four diagonals. -/
def isDiagonal (d : Nat) : Bool :=
  d == DpadLeftUp || d == DpadRightUp || d == DpadRightDown || d == DpadLeftDown

/-- Whether a direction is one of the four cardinals. -/
def isCardinal (d : Nat) : Bool :=
  d == DpadUp || d == DpadDown || d == DpadLeft || d == DpadRight

/-- Whether a direction is one of the nine named directions. -/
def isNamed (d : Nat) : Bool :=
  d == DpadCentered || isCardinal d || isDiagonal d

/-- The list of calls the release half makes, when it does not fail. -/
def releaseCalls (s : JoyDPad) (ignoresets : Bool) : Option (List ButtonCall) :=
  match s.activeDiagonalButton with
  | some b => some [{ button := b, pressed := false, ignoresets := ignoresets }]
  | none =>
    match s.currentMode with
    | JoyMode.StandardMode =>
      some (standardCalls s.addr s.prevDirection s.pendingDirection false ignoresets)
    | JoyMode.FourWayCardinal =>
      if foldCardinal s.prevDirection ≠ 0 ∧
          foldCardinal s.pendingDirection ≠ foldCardinal s.prevDirection then
        some [{ button := { owner := s.addr, direction := foldCardinal s.prevDirection },
                pressed := false, ignoresets := ignoresets }]
      else some []
    | _ =>
      if s.prevDirection = 0 then some []
      else if isCardinal s.prevDirection ∨ isDiagonal s.prevDirection then
        some [{ button := { owner := s.addr, direction := s.prevDirection },
                pressed := false, ignoresets := ignoresets }]
      else none

/-- The list of calls the activation half makes. -/
def activateCalls (s : JoyDPad) (ignoresets : Bool) : List ButtonCall :=
  match s.currentMode with
  | JoyMode.StandardMode =>
    standardCalls s.addr s.pendingDirection s.prevDirection true ignoresets
  | JoyMode.EightWayMode =>
    if isCardinal s.pendingDirection ∨ isDiagonal s.pendingDirection then
      [{ button := { owner := s.addr, direction := s.pendingDirection },
         pressed := true, ignoresets := ignoresets }]
    else []
  | JoyMode.FourWayCardinal =>
    if foldCardinal s.pendingDirection ≠ 0 then
      [{ button := { owner := s.addr, direction := foldCardinal s.pendingDirection },
         pressed := true, ignoresets := ignoresets }]
    else []
  | JoyMode.FourWayDiagonal =>
    if isDiagonal s.pendingDirection then
      [{ button := { owner := s.addr, direction := s.pendingDirection },
         pressed := true, ignoresets := ignoresets }]
    else []

/-- The diagonal the activation half leaves in `activeDiagonalButton`. -/
def lockAfter (s : JoyDPad) : Option ButtonRef :=
  if (s.currentMode = JoyMode.EightWayMode ∨ s.currentMode = JoyMode.FourWayDiagonal) ∧
      isDiagonal s.pendingDirection then
    some { owner := s.addr, direction := s.pendingDirection }
  else none

/-- A sample state: delay 50, committed direction centered, Up pending with
the timer running. -/
def sampleDeferred : JoyDPad :=
  { new 0 with
    dpadDelay := 50
    pendingDirection := DpadUp
    directionDelayTimer := { isActive := true, interval := 50 } }

/-- The state after `joyEvent(DpadRight, true)` on `sampleDeferred`. -/
def sampleDeferredBypassed : JoyDPad :=
  { new 0 with
    dpadDelay := 50
    pendingDirection := DpadRight
    prevDirection := DpadRight
    directionDelayTimer := { isActive := false, interval := 50 }
    buttonCalls := [{ button := { owner := 0, direction := DpadRight }, pressed := true, ignoresets := true }]
    signals := [Signal.active DpadRight]
    timerCalls := [TimerCall.stop] }

/-- A sample state: Standard mode, Up and Right committed, Up pending. -/
def sampleStandard : JoyDPad :=
  { new 0 with
    prevDirection := DpadRightUp
    pendingDirection := DpadUp
    buttonCalls := [{ button := { owner := 0, direction := DpadUp }, pressed := true, ignoresets := false },
                    { button := { owner := 0, direction := DpadRight }, pressed := true, ignoresets := false }] }

/-- A sample state: EightWay mode, Up committed, Up-Right pending. -/
def sampleEightWay : JoyDPad :=
  { new 0 with
    currentMode := JoyMode.EightWayMode
    prevDirection := DpadUp
    pendingDirection := DpadRightUp
    buttonCalls := [{ button := { owner := 0, direction := DpadUp }, pressed := true, ignoresets := false }] }

/-- A freshly constructed DPad put in FourWayCardinal mode. -/
def freshFourWayCardinal : JoyDPad := (new 0).setJoyMode JoyMode.FourWayCardinal

/-- Modelled from the spec: the Virtual Button contract (`JoyDPadButton` and
`JoyButton::joyEvent` are not among the sources).  A button is active when
the last call it received was an activation; a button that was never called
is inactive. -/
def buttonActive (calls : List ButtonCall) (b : ButtonRef) : Bool :=
  calls.foldl (fun acc c => if c.button = b then c.pressed else acc) false

/-- Whether the button stored under key `k` of this DPad is active. -/
def isActive (s : JoyDPad) (k : Nat) : Bool :=
  buttonActive s.buttonCalls { owner := s.addr, direction := k }

/-- The buttons a committed direction keeps active in a mode: the cardinals
whose flag is set (Standard), the button of the direction itself (EightWay),
the cardinal it folds to (FourWayCardinal), the diagonal itself
(FourWayDiagonal). -/
def activeIn (mode : JoyMode) (prev k : Nat) : Bool :=
  match mode with
  | JoyMode.StandardMode => isCardinal k && hasFlag prev k
  | JoyMode.EightWayMode => (isCardinal k || isDiagonal k) && k == prev
  | JoyMode.FourWayCardinal => k != 0 && k == foldCardinal prev
  | JoyMode.FourWayDiagonal => isDiagonal k && k == prev

/-- The lock a committed direction goes with in a mode. -/
def lockOf (mode : JoyMode) (addr prev : Nat) : Option ButtonRef :=
  if (mode = JoyMode.EightWayMode ∨ mode = JoyMode.FourWayDiagonal) ∧ isDiagonal prev = true then
    some { owner := addr, direction := prev }
  else none

/-- The buttons and the lock agree with the committed direction under the
current mode. -/
def Consistent (s : JoyDPad) : Prop :=
  s.activeDiagonalButton = lockOf s.currentMode s.addr s.prevDirection ∧
  ∀ k, s.isActive k = activeIn s.currentMode s.prevDirection k

/-- Every `setJoyMode` of the sequence is applied in a state whose committed
direction is centered. -/
def modeChangesWhileCentered (s : JoyDPad) : List DPadAction → Bool
  | [] => true
  | a :: rest =>
    (match a with
      | DPadAction.setJoyMode _ => s.prevDirection == DpadCentered
      | _ => true) &&
    (match s.step a with
      | some s1 => modeChangesWhileCentered s1 rest
      | none => true)

/-- A freshly constructed DPad put in the given mode. -/
def freshIn (addr : Nat) (mode : JoyMode) : JoyDPad := (new addr).setJoyMode mode

/-- A sequence of submissions, each a raw direction with its bypass flag. -/
def submissions (ds : List (Nat × Bool)) : List DPadAction :=
  ds.map fun p => DPadAction.joyEvent p.1 p.2

/-- A run in which the mode is changed while Up and Right are committed:
Up-Right in Standard mode, then EightWay mode, then Up-Left. -/
def modeChangeRun : List DPadAction :=
  [DPadAction.joyEvent DpadRightUp false, DPadAction.setJoyMode JoyMode.EightWayMode,
   DPadAction.joyEvent DpadLeftUp false]

/-- A run in which the mode is changed while centered: EightWay mode, then Up,
then Up-Right. -/
def centeredModeChangeRun : List DPadAction :=
  [DPadAction.setJoyMode JoyMode.EightWayMode, DPadAction.joyEvent DpadUp false,
   DPadAction.joyEvent DpadRightUp false]

/-- A run that leaves Up pending over a committed Up-Right, the mode having
been changed to EightWay after the commit of Up-Right in Standard mode. -/
def pendingAfterModeChangeRun : List DPadAction :=
  [DPadAction.setDPadDelay 10, DPadAction.joyEvent DpadRightUp true,
   DPadAction.setJoyMode JoyMode.EightWayMode, DPadAction.joyEvent DpadUp false]

/-- The state a run from a freshly constructed DPad ends in (the fresh DPad
itself if the run fails). -/
def stateAfter (addr : Nat) (acts : List DPadAction) : JoyDPad :=
  (run (new addr) acts).getD (new addr)

/-- A freshly constructed DPad put in FourWayDiagonal mode, then Up committed
and then Right committed. -/
def cardinalSweep : List (Nat × Bool) := [(DpadUp, false), (DpadRight, false)]

/-- The signals `joyEvent` emits for a value different from the pending
direction: `released` for the centered value, `active` for another value when
the committed direction is centered, nothing otherwise. -/
def submissionSignals (s : JoyDPad) (value : Nat) : List Signal :=
  if value ≠ DpadCentered then
    if s.prevDirection = DpadCentered then [Signal.active value] else []
  else [Signal.released value]

/-- The state `joyEvent` works on once the submitted value is latched. -/
def latched (s : JoyDPad) (value : Nat) : JoyDPad :=
  { s with
    pendingDirection := value
    signals := s.signals ++ submissionSignals s value }

/-- A sample state: delay 50, Up committed, Down pending with the timer
running. -/
def sampleReversal : JoyDPad :=
  { new 0 with
    dpadDelay := 50
    prevDirection := DpadUp
    pendingDirection := DpadDown
    directionDelayTimer := { isActive := true, interval := 50 }
    timerCalls := [TimerCall.start 50] }

/-- A sequence of non-bypass submissions of raw directions. -/
def deferredSubmissions (ds : List Nat) : List DPadAction :=
  ds.map fun d => DPadAction.joyEvent d false

/-- A freshly constructed DPad whose delay has been set to 50. -/
def freshDelay50 : JoyDPad := setDPadDelay (new 0) 50

/-- Assignment of the three queue members `pendingEvent`,
`pendingEventDirection` and `pendingIgnoreSets`. -/
def withQueue (s : JoyDPad) (event : Bool) (direction : Nat) (ignoresets : Bool) : JoyDPad :=
  { s with
    pendingEvent := event
    pendingEventDirection := direction
    pendingIgnoreSets := ignoresets }

/-- The method `JoyDPad::queuePendingEvent`. -/
def queuePendingEvent (s : JoyDPad) (value : Nat) (ignoresets : Bool) : JoyDPad :=
  withQueue s true value ignoresets

/-- The method `JoyDPad::clearPendingEvent`. -/
def clearPendingEvent (s : JoyDPad) : JoyDPad :=
  withQueue s false DpadCentered false

/-- The method `JoyDPad::activatePendingEvent`: the queued submission is
applied with `joyEvent` and the three queue members are reset afterwards. -/
def activatePendingEvent (s : JoyDPad) : Option JoyDPad :=
  if s.pendingEvent then
    (joyEvent s s.pendingEventDirection s.pendingIgnoreSets).map fun s1 =>
      withQueue s1 false DpadCentered false
  else some s

/-- The method `JoyDPad::hasPendingEvent`. -/
def hasPendingEvent (s : JoyDPad) : Bool := s.pendingEvent

/-- A sample state: a freshly constructed DPad with Down queued. -/
def sampleQueued : JoyDPad := queuePendingEvent (new 0) DpadDown false

/-- The keys under which `populateButtons` stores the eight buttons, in the
order of insertion. -/
def buttonKeys : List Nat :=
  [DpadUp, DpadDown, DpadRight, DpadLeft, DpadLeftUp, DpadRightUp, DpadRightDown, DpadLeftDown]

/-- A sequence in which a `QHashIterator` over `buttons` can visit the keys:
each of the eight keys once, in an order that the hash decides and that the
methods iterating over `buttons` therefore take as a parameter. -/
def IterationOrder (order : List Nat) : Prop := order.Perm buttonKeys

/-- The method `JoyDPad::isDefault`, with the answers of the buttons'
own `isDefault()` (a method of `JoyDPadButton`, not among the sources) given
by `defaults`. -/
def isDefault (order : List Nat) (defaults : ButtonRef → Bool) (s : JoyDPad) : Bool :=
  order.foldl
    (fun value k =>
      match s.buttons_value k with
      | some button => value && defaults button
      | none => value)
    ((true && decide (s.currentMode = JoyMode.StandardMode)) &&
      decide (s.dpadDelay = DEFAULTDPADDELAY))

/-- The method `JoyDPad::copyAssignments`, called on `src` with argument
`dest`, as a function to the source (which may emit `propertyUpdated`), the
destination and the buttons' default answers afterwards.  `copyButton w a b`
is what `a->copyAssignments(b)` of `JoyDPadButton` (not among the sources)
makes of the buttons' default answers `w`; a destination button's
`getDirection()` is the key it is stored under. -/
def copyAssignments (order : List Nat)
    (copyButton : (ButtonRef → Bool) → ButtonRef → ButtonRef → (ButtonRef → Bool))
    (defaults : ButtonRef → Bool) (src dest : JoyDPad) :
    JoyDPad × JoyDPad × (ButtonRef → Bool) :=
  let dest1 : JoyDPad :=
    { dest with
      activeDiagonalButton := src.activeDiagonalButton
      prevDirection := src.prevDirection
      currentMode := src.currentMode
      dpadDelay := src.dpadDelay }
  let defaults1 := order.foldl
    (fun w k =>
      match dest.buttons_value k with
      | some destButton =>
        match src.buttons_value destButton.direction with
        | some sourceButton => copyButton w sourceButton destButton
        | none => w
      | none => w)
    defaults
  let src1 := if isDefault order defaults1 dest1 then src else src.emit Signal.propertyUpdated
  (src1, dest1, defaults1)

/-- The method `JoyDPad::releaseButtonEvents`: `joyEvent(false, true)` on
every button of `buttons`, in the order of the iterator. -/
def releaseButtonEvents (order : List Nat) (s : JoyDPad) : JoyDPad :=
  order.foldl
    (fun acc k =>
      match s.buttons_value k with
      | some button => acc.buttonJoyEvent button false true
      | none => acc)
    s

/-- The method `JoyDPad::getApplicableButtons`: the entries inserted in the
hash it returns, each a key with the pointer `buttons.value(key)`. -/
def getApplicableButtons (s : JoyDPad) : List (Nat × Option ButtonRef) :=
  (if s.currentMode = JoyMode.StandardMode ∨ s.currentMode = JoyMode.EightWayMode ∨
      s.currentMode = JoyMode.FourWayCardinal then
    [(DpadUp, s.buttons_value DpadUp), (DpadDown, s.buttons_value DpadDown),
     (DpadLeft, s.buttons_value DpadLeft), (DpadRight, s.buttons_value DpadRight)]
  else []) ++
  (if s.currentMode = JoyMode.EightWayMode ∨ s.currentMode = JoyMode.FourWayDiagonal then
    [(DpadLeftUp, s.buttons_value DpadLeftUp), (DpadRightUp, s.buttons_value DpadRightUp),
     (DpadRightDown, s.buttons_value DpadRightDown), (DpadLeftDown, s.buttons_value DpadLeftDown)]
  else [])

/-- Button defaults in which only the Left button of DPad 0 is not default. -/
def sampleDefaults : ButtonRef → Bool :=
  fun b => !(b == { owner := 0, direction := DpadLeft })

/-- A button copy that sets the destination's default answer to the
source's and leaves every other button alone. -/
def sampleCopyButton (w : ButtonRef → Bool) (a b : ButtonRef) : ButtonRef → Bool :=
  fun c => if c = b then w a else w c

/-- A sample state: a freshly constructed DPad with Up+Down (5) pending. -/
def sampleUpDownPending : JoyDPad :=
  { new 0 with pendingDirection := 5 }

/-- A sample state: EightWay mode, the unnamed value Up+Down (5) committed,
Up pending, no lock held. -/
def sampleUnnamedCommitted : JoyDPad :=
  { new 0 with
    currentMode := JoyMode.EightWayMode
    prevDirection := 5
    pendingDirection := DpadUp }

/-- A sample state: EightWay mode, centered, the unnamed value Up+Down (5)
pending, no lock held. -/
def sampleUnnamedPending : JoyDPad :=
  { new 0 with
    currentMode := JoyMode.EightWayMode
    pendingDirection := 5 }

/-- Every submission of the sequence is of one of the nine named directions. -/
def namedSubmissionsOnly (acts : List DPadAction) : Bool :=
  acts.all fun a =>
    match a with
    | DPadAction.joyEvent value _ => isNamed value
    | _ => true

/-- A run that changes the mode while Up and Right are held and then
returns to the centered value: Up-Right in Standard mode, then EightWay mode,
then Centered. -/
def staleCenteredRun : List DPadAction :=
  [DPadAction.joyEvent DpadRightUp false, DPadAction.setJoyMode JoyMode.EightWayMode,
   DPadAction.joyEvent DpadCentered false]

/-- A run in which every mode change is made while centered: Up-Right and
back to Centered in Standard mode, then EightWay mode, Up-Left, a delay of
20, Centered deferred and the timer firing. -/
def centeredRun : List DPadAction :=
  [DPadAction.joyEvent DpadRightUp false, DPadAction.joyEvent DpadCentered true,
   DPadAction.setJoyMode JoyMode.EightWayMode, DPadAction.joyEvent DpadLeftUp false,
   DPadAction.setDPadDelay 20, DPadAction.joyEvent DpadCentered false, DPadAction.timeout]

/-- The direction committed last by a sequence of submissions on a DPad
without delay: the last submitted value, or `d0` for the empty sequence. -/
def lastSubmitted (d0 : Nat) (ds : List (Nat × Bool)) : Nat :=
  ds.foldl (fun _ p => p.1) d0

/-- A sweep over all nine named directions, ending on Down-Left. -/
def fullSweep : List (Nat × Bool) :=
  [(DpadUp, false), (DpadRightUp, false), (DpadRight, true), (DpadRightDown, false),
   (DpadDown, false), (DpadCentered, false), (DpadLeftUp, true), (DpadLeft, false),
   (DpadLeftDown, false)]

/-- The character of a decimal digit. -/
def digitChar (n : Nat) : Char :=
  match n with
  | 0 => '0'
  | 1 => '1'
  | 2 => '2'
  | 3 => '3'
  | 4 => '4'
  | 5 => '5'
  | 6 => '6'
  | 7 => '7'
  | 8 => '8'
  | _ => '9'

/-- The value of a decimal digit character, nothing for any other character. -/
def digitValue (c : Char) : Option Nat :=
  if c = '0' then some 0
  else if c = '1' then some 1
  else if c = '2' then some 2
  else if c = '3' then some 3
  else if c = '4' then some 4
  else if c = '5' then some 5
  else if c = '6' then some 6
  else if c = '7' then some 7
  else if c = '8' then some 8
  else if c = '9' then some 9
  else none

/-- The decimal digits of a natural number, most significant first; `fuel`
bounds the number of digits. -/
def renderNat : Nat → Nat → List Char
  | 0, _ => []
  | fuel + 1, n => (if n / 10 = 0 then [] else renderNat fuel (n / 10)) ++ [digitChar (n % 10)]

/-- The natural number a sequence of decimal digits denotes, continuing from
`acc`; nothing if a character is not a digit. -/
def parseDigits : List Char → Nat → Option Nat
  | [], acc => some acc
  | c :: cs, acc =>
    match digitValue c with
    | some v => parseDigits cs (acc * 10 + v)
    | none => none

/-- The function `QString::number(int)` of Qt in base 10: the decimal digits,
after a minus sign for a negative number. -/
def QString_number (n : Int) : String :=
  if n < 0 then String.mk ('-' :: renderNat (n.natAbs + 1) n.natAbs)
  else String.mk (renderNat (n.natAbs + 1) n.natAbs)

/-- The function `QChar::isSpace` of Qt: the space, the controls U+0009 to
U+000D, U+0085, U+00A0 and the characters of the Unicode separator
categories (U+1680, U+2000 to U+200A, U+2028, U+2029, U+202F, U+205F,
U+3000). -/
def QChar_isSpace (c : Char) : Bool :=
  c.toNat == 0x20 || (0x09 ≤ c.toNat && c.toNat ≤ 0x0d) || c.toNat == 0x85 ||
  c.toNat == 0xa0 || c.toNat == 0x1680 || (0x2000 ≤ c.toNat && c.toNat ≤ 0x200a) ||
  c.toNat == 0x2028 || c.toNat == 0x2029 || c.toNat == 0x202f || c.toNat == 0x205f ||
  c.toNat == 0x3000

/-- A text without its leading and trailing whitespace, which the
conversion of a text to a number skips. -/
def trimSpace (cs : List Char) : List Char :=
  ((cs.dropWhile QChar_isSpace).reverse.dropWhile QChar_isSpace).reverse

/-- The optional sign of a trimmed text, taken off: whether it is a minus
sign (the hyphen-minus or U+2212), and the rest of the text; a plus sign is
taken off as well. -/
def splitSign (cs : List Char) : Bool × List Char :=
  match cs with
  | [] => (false, [])
  | c :: rest =>
    if c = '-' ∨ c.toNat = 0x2212 then (true, rest)
    else if c = '+' then (false, rest)
    else (false, c :: rest)

/-- The function `QString::toInt()` of Qt in base 10: leading and trailing
whitespace is skipped; an optional sign followed by at least one decimal
digit and nothing else denotes its number when that fits an `int`; the
conversion of any other text fails, and a failed conversion returns 0. -/
def QString_toInt (t : String) : Int :=
  let body := splitSign (trimSpace t.data)
  let converted : Option Int :=
    if body.2 = [] then none
    else (parseDigits body.2 0).map fun (v : Nat) => if body.1 then -(v : Int) else (v : Int)
  match converted with
  | some v => if -2147483648 ≤ v ∧ v ≤ 2147483647 then v else 0
  | none => 0

/-- Whether a text is a decimal number: once the surrounding whitespace and
an optional sign are set aside, what is left is not empty and consists of
decimal digits only. -/
def isDecimalNumber (t : String) : Bool :=
  !(splitSign (trimSpace t.data)).2.isEmpty &&
    (splitSign (trimSpace t.data)).2.all fun c => (digitValue c).isSome

/-- The token a `QXmlStreamReader` stands on, as `readMainConfig` looks at
it: `name()`, `isStartElement()`, the value of the attribute `index` (empty
when there is none) and the text that `readElementText()` returns. -/
structure XmlElement where
  name : String
  isStartElement : Bool
  index : String
  text : String
  deriving DecidableEq, Repr

/-- The calls that move a `QXmlStreamReader` forward. -/
inductive ReaderCall where
  | readElementText
  | skipCurrentElement
  | buttonReadConfig (button : ButtonRef)
  deriving DecidableEq, Repr

/-- The calls made on a `QXmlStreamWriter`; `buttonWriteConfig b` is the
call `b->writeConfig(xml)` of `JoyDPadButton` (not among the sources). -/
inductive XmlWrite where
  | writeStartElement (name : String)
  | writeAttribute (name value : String)
  | writeTextElement (name text : String)
  | buttonWriteConfig (button : ButtonRef)
  | writeEndElement
  deriving DecidableEq, Repr

/-- The static member `JoyDPad::xmlName`. -/
def xmlName : String := "dpad"

/-- The method `JoyDPad::getXmlName`. -/
def getXmlName : String := xmlName

/-- The method `JoyDPad::getJoyButton`: `buttons.value(index)`. -/
def getJoyButton (s : JoyDPad) (index : Int) : Option ButtonRef :=
  if 0 ≤ index then s.buttons_value index.toNat else none

/-- The method `JoyDPad::readMainConfig` on the token the reader stands on:
the value returned, the DPad afterwards and the calls made on the reader. -/
def readMainConfig (s : JoyDPad) (xml : XmlElement) : Bool × JoyDPad × List ReaderCall :=
  if xml.name = "dpadbutton" ∧ xml.isStartElement = true then
    let index := QString_toInt xml.index
    match s.getJoyButton index with
    | some button => (true, s, [ReaderCall.buttonReadConfig button])
    | none => (true, s, [ReaderCall.skipCurrentElement])
  else if xml.name = "mode" ∧ xml.isStartElement = true then
    let temptext := xml.text
    if temptext = "eight-way" then
      (true, s.setJoyMode JoyMode.EightWayMode, [ReaderCall.readElementText])
    else if temptext = "four-way" then
      (true, s.setJoyMode JoyMode.FourWayCardinal, [ReaderCall.readElementText])
    else if temptext = "diagonal" then
      (true, s.setJoyMode JoyMode.FourWayDiagonal, [ReaderCall.readElementText])
    else (true, s, [ReaderCall.readElementText])
  else if xml.name = "dpadDelay" ∧ xml.isStartElement = true then
    let temptext := xml.text
    let tempchoice := QString_toInt temptext
    (true, s.setDPadDelay tempchoice, [ReaderCall.readElementText])
  else (false, s, [])

/-- The method `JoyDPad::writeConfig`: the calls made on the writer.  The
member `index` is given as a parameter, the order of the iterator over
`buttons` and the buttons' default answers as for `isDefault`. -/
def writeConfig (order : List Nat) (defaults : ButtonRef → Bool) (index : Int) (s : JoyDPad) :
    List XmlWrite :=
  if !isDefault order defaults s then
    [XmlWrite.writeStartElement getXmlName,
     XmlWrite.writeAttribute "index" (QString_number (index + 1))] ++
    (if s.currentMode = JoyMode.EightWayMode then
      [XmlWrite.writeTextElement "mode" "eight-way"]
    else if s.currentMode = JoyMode.FourWayCardinal then
      [XmlWrite.writeTextElement "mode" "four-way"]
    else if s.currentMode = JoyMode.FourWayDiagonal then
      [XmlWrite.writeTextElement "mode" "diagonal"]
    else []) ++
    (if s.dpadDelay > DEFAULTDPADDELAY then
      [XmlWrite.writeTextElement "dpadDelay" (QString_number s.dpadDelay)]
    else []) ++
    order.filterMap (fun k => (s.buttons_value k).map XmlWrite.buttonWriteConfig) ++
    [XmlWrite.writeEndElement]
  else []

/-- The token a reader stands on at the start of an element that
`writeTextElement(name, text)` wrote. -/
def writtenElement (name text : String) : XmlElement :=
  { name := name, isStartElement := true, index := "", text := text }

/-- The text elements among the calls made on a writer, as the tokens a
reader finds for them. -/
def textElements (ws : List XmlWrite) : List XmlElement :=
  ws.filterMap fun w =>
    match w with
    | XmlWrite.writeTextElement name text => some (writtenElement name text)
    | _ => none

/-- The method `readMainConfig` called on each element of a sequence in turn. -/
def readElements (s : JoyDPad) (xmls : List XmlElement) : JoyDPad :=
  xmls.foldl (fun acc xml => (acc.readMainConfig xml).2.1) s

/-- A sample state: FourWayCardinal mode with a delay of 50 ms. -/
def sampleConfigured : JoyDPad := (freshIn 0 JoyMode.FourWayCardinal).setDPadDelay 50

/-- A run with a delay of 50 ms: Up is submitted, then Right before the timer
fires, then the timer fires. -/
def retargetedRun : List DPadAction :=
  [DPadAction.setDPadDelay 50, DPadAction.joyEvent DpadUp false,
   DPadAction.joyEvent DpadRight false, DPadAction.timeout]

/-- A run that ends with a latched target and the timer running: a delay of
50 ms, then Up submitted. -/
def latchedRun : List DPadAction :=
  [DPadAction.setDPadDelay 50, DPadAction.joyEvent DpadUp false]

/-- The states reached from freshly constructed DPads by calls of
`setDPadDelay`, of `readMainConfig` and of `copyAssignments` between DPads
reached in the same way; a call of `copyAssignments` reaches a state of the
source and a state of the destination. -/
inductive ConfigReachable : JoyDPad → Prop where
  | fresh (addr : Nat) : ConfigReachable (new addr)
  | setDPadDelay (s : JoyDPad) (value : Int) :
    ConfigReachable s → ConfigReachable (s.setDPadDelay value)
  | readMainConfig (s : JoyDPad) (xml : XmlElement) :
    ConfigReachable s → ConfigReachable (s.readMainConfig xml).2.1
  | copySource (order : List Nat)
    (copyButton : (ButtonRef → Bool) → ButtonRef → ButtonRef → (ButtonRef → Bool))
    (defaults : ButtonRef → Bool) (src dest : JoyDPad) :
    ConfigReachable src → ConfigReachable dest →
    ConfigReachable (copyAssignments order copyButton defaults src dest).1
  | copyDestination (order : List Nat)
    (copyButton : (ButtonRef → Bool) → ButtonRef → ButtonRef → (ButtonRef → Bool))
    (defaults : ButtonRef → Bool) (src dest : JoyDPad) :
    ConfigReachable src → ConfigReachable dest →
    ConfigReachable (copyAssignments order copyButton defaults src dest).2.1

/-- A sample destination of a copy: a freshly constructed DPad that has read
a `dpadDelay` entry with the text "5000". -/
def sampleOutOfRange : JoyDPad :=
  ((new 1).readMainConfig (writtenElement "dpadDelay" "5000")).2.1

/-- The sample destination after `copyAssignments` from a DPad with a delay
of 50 ms. -/
def sampleCopied : JoyDPad :=
  (copyAssignments buttonKeys sampleCopyButton sampleDefaults freshDelay50 sampleOutOfRange).2.1

/-- A sequence of submissions and timer firings: an entry with a raw
direction and its bypass flag is a submission, an entry without is a firing
of the timer. -/
def eventsAndFirings (es : List (Option (Nat × Bool))) : List DPadAction :=
  es.map fun e =>
    match e with
    | some p => DPadAction.joyEvent p.1 p.2
    | none => DPadAction.timeout

/-- One signal read against the record of the log so far: `some started`
while no `active` has followed another without a `released` in between,
`started` telling whether an `active` has been emitted since the last
`released`; `none` once that has happened. -/
def noteSignal (record : Option Bool) (sig : Signal) : Option Bool :=
  match record, sig with
  | some started, Signal.active _ => if started then none else some true
  | some _, Signal.released _ => some false
  | record, _ => record

/-- The record of a whole signal log. -/
def activityRecord (log : List Signal) : Option Bool :=
  log.foldl noteSignal (some false)

/-- Whether `active` is emitted at most once before the first `released` and
at most once between any two consecutive `released` signals of a log. -/
def activeOncePerRelease (log : List Signal) : Bool :=
  (activityRecord log).isSome

/-- A sample sequence: Up, Up-Right, a timer firing, Centered, Left, Left
again, Centered with bypass. -/
def sampleEvents : List (Option (Nat × Bool)) :=
  [some (DpadUp, false), some (DpadRightUp, false), none, some (DpadCentered, false),
   some (DpadLeft, true), some (DpadLeft, false), some (DpadCentered, true)]

/-- A run with a delay of 50 ms in which Up and then Right are submitted
before the timer fires. -/
def deferredTwice : List DPadAction :=
  [DPadAction.setDPadDelay 50, DPadAction.joyEvent DpadUp false,
   DPadAction.joyEvent DpadRight false]

/-- The method `JoyDPad::getDirectionButtons`: the entries inserted in the
hash it returns, each a key with the pointer `buttons.value(key)`, in the
order of insertion. -/
def getDirectionButtons (s : JoyDPad) (direction : Nat) : List (Nat × Option ButtonRef) :=
  if s.currentMode = JoyMode.StandardMode then
    (if hasFlag direction DpadUp then [(DpadUp, s.buttons_value DpadUp)] else []) ++
    (if hasFlag direction DpadDown then [(DpadDown, s.buttons_value DpadDown)] else []) ++
    (if hasFlag direction DpadLeft then [(DpadLeft, s.buttons_value DpadLeft)] else []) ++
    (if hasFlag direction DpadRight then [(DpadRight, s.buttons_value DpadRight)] else [])
  else if s.currentMode = JoyMode.EightWayMode then
    if direction ≠ DpadCentered then [(direction, s.buttons_value direction)] else []
  else if s.currentMode = JoyMode.FourWayCardinal then
    if direction = DpadUp ∨ direction = DpadDown ∨ direction = DpadLeft ∨
        direction = DpadRight then
      [(direction, s.buttons_value direction)]
    else []
  else if s.currentMode = JoyMode.FourWayDiagonal then
    if direction = DpadRightUp ∨ direction = DpadRightDown ∨ direction = DpadLeftDown ∨
        direction = DpadLeftUp then
      [(direction, s.buttons_value direction)]
    else []
  else []

/-- The entry of a hash of buttons that an activation call corresponds to:
the key of the button called, with the pointer to it. -/
def calledEntry (c : ButtonCall) : Nat × Option ButtonRef :=
  (c.button.direction, some c.button)

/-- A sample state: FourWayCardinal mode, centered, Up-Right pending. -/
def sampleFoldPending : JoyDPad :=
  { freshIn 0 JoyMode.FourWayCardinal with pendingDirection := DpadRightUp }

/-- A sample state: EightWay mode, centered, Up-Left pending. -/
def sampleEightWayPending : JoyDPad :=
  { freshIn 0 JoyMode.EightWayMode with pendingDirection := DpadLeftUp }

/-- A run that leaves Up committed and Down pending with the timer running: a
delay of 50 ms, Up submitted with bypass, Down submitted without. -/
def reversalRun : List DPadAction :=
  [DPadAction.setDPadDelay 50, DPadAction.joyEvent DpadUp true,
   DPadAction.joyEvent DpadDown false]

/-- A run that leaves Up-Right committed in EightWay mode, the lock holding
the Up-Right button. -/
def diagonalHeldRun : List DPadAction :=
  [DPadAction.setJoyMode JoyMode.EightWayMode, DPadAction.joyEvent DpadRightUp false]

/-- The state that `reversalRun` reaches, after `releaseButtonEvents()`. -/
def sampleReleased : JoyDPad := releaseButtonEvents buttonKeys (stateAfter 0 reversalRun)

/-- The destination of `copyAssignments` from the state that
`diagonalHeldRun` reaches on DPad 0 to a freshly constructed DPad 1. -/
def sampleCopiedLock : JoyDPad :=
  (copyAssignments buttonKeys sampleCopyButton sampleDefaults (stateAfter 0 diagonalHeldRun)
    (new 1)).2.1

end JoyDPad

/-! ## Properties of the commit and of the submission -/

namespace JoyDPad

theorem foldCardinal_cases (d : Nat) :
    (foldCardinal d = 0 ∧ d ≠ 1 ∧ d ≠ 3 ∧ d ≠ 4 ∧ d ≠ 12 ∧ d ≠ 8 ∧ d ≠ 9 ∧ d ≠ 2 ∧ d ≠ 6) ∨
    (foldCardinal d = 1 ∧ (d = 1 ∨ d = 3)) ∨ (foldCardinal d = 4 ∧ (d = 4 ∨ d = 12)) ∨
    (foldCardinal d = 8 ∧ (d = 8 ∨ d = 9)) ∨ (foldCardinal d = 2 ∧ (d = 2 ∨ d = 6)) := by
  unfold foldCardinal
  split_ifs <;> simp_all

theorem buttons_value_eq (s : JoyDPad) (k : Nat) :
    s.buttons_value k =
      if isCardinal k ∨ isDiagonal k then some { owner := s.addr, direction := k } else none := by
  unfold buttons_value isCardinal isDiagonal
  by_cases h1 : k = DpadUp <;> by_cases h2 : k = DpadDown <;> by_cases h3 : k = DpadRight <;>
  by_cases h4 : k = DpadLeft <;> by_cases h5 : k = DpadLeftUp <;> by_cases h6 : k = DpadRightUp <;>
  by_cases h7 : k = DpadRightDown <;> by_cases h8 : k = DpadLeftDown <;> simp [*]

theorem fourWayCardinalPrevButton_eq (s : JoyDPad) (value : Nat) :
    fourWayCardinalPrevButton s value =
      if foldCardinal s.prevDirection ≠ 0 ∧ foldCardinal value ≠ foldCardinal s.prevDirection then
        some { owner := s.addr, direction := foldCardinal s.prevDirection }
      else none := by
  generalize hp : s.prevDirection = prev
  simp only [fourWayCardinalPrevButton, buttons_value, hp]
  rcases foldCardinal_cases prev with
    ⟨h1, h2⟩ | ⟨h1, h2 | h2⟩ | ⟨h1, h2 | h2⟩ | ⟨h1, h2 | h2⟩ | ⟨h1, h2 | h2⟩ <;>
  rcases foldCardinal_cases value with
    ⟨g1, g2⟩ | ⟨g1, g2 | g2⟩ | ⟨g1, g2 | g2⟩ | ⟨g1, g2 | g2⟩ | ⟨g1, g2 | g2⟩ <;>
  simp_all [DpadUp, DpadDown, DpadLeft, DpadRight, DpadLeftUp, DpadRightUp,
    DpadRightDown, DpadLeftDown]

theorem releasePhase_eq (s : JoyDPad) (ig : Bool) :
    releasePhase s ig = (releaseCalls s ig).map fun l =>
      { s with buttonCalls := s.buttonCalls ++ l, activeDiagonalButton := none } := by
  cases s with
  | mk addr lock prev pend mode =>
  cases lock with
  | some b => simp [releasePhase, releaseCalls, buttonJoyEvent]
  | none =>
    cases mode
    · simp only [releasePhase, releaseCalls, standardCalls, callButtonIf, callButton,
        buttons_value, buttonJoyEvent, List.filter]
      cases hasFlag prev DpadUp && !hasFlag pend DpadUp <;>
      cases hasFlag prev DpadDown && !hasFlag pend DpadDown <;>
      cases hasFlag prev DpadLeft && !hasFlag pend DpadLeft <;>
      cases hasFlag prev DpadRight && !hasFlag pend DpadRight <;> simp
    · simp only [releasePhase, releaseCalls, callButton, buttons_value_eq, buttonJoyEvent]
      by_cases h0 : prev = 0
      · simp [h0]
      · by_cases hn : isCardinal prev ∨ isDiagonal prev <;> simp [h0, hn]
    · simp only [releasePhase, releaseCalls, fourWayCardinalPrevButton_eq, buttonJoyEvent]
      by_cases h0 : prev = 0
      · simp [h0, foldCardinal]
      · by_cases hn : foldCardinal prev ≠ 0 ∧ foldCardinal pend ≠ foldCardinal prev
        · simp [h0, hn]
        · simp only [h0, hn]; simp
    · simp only [releasePhase, releaseCalls, callButton, buttons_value_eq, buttonJoyEvent]
      by_cases h0 : prev = 0
      · simp [h0]
      · by_cases hn : isCardinal prev ∨ isDiagonal prev <;> simp [h0, hn]

theorem isDiagonal_cases (d : Nat) :
    (isDiagonal d = true ∧ (d = 9 ∨ d = 3 ∨ d = 6 ∨ d = 12)) ∨
    (isDiagonal d = false ∧ d ≠ 9 ∧ d ≠ 3 ∧ d ≠ 6 ∧ d ≠ 12) := by
  unfold isDiagonal
  by_cases h1 : d = 9 <;> by_cases h2 : d = 3 <;> by_cases h3 : d = 6 <;>
  by_cases h4 : d = 12 <;> simp [*]

theorem isCardinal_cases (d : Nat) :
    (isCardinal d = true ∧ (d = 1 ∨ d = 4 ∨ d = 8 ∨ d = 2)) ∨
    (isCardinal d = false ∧ d ≠ 1 ∧ d ≠ 4 ∧ d ≠ 8 ∧ d ≠ 2) := by
  unfold isCardinal
  by_cases h1 : d = 1 <;> by_cases h2 : d = 4 <;> by_cases h3 : d = 8 <;>
  by_cases h4 : d = 2 <;> simp [*]

theorem activatePhase_eq (s : JoyDPad) (ig : Bool) :
    activatePhase s ig = some
      { s with buttonCalls := s.buttonCalls ++ activateCalls s ig,
               activeDiagonalButton :=
                 match lockAfter s with
                 | some b => some b
                 | none => s.activeDiagonalButton } := by
  cases s with
  | mk addr lock prev pend mode =>
  cases mode
  · simp only [activatePhase, activateCalls, lockAfter, standardCalls, callButtonIf, callButton,
      buttons_value, buttonJoyEvent, List.filter]
    cases hasFlag pend DpadUp && !hasFlag prev DpadUp <;>
    cases hasFlag pend DpadDown && !hasFlag prev DpadDown <;>
    cases hasFlag pend DpadLeft && !hasFlag prev DpadLeft <;>
    cases hasFlag pend DpadRight && !hasFlag prev DpadRight <;> simp
  · simp only [activatePhase, activateCalls, lockAfter, callButton, activateDiagonal,
      buttons_value, buttonJoyEvent]
    rcases isDiagonal_cases pend with ⟨h1, h2 | h2 | h2 | h2⟩ | ⟨h1, h2⟩ <;>
    rcases isCardinal_cases pend with ⟨g1, g2 | g2 | g2 | g2⟩ | ⟨g1, g2⟩ <;>
    simp_all [DpadUp, DpadDown, DpadLeft, DpadRight, DpadLeftUp, DpadRightUp,
      DpadRightDown, DpadLeftDown]
  · simp only [activatePhase, activateCalls, lockAfter, callButton,
      buttons_value, buttonJoyEvent]
    rcases foldCardinal_cases pend with
      ⟨g1, g2⟩ | ⟨g1, g2 | g2⟩ | ⟨g1, g2 | g2⟩ | ⟨g1, g2 | g2⟩ | ⟨g1, g2 | g2⟩ <;>
    simp_all [DpadUp, DpadDown, DpadLeft, DpadRight, DpadLeftUp, DpadRightUp,
      DpadRightDown, DpadLeftDown]
  · simp only [activatePhase, activateCalls, lockAfter, callButton, activateDiagonal,
      buttons_value, buttonJoyEvent]
    rcases isDiagonal_cases pend with ⟨h1, h2 | h2 | h2 | h2⟩ | ⟨h1, h2⟩ <;>
    simp_all [DpadUp, DpadDown, DpadLeft, DpadRight, DpadLeftUp, DpadRightUp,
      DpadRightDown, DpadLeftDown]

theorem createDeskEvent_eq (s : JoyDPad) (ig : Bool) :
    createDeskEvent s ig =
      if s.pendingDirection ≠ s.prevDirection then
        (releaseCalls s ig).map fun rel =>
          { s with buttonCalls := s.buttonCalls ++ rel ++ activateCalls s ig,
                   activeDiagonalButton := lockAfter s,
                   prevDirection := s.pendingDirection }
      else some s := by
  unfold createDeskEvent
  by_cases h : s.pendingDirection = s.prevDirection
  · simp [h]
  · simp only [ne_eq, h, not_false_eq_true, if_true, releasePhase_eq, activatePhase_eq]
    cases releaseCalls s ig with
    | none => simp
    | some rel =>
      simp [activateCalls, lockAfter]
      split_ifs <;> rfl

theorem createDeskEvent_frame (s s' : JoyDPad) (ig : Bool) (h : createDeskEvent s ig = some s') :
    s' = { s with buttonCalls := s'.buttonCalls,
                  activeDiagonalButton := s'.activeDiagonalButton,
                  prevDirection := s.pendingDirection } := by
  rw [createDeskEvent_eq] at h
  by_cases hp : s.pendingDirection = s.prevDirection
  · simp [hp] at h; subst h; cases s; simp_all
  · simp only [ne_eq, hp, not_false_eq_true, if_true, Option.map_eq_some'] at h
    obtain ⟨rel, -, rfl⟩ := h
    rfl

theorem releaseCalls_isSome_of_named (s : JoyDPad) (ig : Bool)
    (h : isNamed s.prevDirection = true) : ∃ rel, releaseCalls s ig = some rel := by
  unfold releaseCalls
  cases s.activeDiagonalButton with
  | some b => exact ⟨_, rfl⟩
  | none =>
    cases s.currentMode <;> simp only
    · exact ⟨_, rfl⟩
    · by_cases h0 : s.prevDirection = 0
      · simp [h0]
      · have : isCardinal s.prevDirection = true ∨ isDiagonal s.prevDirection = true := by
          simpa [isNamed, h0] using h
        simp [h0, this]
    · split_ifs <;> exact ⟨_, rfl⟩
    · by_cases h0 : s.prevDirection = 0
      · simp [h0]
      · have : isCardinal s.prevDirection = true ∨ isDiagonal s.prevDirection = true := by
          simpa [isNamed, h0] using h
        simp [h0, this]

theorem createDeskEvent_isSome_of_named (s : JoyDPad) (ig : Bool)
    (h : isNamed s.prevDirection = true) : ∃ s', createDeskEvent s ig = some s' := by
  rw [createDeskEvent_eq]
  obtain ⟨rel, hrel⟩ := releaseCalls_isSome_of_named s ig h
  split_ifs
  · simp [hrel]
  · exact ⟨_, rfl⟩

theorem standardCalls_pressed (addr d1 d2 : Nat) (p ig : Bool) :
    ∀ c ∈ standardCalls addr d1 d2 p ig, c.pressed = p := by
  intro c hc
  simp only [standardCalls, List.mem_map] at hc
  obtain ⟨k, -, rfl⟩ := hc
  rfl

theorem releaseCalls_pressed (s : JoyDPad) (ig : Bool) (rel : List ButtonCall)
    (h : releaseCalls s ig = some rel) : ∀ c ∈ rel, c.pressed = false := by
  unfold releaseCalls at h
  split at h
  · simp at h; subst h; simp
  · split at h
    · simp at h; subst h; exact standardCalls_pressed _ _ _ _ _
    · split_ifs at h <;> simp at h <;> subst h <;> simp
    · split_ifs at h <;> simp at h <;> subst h <;> simp

theorem activateCalls_pressed (s : JoyDPad) (ig : Bool) :
    ∀ c ∈ activateCalls s ig, c.pressed = true := by
  unfold activateCalls
  split
  · exact standardCalls_pressed _ _ _ _ _
  all_goals split_ifs <;> simp

/-- C1: in every mode, for every committed direction and every state of the
diagonal lock, a commit whose pending target equals the committed direction
succeeds and returns the state it was given: no button call is added and the
committed direction and the lock are what they were. -/
theorem createDeskEvent_same_direction_noop (s : JoyDPad) (ig : Bool)
    (h : s.pendingDirection = s.prevDirection) :
    createDeskEvent s ig = some s ∧
      ∀ s', createDeskEvent s ig = some s' →
        s'.buttonCalls = s.buttonCalls ∧ s'.prevDirection = s.prevDirection ∧
        s'.activeDiagonalButton = s.activeDiagonalButton := by
  have h1 : createDeskEvent s ig = some s := by simp [createDeskEvent, h]
  refine ⟨h1, ?_⟩
  intro s' hs
  rw [h1] at hs
  cases hs
  exact ⟨rfl, rfl, rfl⟩

theorem createDeskEvent_same_direction_noop_witness :
    createDeskEvent
        { new 7 with prevDirection := DpadRightUp, pendingDirection := DpadRightUp,
                     currentMode := JoyMode.EightWayMode,
                     activeDiagonalButton := some { owner := 7, direction := DpadRightUp } } true =
      some { new 7 with prevDirection := DpadRightUp, pendingDirection := DpadRightUp,
                        currentMode := JoyMode.EightWayMode,
                        activeDiagonalButton := some { owner := 7, direction := DpadRightUp } } :=
  (createDeskEvent_same_direction_noop _ true rfl).1

/-- C2: the calls a commit adds to the call log split into a block of
deactivations followed by a block of activations, in every mode and for every
committed direction, pending direction and lock; and the commit does return
whenever the committed direction is one of the nine named directions. -/
theorem createDeskEvent_releases_before_activations (s : JoyDPad) (ig : Bool) :
    (∀ s', createDeskEvent s ig = some s' →
      ∃ rel act, s'.buttonCalls = s.buttonCalls ++ rel ++ act ∧
        (∀ c ∈ rel, c.pressed = false) ∧ (∀ c ∈ act, c.pressed = true)) ∧
    (isNamed s.prevDirection = true → ∃ s', createDeskEvent s ig = some s') := by
  refine ⟨?_, createDeskEvent_isSome_of_named s ig⟩
  intro s' h
  rw [createDeskEvent_eq] at h
  by_cases hp : s.pendingDirection = s.prevDirection
  · simp [hp] at h; subst h
    exact ⟨[], [], by simp, by simp, by simp⟩
  · simp only [ne_eq, hp, not_false_eq_true, if_true, Option.map_eq_some'] at h
    obtain ⟨rel, hrel, rfl⟩ := h
    exact ⟨rel, activateCalls s ig, rfl, releaseCalls_pressed s ig rel hrel,
      activateCalls_pressed s ig⟩

theorem createDeskEvent_releases_before_activations_witness :
    ∃ rel act,
      [({ button := { owner := 0, direction := DpadUp }, pressed := false, ignoresets := false } : ButtonCall),
        { button := { owner := 0, direction := DpadRight }, pressed := true, ignoresets := false }] =
        [] ++ rel ++ act ∧
      (∀ c ∈ rel, c.pressed = false) ∧ (∀ c ∈ act, c.pressed = true) :=
  (createDeskEvent_releases_before_activations
    { new 0 with prevDirection := DpadUp, pendingDirection := DpadRight } false).1
    { new 0 with prevDirection := DpadRight, pendingDirection := DpadRight
                 buttonCalls :=
                   [{ button := { owner := 0, direction := DpadUp }, pressed := false, ignoresets := false },
                    { button := { owner := 0, direction := DpadRight }, pressed := true, ignoresets := false }] }
    (by decide)

theorem stopTimerIfActive_frame (s : JoyDPad) :
    (stopTimerIfActive s).directionDelayTimer.isActive = false ∧
    (stopTimerIfActive s).pendingDirection = s.pendingDirection ∧
    (stopTimerIfActive s).prevDirection = s.prevDirection ∧
    (stopTimerIfActive s).activeDiagonalButton = s.activeDiagonalButton ∧
    (stopTimerIfActive s).currentMode = s.currentMode ∧
    (stopTimerIfActive s).addr = s.addr ∧
    (stopTimerIfActive s).buttonCalls = s.buttonCalls ∧
    (stopTimerIfActive s).dpadDelay = s.dpadDelay ∧
    (stopTimerIfActive s).signals = s.signals := by
  unfold stopTimerIfActive timerStop
  cases h : s.directionDelayTimer.isActive <;> simp [h]

/-- C9: for every state and every bypass flag, `joyEvent` with a value equal
to the pending direction returns the state it was given: no signal, no button
call and no timer call is added, the timer keeps its state, and the pending
direction, the committed direction and the lock are what they were. -/
theorem joyEvent_same_as_pending_ignored (s : JoyDPad) (ig : Bool) :
    joyEvent s s.pendingDirection ig = some s := by
  simp [joyEvent]

/-- The state `joyEvent` hands to the commit on its immediate branch: the
pending direction is the submitted value, the timer is stopped, and what the
commit reads of the rest is as in the state `joyEvent` was given. -/
theorem joyEvent_immediate_eq (s : JoyDPad) (value : Nat) (ig : Bool)
    (hv : value ≠ s.pendingDirection) (hb : ig = true ∨ s.dpadDelay = 0) :
    ∃ s0, joyEvent s value ig = createDeskEvent s0 ig ∧
      s0.directionDelayTimer.isActive = false ∧ s0.pendingDirection = value ∧
      s0.prevDirection = s.prevDirection ∧ s0.activeDiagonalButton = s.activeDiagonalButton ∧
      s0.currentMode = s.currentMode ∧ s0.addr = s.addr ∧ s0.buttonCalls = s.buttonCalls := by
  by_cases h0 : value = 0
  · subst h0
    refine ⟨stopTimerIfActive { s.emit (Signal.released 0) with pendingDirection := DpadCentered },
      ?_, ?_⟩
    · simp only [joyEvent, ne_eq, hv, not_false_eq_true, if_true]
      simp [hb, emit]
    · obtain ⟨h1, h2, h3, h4, h5, h6, h7, -⟩ := stopTimerIfActive_frame
        { s.emit (Signal.released 0) with pendingDirection := DpadCentered }
      exact ⟨h1, h2, h3, h4, h5, h6, h7⟩
  · by_cases hc : s.prevDirection = 0
    · refine ⟨stopTimerIfActive { s.emit (Signal.active value) with pendingDirection := value },
        ?_, ?_⟩
      · simp only [joyEvent, ne_eq, hv, not_false_eq_true, if_true, h0]
        simp [hb, emit, hc]
      · obtain ⟨h1, h2, h3, h4, h5, h6, h7, -⟩ := stopTimerIfActive_frame
          { s.emit (Signal.active value) with pendingDirection := value }
        exact ⟨h1, h2, h3, h4, h5, h6, h7⟩
    · refine ⟨stopTimerIfActive { s with pendingDirection := value }, ?_, ?_⟩
      · simp only [joyEvent, ne_eq, hv, not_false_eq_true, if_true, h0]
        simp [hb, hc]
      · obtain ⟨h1, h2, h3, h4, h5, h6, h7, -⟩ := stopTimerIfActive_frame
          { s with pendingDirection := value }
        exact ⟨h1, h2, h3, h4, h5, h6, h7⟩

/-- C10: when the submitted value differs from the pending direction and
bypass is requested or the delay is 0, whatever `joyEvent` returns is the
result of the commit from the committed direction, lock and mode of the state
it was given to the submitted value; in it the timer is not running and both
the pending and the committed direction are the submitted value.  `joyEvent`
does return when the committed direction is one of the nine named ones. -/
theorem joyEvent_immediate_commit (s : JoyDPad) (value : Nat) (ig : Bool)
    (hv : value ≠ s.pendingDirection) (hb : ig = true ∨ s.dpadDelay = 0) :
    (∀ s', joyEvent s value ig = some s' →
      s'.directionDelayTimer.isActive = false ∧ s'.pendingDirection = value ∧
      s'.prevDirection = value ∧
      ∃ s0, createDeskEvent s0 ig = some s' ∧ s0.pendingDirection = value ∧
        s0.prevDirection = s.prevDirection ∧
        s0.activeDiagonalButton = s.activeDiagonalButton ∧
        s0.currentMode = s.currentMode ∧ s0.addr = s.addr ∧
        s0.buttonCalls = s.buttonCalls) ∧
    (isNamed s.prevDirection = true → ∃ s', joyEvent s value ig = some s') := by
  obtain ⟨s0, hj, ht, hp, hc, hl, hm, ha, hb⟩ := joyEvent_immediate_eq s value ig hv hb
  constructor
  · intro s' hs
    rw [hj] at hs
    have hf := createDeskEvent_frame s0 s' ig hs
    refine ⟨?_, ?_, ?_, s0, hs, hp, hc, hl, hm, ha, hb⟩
    · rw [hf]; exact ht
    · rw [hf]; exact hp
    · rw [hf]; exact hp
  · intro hn
    rw [hj]
    exact createDeskEvent_isSome_of_named s0 ig (by rw [hc]; exact hn)

theorem joyEvent_immediate_commit_witness :
    sampleDeferred.dpadDelay = 50 ∧ sampleDeferred.directionDelayTimer.isActive = true ∧
    DpadRight ≠ sampleDeferred.pendingDirection ∧
    sampleDeferredBypassed.directionDelayTimer.isActive = false ∧
    sampleDeferredBypassed.pendingDirection = DpadRight ∧
    sampleDeferredBypassed.prevDirection = DpadRight ∧
    ∃ s0, createDeskEvent s0 true = some sampleDeferredBypassed ∧ s0.pendingDirection = DpadRight ∧
      s0.prevDirection = sampleDeferred.prevDirection ∧
      s0.activeDiagonalButton = sampleDeferred.activeDiagonalButton ∧
      s0.currentMode = sampleDeferred.currentMode ∧ s0.addr = sampleDeferred.addr ∧
      s0.buttonCalls = sampleDeferred.buttonCalls :=
  ⟨rfl, rfl, by decide,
    (joyEvent_immediate_commit sampleDeferred DpadRight true (by decide) (Or.inl rfl)).1
      sampleDeferredBypassed (by decide)⟩

theorem mem_standardCalls (addr d1 d2 : Nat) (p ig : Bool) (c : ButtonCall) :
    c ∈ standardCalls addr d1 d2 p ig ↔
      c.pressed = p ∧ c.ignoresets = ig ∧ c.button.owner = addr ∧
      isCardinal c.button.direction = true ∧
      (d1 &&& c.button.direction ≠ 0 ∧ d2 &&& c.button.direction = 0) := by
  simp only [standardCalls, List.mem_map, List.mem_filter, hasFlag, List.mem_cons,
    List.mem_singleton, List.not_mem_nil, or_false, Bool.and_eq_true, bne_iff_ne, ne_eq,
    Bool.not_eq_true', bne_eq_false_iff_eq]
  constructor
  · rintro ⟨k, ⟨hk, h1, h2⟩, rfl⟩
    refine ⟨rfl, rfl, rfl, ?_, h1, h2⟩
    rcases hk with rfl | rfl | rfl | rfl <;> rfl
  · rintro ⟨hp, hi, ho, hk, h1, h2⟩
    refine ⟨c.button.direction, ⟨?_, h1, h2⟩, ?_⟩
    · rcases isCardinal_cases c.button.direction with ⟨-, h⟩ | ⟨h, -⟩
      · rcases h with h | h | h | h <;> simp [h]
      · rw [hk] at h; cases h
    · cases c with
      | mk b p1 i1 =>
        cases b
        simp_all

theorem standardCalls_nodup (addr d1 d2 : Nat) (p ig : Bool) :
    (standardCalls addr d1 d2 p ig).Nodup := by
  unfold standardCalls
  apply List.Nodup.map
  · intro a b h
    simpa using h
  · apply List.Nodup.filter
    decide

/-- C3: in Standard mode with no diagonal held, a commit from committed
direction c to a different pending direction n returns; the calls it adds are
a block of deactivations followed by a block of activations, without
repetition, all on cardinal buttons of this DPad; the cardinal button with
flag k is deactivated exactly when k is set in c and clear in n, and activated
exactly when k is clear in c and set in n; the lock stays empty. -/
theorem standard_commit_calls (s : JoyDPad) (ig : Bool)
    (hm : s.currentMode = JoyMode.StandardMode) (hl : s.activeDiagonalButton = none)
    (hne : s.pendingDirection ≠ s.prevDirection) :
    ∃ s' rel act, createDeskEvent s ig = some s' ∧
      s'.buttonCalls = s.buttonCalls ++ rel ++ act ∧
      s'.activeDiagonalButton = none ∧
      s'.prevDirection = s.pendingDirection ∧
      rel.Nodup ∧ act.Nodup ∧
      (∀ c ∈ rel, c.pressed = false) ∧ (∀ c ∈ act, c.pressed = true) ∧
      (∀ c ∈ rel ++ act, c.button.owner = s.addr ∧ c.ignoresets = ig ∧
        isCardinal c.button.direction = true ∧ isDiagonal c.button.direction = false) ∧
      (∀ k, isCardinal k = true →
        (({ button := { owner := s.addr, direction := k }, pressed := false, ignoresets := ig } :
            ButtonCall) ∈ rel ↔
          (s.prevDirection &&& k ≠ 0 ∧ s.pendingDirection &&& k = 0)) ∧
        (({ button := { owner := s.addr, direction := k }, pressed := true, ignoresets := ig } :
            ButtonCall) ∈ act ↔
          (s.prevDirection &&& k = 0 ∧ s.pendingDirection &&& k ≠ 0))) := by
  have hrel : releaseCalls s ig =
      some (standardCalls s.addr s.prevDirection s.pendingDirection false ig) := by
    simp [releaseCalls, hl, hm]
  have hact : activateCalls s ig =
      standardCalls s.addr s.pendingDirection s.prevDirection true ig := by
    simp [activateCalls, hm]
  have hlock : lockAfter s = none := by simp [lockAfter, hm]
  refine ⟨{ s with
      buttonCalls := s.buttonCalls ++
        standardCalls s.addr s.prevDirection s.pendingDirection false ig ++
        standardCalls s.addr s.pendingDirection s.prevDirection true ig
      activeDiagonalButton := none
      prevDirection := s.pendingDirection },
    standardCalls s.addr s.prevDirection s.pendingDirection false ig,
    standardCalls s.addr s.pendingDirection s.prevDirection true ig, ?_, rfl, rfl, rfl,
    standardCalls_nodup _ _ _ _ _, standardCalls_nodup _ _ _ _ _,
    standardCalls_pressed _ _ _ _ _, standardCalls_pressed _ _ _ _ _, ?_, ?_⟩
  · rw [createDeskEvent_eq]
    simp [hne, hrel, hact, hlock]
  · intro c hc
    have hcard : isCardinal c.button.direction = true ∧ c.button.owner = s.addr ∧
        c.ignoresets = ig := by
      rcases List.mem_append.1 hc with h | h
      · have := (mem_standardCalls _ _ _ _ _ c).1 h
        exact ⟨this.2.2.2.1, this.2.2.1, this.2.1⟩
      · have := (mem_standardCalls _ _ _ _ _ c).1 h
        exact ⟨this.2.2.2.1, this.2.2.1, this.2.1⟩
    refine ⟨hcard.2.1, hcard.2.2, hcard.1, ?_⟩
    rcases isCardinal_cases c.button.direction with ⟨-, h⟩ | ⟨h, -⟩
    · rcases h with h | h | h | h <;> simp [h, isDiagonal]
    · rw [hcard.1] at h; cases h
  · intro k hk
    constructor
    · rw [mem_standardCalls]; simp [hk]
    · rw [mem_standardCalls]; simp [hk, and_comm]

theorem standard_commit_calls_witness :
    ∃ s' rel act, createDeskEvent sampleStandard false = some s' ∧
      s'.buttonCalls = sampleStandard.buttonCalls ++ rel ++ act ∧
      s'.activeDiagonalButton = none ∧
      s'.prevDirection = DpadUp ∧
      rel.Nodup ∧ act.Nodup ∧
      (∀ c ∈ rel, c.pressed = false) ∧ (∀ c ∈ act, c.pressed = true) ∧
      (∀ c ∈ rel ++ act, c.button.owner = 0 ∧ c.ignoresets = false ∧
        isCardinal c.button.direction = true ∧ isDiagonal c.button.direction = false) ∧
      (∀ k, isCardinal k = true →
        (({ button := { owner := 0, direction := k }, pressed := false, ignoresets := false } :
            ButtonCall) ∈ rel ↔
          (DpadRightUp &&& k ≠ 0 ∧ DpadUp &&& k = 0)) ∧
        (({ button := { owner := 0, direction := k }, pressed := true, ignoresets := false } :
            ButtonCall) ∈ act ↔
          (DpadRightUp &&& k = 0 ∧ DpadUp &&& k ≠ 0))) :=
  standard_commit_calls sampleStandard false rfl rfl (by decide)

/-- C4: in EightWay mode, a commit from a named committed direction c to a
different named pending direction n returns.  Its only release is of the
locked button when a lock is held (the release keyed by c is skipped), and
otherwise of the button stored under c (none when c is centered); after it
comes the only activation, of the button stored under n (none when n is
centered); the lock afterwards holds that button exactly when n is a diagonal
and is empty otherwise. -/
theorem eightWay_commit_calls (s : JoyDPad) (ig : Bool)
    (hm : s.currentMode = JoyMode.EightWayMode)
    (hc : isNamed s.prevDirection = true) (hn : isNamed s.pendingDirection = true)
    (hne : s.pendingDirection ≠ s.prevDirection) :
    createDeskEvent s ig = some
      { s with
        buttonCalls := s.buttonCalls ++
          (match s.activeDiagonalButton with
            | some b => [{ button := b, pressed := false, ignoresets := ig }]
            | none =>
              if s.prevDirection = DpadCentered then []
              else [{ button := { owner := s.addr, direction := s.prevDirection },
                      pressed := false, ignoresets := ig }]) ++
          (if s.pendingDirection = DpadCentered then []
            else [{ button := { owner := s.addr, direction := s.pendingDirection },
                    pressed := true, ignoresets := ig }])
        activeDiagonalButton :=
          if isDiagonal s.pendingDirection = true then
            some { owner := s.addr, direction := s.pendingDirection }
          else none
        prevDirection := s.pendingDirection } := by
  have hrel : releaseCalls s ig = some
      (match s.activeDiagonalButton with
        | some b => [{ button := b, pressed := false, ignoresets := ig }]
        | none =>
          if s.prevDirection = DpadCentered then []
          else [{ button := { owner := s.addr, direction := s.prevDirection },
                  pressed := false, ignoresets := ig }]) := by
    unfold releaseCalls
    cases s.activeDiagonalButton with
    | some b => rfl
    | none =>
      simp only [hm]
      by_cases h0 : s.prevDirection = 0
      · simp [h0]
      · have : isCardinal s.prevDirection = true ∨ isDiagonal s.prevDirection = true := by
          simpa [isNamed, h0] using hc
        simp [h0, this]
  have hact : activateCalls s ig =
      (if s.pendingDirection = DpadCentered then []
        else [{ button := { owner := s.addr, direction := s.pendingDirection },
                pressed := true, ignoresets := ig }]) := by
    simp only [activateCalls, hm]
    by_cases h0 : s.pendingDirection = 0
    · simp [h0, isCardinal, isDiagonal]
    · have : isCardinal s.pendingDirection = true ∨ isDiagonal s.pendingDirection = true := by
        simpa [isNamed, h0] using hn
      simp [h0, this]
  have hlock : lockAfter s =
      (if isDiagonal s.pendingDirection = true then
        some { owner := s.addr, direction := s.pendingDirection }
      else none) := by
    simp [lockAfter, hm]
  rw [createDeskEvent_eq]
  simp only [ne_eq, hne, not_false_eq_true, if_true, hrel, hact, hlock, Option.map_some']

theorem eightWay_commit_calls_witness :
    createDeskEvent sampleEightWay false = some
      { sampleEightWay with
        buttonCalls := sampleEightWay.buttonCalls ++
          [{ button := { owner := 0, direction := DpadUp }, pressed := false, ignoresets := false }] ++
          [{ button := { owner := 0, direction := DpadRightUp }, pressed := true, ignoresets := false }]
        activeDiagonalButton := some { owner := 0, direction := DpadRightUp }
        prevDirection := DpadRightUp } :=
  eightWay_commit_calls sampleEightWay false rfl (by decide) (by decide) (by decide)

/-- C5 (the code at the failing input): in FourWayCardinal mode, after Up has
been committed, the commit to Up-Right, a direction of the same fold group,
adds a second activation call on the Up button to the call log. -/
theorem fourWayCardinal_same_group_reactivates :
    (run freshFourWayCardinal
        [DPadAction.joyEvent DpadUp false, DPadAction.joyEvent DpadRightUp false]).map
      (fun s => s.buttonCalls) =
      some [{ button := { owner := 0, direction := DpadUp }, pressed := true, ignoresets := false },
            { button := { owner := 0, direction := DpadUp }, pressed := true, ignoresets := false }] ∧
    (run freshFourWayCardinal [DPadAction.joyEvent DpadUp false]).map (fun s => s.buttonCalls) =
      some [{ button := { owner := 0, direction := DpadUp }, pressed := true, ignoresets := false }] ∧
    foldCardinal DpadUp = foldCardinal DpadRightUp := by
  decide

theorem buttonActive_append_singleton (l : List ButtonCall) (c : ButtonCall) (b : ButtonRef) :
    buttonActive (l ++ [c]) b = if c.button = b then c.pressed else buttonActive l b := by
  simp [buttonActive, List.foldl_append]

theorem buttonActive_append_uniform (p : Bool) (l2 : List ButtonCall) :
    ∀ (l : List ButtonCall) (b : ButtonRef), (∀ c ∈ l2, c.pressed = p) →
      buttonActive (l ++ l2) b =
        if l2.any (fun c => c.button == b) = true then p else buttonActive l b := by
  induction l2 with
  | nil => intro l b _; simp
  | cons c l2 ih =>
    intro l b h
    have h2 : ∀ c' ∈ l2, c'.pressed = p := fun c' hc' => h c' (List.mem_cons_of_mem _ hc')
    have hc : c.pressed = p := h c (List.mem_cons_self _ _)
    have : l ++ c :: l2 = (l ++ [c]) ++ l2 := by simp
    rw [this, ih (l ++ [c]) b h2, buttonActive_append_singleton]
    by_cases hb : c.button = b <;> simp [hb, hc]

theorem any_standardCalls (addr d1 d2 : Nat) (p ig : Bool) (k : Nat) :
    (standardCalls addr d1 d2 p ig).any (fun c => c.button == { owner := addr, direction := k }) =
      (isCardinal k && hasFlag d1 k && !hasFlag d2 k) := by
  rw [Bool.eq_iff_iff, List.any_eq_true]
  constructor
  · rintro ⟨c, hc, hb⟩
    rw [mem_standardCalls] at hc
    have hb2 : c.button = { owner := addr, direction := k } := by simpa using hb
    have hk : c.button.direction = k := by rw [hb2]
    rw [hk] at hc
    simp [hc.2.2.2.1, hasFlag, hc.2.2.2.2.1, hc.2.2.2.2.2]
  · intro h
    simp only [Bool.and_eq_true, Bool.not_eq_true', hasFlag, bne_iff_ne, ne_eq,
      bne_eq_false_iff_eq] at h
    refine ⟨{ button := { owner := addr, direction := k }, pressed := p, ignoresets := ig }, ?_, ?_⟩
    · rw [mem_standardCalls]
      exact ⟨rfl, rfl, rfl, h.1.1, h.1.2, h.2⟩
    · simp

theorem buttonRef_beq (a x y : Nat) :
    (({ owner := a, direction := x } : ButtonRef) == { owner := a, direction := y }) = (x == y) := by
  rw [Bool.eq_iff_iff]; simp

theorem any_activateCalls (s : JoyDPad) (ig : Bool) (k : Nat) :
    (activateCalls s ig).any (fun c => c.button == { owner := s.addr, direction := k }) =
      match s.currentMode with
      | JoyMode.StandardMode =>
        isCardinal k && hasFlag s.pendingDirection k && !hasFlag s.prevDirection k
      | JoyMode.EightWayMode =>
        (isCardinal s.pendingDirection || isDiagonal s.pendingDirection) && s.pendingDirection == k
      | JoyMode.FourWayCardinal =>
        foldCardinal s.pendingDirection != 0 && foldCardinal s.pendingDirection == k
      | JoyMode.FourWayDiagonal => isDiagonal s.pendingDirection && s.pendingDirection == k := by
  unfold activateCalls
  cases s.currentMode <;> simp only
  · exact any_standardCalls _ _ _ _ _ _
  · by_cases h : isCardinal s.pendingDirection = true ∨ isDiagonal s.pendingDirection = true
    · simp [h]
      rcases h with h | h <;> simp [h]
    · have h1 : isCardinal s.pendingDirection = false := by simpa using (not_or.1 h).1
      have h2 : isDiagonal s.pendingDirection = false := by simpa using (not_or.1 h).2
      simp [h1, h2]
  · by_cases h : foldCardinal s.pendingDirection = 0
    · simp [h]
    · have h2 : (foldCardinal s.pendingDirection != 0) = true := by simpa using h
      simp [h, h2, buttonRef_beq]
  · by_cases h : isDiagonal s.pendingDirection = true
    · simp [h]
    · have h2 : isDiagonal s.pendingDirection = false := by simpa using h
      simp [h2]

theorem any_releaseCalls (s : JoyDPad) (ig : Bool) (rel : List ButtonCall) (k : Nat)
    (hl : s.activeDiagonalButton = lockOf s.currentMode s.addr s.prevDirection)
    (h : releaseCalls s ig = some rel) :
    rel.any (fun c => c.button == { owner := s.addr, direction := k }) =
      match s.currentMode with
      | JoyMode.StandardMode =>
        isCardinal k && hasFlag s.prevDirection k && !hasFlag s.pendingDirection k
      | JoyMode.FourWayCardinal =>
        foldCardinal s.prevDirection != 0 &&
          foldCardinal s.pendingDirection != foldCardinal s.prevDirection &&
          foldCardinal s.prevDirection == k
      | _ => (isCardinal s.prevDirection || isDiagonal s.prevDirection) && s.prevDirection == k := by
  unfold releaseCalls at h
  rw [hl] at h
  unfold lockOf at h
  cases hm : s.currentMode <;> simp only [hm] at h ⊢
  · simp at h
    subst h
    exact any_standardCalls _ _ _ _ _ _
  · by_cases hd : isDiagonal s.prevDirection = true
    · simp [hd] at h
      subst h
      simp [hd, buttonRef_beq]
    · have hd2 : isDiagonal s.prevDirection = false := by simpa using hd
      simp [hd2] at h
      by_cases h0 : s.prevDirection = 0
      · simp [h0] at h
        subst h
        simp [h0, isCardinal, isDiagonal]
      · by_cases hc : isCardinal s.prevDirection = true
        · simp [h0, hc] at h
          subst h
          simp [hc, buttonRef_beq]
        · simp [h0, hc] at h
  · simp at h
    by_cases hf : foldCardinal s.prevDirection ≠ 0 ∧
        foldCardinal s.pendingDirection ≠ foldCardinal s.prevDirection
    · simp [hf] at h
      subst h
      simp [hf, buttonRef_beq]
    · simp only [hf, if_false, Option.some.injEq] at h
      subst h
      rw [not_and_or] at hf
      rcases hf with hf | hf
      · simp at hf; simp [hf]
      · simp at hf; simp [hf]
  · by_cases hd : isDiagonal s.prevDirection = true
    · simp [hd] at h
      subst h
      simp [hd, buttonRef_beq]
    · have hd2 : isDiagonal s.prevDirection = false := by simpa using hd
      simp [hd2] at h
      by_cases h0 : s.prevDirection = 0
      · simp [h0] at h
        subst h
        simp [h0, isCardinal, isDiagonal]
      · by_cases hc : isCardinal s.prevDirection = true
        · simp [h0, hc] at h
          subst h
          simp [hc, buttonRef_beq]
        · simp [h0, hc] at h

theorem Consistent_createDeskEvent (s s' : JoyDPad) (ig : Bool) (hc : Consistent s)
    (h : createDeskEvent s ig = some s') : Consistent s' := by
  rw [createDeskEvent_eq] at h
  by_cases hp : s.pendingDirection = s.prevDirection
  · simp [hp] at h; subst h; exact hc
  · simp only [ne_eq, hp, not_false_eq_true, if_true, Option.map_eq_some'] at h
    obtain ⟨rel, hrel, rfl⟩ := h
    refine ⟨?_, ?_⟩
    · simp [lockAfter, lockOf]
    · intro k
      have hk := hc.2 k
      have hrp := releaseCalls_pressed s ig rel hrel
      have hap := activateCalls_pressed s ig
      simp only [isActive] at hk ⊢
      rw [buttonActive_append_uniform true _ _ _ hap, buttonActive_append_uniform false _ _ _ hrp,
        any_activateCalls, any_releaseCalls s ig rel k hc.1 hrel, hk]
      cases hm : s.currentMode <;> simp only [activeIn]
      · cases isCardinal k <;> cases hasFlag s.prevDirection k <;>
          cases hasFlag s.pendingDirection k <;> rfl
      · by_cases h1 : s.pendingDirection = k
        · subst h1
          cases isCardinal s.pendingDirection <;> cases isDiagonal s.pendingDirection <;>
            simp [hp, Ne.symm hp]
        · by_cases h2 : s.prevDirection = k
          · subst h2
            cases isCardinal s.prevDirection <;> cases isDiagonal s.prevDirection <;>
              simp [hp, Ne.symm hp]
          · have e1 : (k == s.pendingDirection) = false := beq_eq_false_iff_ne.2 (Ne.symm h1)
            have e2 : (k == s.prevDirection) = false := beq_eq_false_iff_ne.2 (Ne.symm h2)
            simp [h1, h2, e1, e2]
      · by_cases h1 : foldCardinal s.pendingDirection = k
        · subst h1
          by_cases h0 : foldCardinal s.pendingDirection = 0
          · simp [h0]
          · simp [h0]
        · by_cases h2 : foldCardinal s.prevDirection = k
          · subst h2
            by_cases h0 : foldCardinal s.prevDirection = 0
            · simp [h0, h1, Ne.symm h1]
            · simp [h0, h1, Ne.symm h1]
          · have e1 : (k == foldCardinal s.pendingDirection) = false :=
              beq_eq_false_iff_ne.2 (Ne.symm h1)
            have e2 : (k == foldCardinal s.prevDirection) = false :=
              beq_eq_false_iff_ne.2 (Ne.symm h2)
            simp [h1, h2, e1, e2]
      · by_cases h1 : s.pendingDirection = k
        · subst h1
          cases isCardinal s.pendingDirection <;> cases isDiagonal s.pendingDirection <;>
            simp [hp, Ne.symm hp]
        · by_cases h2 : s.prevDirection = k
          · subst h2
            cases hcd : isCardinal s.prevDirection <;> cases hdd : isDiagonal s.prevDirection <;>
              simp [hp, Ne.symm hp]
          · have e1 : (k == s.pendingDirection) = false := beq_eq_false_iff_ne.2 (Ne.symm h1)
            have e2 : (k == s.prevDirection) = false := beq_eq_false_iff_ne.2 (Ne.symm h2)
            simp [h1, h2, e1, e2]

theorem startTimerIfIdle_frame (s : JoyDPad) :
    (startTimerIfIdle s).pendingDirection = s.pendingDirection ∧
    (startTimerIfIdle s).prevDirection = s.prevDirection ∧
    (startTimerIfIdle s).activeDiagonalButton = s.activeDiagonalButton ∧
    (startTimerIfIdle s).currentMode = s.currentMode ∧
    (startTimerIfIdle s).addr = s.addr ∧
    (startTimerIfIdle s).buttonCalls = s.buttonCalls ∧
    (startTimerIfIdle s).dpadDelay = s.dpadDelay ∧
    (startTimerIfIdle s).signals = s.signals := by
  unfold startTimerIfIdle timerStart
  cases h : s.directionDelayTimer.isActive <;> simp [h]

/-- The deferred branch of `joyEvent`: the pending direction is updated and
the timer is started if idle or stopped if running; nothing else the commit
reads is touched. -/
theorem joyEvent_deferred (s : JoyDPad) (value : Nat)
    (hv : value ≠ s.pendingDirection) (hd : s.dpadDelay ≠ 0) :
    ∃ s2, (joyEvent s value false = some (startTimerIfIdle s2) ∨
        joyEvent s value false = some (stopTimerIfActive s2)) ∧
      s2.prevDirection = s.prevDirection ∧ s2.activeDiagonalButton = s.activeDiagonalButton ∧
      s2.currentMode = s.currentMode ∧ s2.addr = s.addr ∧ s2.buttonCalls = s.buttonCalls ∧
      s2.dpadDelay = s.dpadDelay := by
  simp only [joyEvent, ne_eq, hv, not_false_eq_true, if_true, Bool.false_eq_true, false_or, hd,
    if_false, emit]
  split_ifs <;>
    first
    | exact ⟨_, Or.inl rfl, rfl, rfl, rfl, rfl, rfl, rfl⟩
    | exact ⟨_, Or.inr rfl, rfl, rfl, rfl, rfl, rfl, rfl⟩

/-- What `joyEvent` can do: leave the committed direction, the lock, the mode
and the call log alone, or run the commit towards the submitted value. -/
theorem joyEvent_cases (s s' : JoyDPad) (value : Nat) (ig : Bool)
    (h : joyEvent s value ig = some s') :
    (s'.prevDirection = s.prevDirection ∧ s'.activeDiagonalButton = s.activeDiagonalButton ∧
      s'.currentMode = s.currentMode ∧ s'.addr = s.addr ∧ s'.buttonCalls = s.buttonCalls ∧
      s'.dpadDelay = s.dpadDelay ∧
      (value = s.pendingDirection ∨ ¬ (ig = true ∨ s.dpadDelay = 0))) ∨
    (value ≠ s.pendingDirection ∧ (ig = true ∨ s.dpadDelay = 0) ∧
      ∃ s0, createDeskEvent s0 ig = some s' ∧ s0.pendingDirection = value ∧
        s0.prevDirection = s.prevDirection ∧ s0.activeDiagonalButton = s.activeDiagonalButton ∧
        s0.currentMode = s.currentMode ∧ s0.addr = s.addr ∧ s0.buttonCalls = s.buttonCalls ∧
        s0.dpadDelay = s.dpadDelay) := by
  by_cases hv : value = s.pendingDirection
  · left
    have : joyEvent s value ig = some s := by simp [joyEvent, hv]
    rw [this] at h
    cases h
    exact ⟨rfl, rfl, rfl, rfl, rfl, rfl, Or.inl hv⟩
  · by_cases hb : ig = true ∨ s.dpadDelay = 0
    · right
      refine ⟨hv, hb, ?_⟩
      by_cases h0 : value = 0
      · subst h0
        refine ⟨stopTimerIfActive { s.emit (Signal.released 0) with pendingDirection := DpadCentered },
          ?_, ?_⟩
        · rw [← h]
          simp only [joyEvent, ne_eq, hv, not_false_eq_true, if_true]
          simp [hb, emit]
        · obtain ⟨-, h2, h3, h4, h5, h6, h7, h8, -⟩ := stopTimerIfActive_frame
            { s.emit (Signal.released 0) with pendingDirection := DpadCentered }
          exact ⟨h2, h3, h4, h5, h6, h7, h8⟩
      · by_cases hc : s.prevDirection = 0
        · refine ⟨stopTimerIfActive { s.emit (Signal.active value) with pendingDirection := value },
            ?_, ?_⟩
          · rw [← h]
            simp only [joyEvent, ne_eq, hv, not_false_eq_true, if_true, h0]
            simp [hb, emit, hc]
          · obtain ⟨-, h2, h3, h4, h5, h6, h7, h8, -⟩ := stopTimerIfActive_frame
              { s.emit (Signal.active value) with pendingDirection := value }
            exact ⟨h2, h3, h4, h5, h6, h7, h8⟩
        · refine ⟨stopTimerIfActive { s with pendingDirection := value }, ?_, ?_⟩
          · rw [← h]
            simp only [joyEvent, ne_eq, hv, not_false_eq_true, if_true, h0]
            simp [hb, hc]
          · obtain ⟨-, h2, h3, h4, h5, h6, h7, h8, -⟩ := stopTimerIfActive_frame
              { s with pendingDirection := value }
            exact ⟨h2, h3, h4, h5, h6, h7, h8⟩
    · left
      have hb1 : ig = false := by
        cases ig
        · rfl
        · exact absurd (Or.inl rfl) hb
      have hb2 : ¬ s.dpadDelay = 0 := fun hh => hb (Or.inr hh)
      subst hb1
      obtain ⟨s2, hj, e1, e2, e3, e4, e5, e6⟩ := joyEvent_deferred s value hv hb2
      rcases hj with hj | hj
      · rw [hj] at h
        cases h
        obtain ⟨-, h2, h3, h4, h5, h6, h7, -⟩ := startTimerIfIdle_frame s2
        exact ⟨h2.trans e1, h3.trans e2, h4.trans e3, h5.trans e4, h6.trans e5, h7.trans e6,
          Or.inr hb⟩
      · rw [hj] at h
        cases h
        obtain ⟨-, -, h2, h3, h4, h5, h6, h7, -⟩ := stopTimerIfActive_frame s2
        exact ⟨h2.trans e1, h3.trans e2, h4.trans e3, h5.trans e4, h6.trans e5, h7.trans e6,
          Or.inr hb⟩

theorem Consistent_of_fields (s s' : JoyDPad) (h1 : s'.prevDirection = s.prevDirection)
    (h2 : s'.activeDiagonalButton = s.activeDiagonalButton) (h3 : s'.currentMode = s.currentMode)
    (h4 : s'.addr = s.addr) (h5 : s'.buttonCalls = s.buttonCalls) (hc : Consistent s) :
    Consistent s' := by
  unfold Consistent isActive at *
  rw [h1, h2, h3, h4, h5]
  exact hc

theorem Consistent_joyEvent (s s' : JoyDPad) (value : Nat) (ig : Bool) (hc : Consistent s)
    (h : joyEvent s value ig = some s') : Consistent s' := by
  rcases joyEvent_cases s s' value ig h with ⟨h1, h2, h3, h4, h5, -⟩ |
    ⟨-, -, s0, hs0, -, h1, h2, h3, h4, h5, -⟩
  · exact Consistent_of_fields s s' h1 h2 h3 h4 h5 hc
  · exact Consistent_createDeskEvent s0 s' ig (Consistent_of_fields s s0 h1 h2 h3 h4 h5 hc) hs0

theorem Consistent_timerTimeout (s s' : JoyDPad) (hc : Consistent s)
    (h : timerTimeout s = some s') : Consistent s' := by
  unfold timerTimeout dpadDirectionChangeEvent at h
  split_ifs at h
  · exact Consistent_createDeskEvent
      { s with directionDelayTimer := { s.directionDelayTimer with isActive := false } } s' _
      (Consistent_of_fields s _ rfl rfl rfl rfl rfl hc) h
  · cases h; exact hc

theorem Consistent_setDPadDelay (s : JoyDPad) (value : Int) (hc : Consistent s) :
    Consistent (setDPadDelay s value) := by
  unfold setDPadDelay
  split_ifs
  · exact Consistent_of_fields s _ rfl rfl rfl rfl rfl hc
  · exact hc

theorem activeIn_centered (mode : JoyMode) (k : Nat) : activeIn mode 0 k = false := by
  cases mode <;> simp only [activeIn]
  · simp [hasFlag]
  · rcases isCardinal_cases k with ⟨-, h | h | h | h⟩ | ⟨h, -⟩ <;>
      rcases isDiagonal_cases k with ⟨-, g | g | g | g⟩ | ⟨g, -⟩ <;> simp_all
  · by_cases h : k = 0 <;> simp [h, foldCardinal]
  · rcases isDiagonal_cases k with ⟨-, g | g | g | g⟩ | ⟨g, -⟩ <;> simp_all

theorem Consistent_setJoyMode (s : JoyDPad) (mode : JoyMode) (h0 : s.prevDirection = 0)
    (hc : Consistent s) : Consistent (setJoyMode s mode) := by
  obtain ⟨hl, ha⟩ := hc
  constructor
  · show s.activeDiagonalButton = lockOf mode s.addr s.prevDirection
    rw [hl, h0]
    simp [lockOf, isDiagonal]
  · intro k
    show s.isActive k = activeIn mode s.prevDirection k
    rw [ha k, h0, activeIn_centered, activeIn_centered]

theorem Consistent_new (addr : Nat) : Consistent (new addr) := by
  constructor
  · simp [new, lockOf]
  · intro k
    show buttonActive [] _ = activeIn JoyMode.StandardMode 0 k
    rw [activeIn_centered]
    rfl

theorem Consistent_run (acts : List DPadAction) :
    ∀ (s s' : JoyDPad), Consistent s → modeChangesWhileCentered s acts = true →
      run s acts = some s' → Consistent s' := by
  induction acts with
  | nil =>
    intro s s' hc _ h
    simp only [run, Option.some.injEq] at h
    subst h
    exact hc
  | cons a rest ih =>
    intro s s' hc hg h
    simp only [run] at h
    cases hs : s.step a with
    | none => simp [hs] at h
    | some s1 =>
      simp only [hs, Option.some_bind] at h
      simp only [modeChangesWhileCentered, hs, Bool.and_eq_true] at hg
      refine ih s1 s' ?_ hg.2 h
      cases a with
      | joyEvent value ig => exact Consistent_joyEvent s s1 value ig hc hs
      | timeout => exact Consistent_timerTimeout s s1 hc hs
      | setJoyMode mode =>
        simp only [step, Option.some.injEq] at hs
        subst hs
        exact Consistent_setJoyMode s mode (by simpa using hg.1) hc
      | setDPadDelay value =>
        simp only [step, Option.some.injEq] at hs
        subst hs
        exact Consistent_setDPadDelay s value hc

theorem Consistent_no_diagonal_with_cardinal (s : JoyDPad) (hc : Consistent s) (d k : Nat)
    (hd : isDiagonal d = true) (hk : isCardinal k = true) :
    ¬ (s.isActive d = true ∧ s.isActive k = true) := by
  rw [hc.2 d, hc.2 k]
  rcases isDiagonal_cases d with ⟨-, g | g | g | g⟩ | ⟨g, -⟩ <;>
    rcases isCardinal_cases k with ⟨-, h | h | h | h⟩ | ⟨h, -⟩ <;>
    first
    | (rw [hd] at g; cases g)
    | (rw [hk] at h; cases h)
    | (subst g; subst h
       cases s.currentMode <;> simp only [activeIn] <;>
       first
       | decide
       | (intro hh; simp [isCardinal, isDiagonal] at hh; try omega))

theorem createDeskEvent_some_cases (s s' : JoyDPad) (ig : Bool)
    (h : createDeskEvent s ig = some s') :
    (s.pendingDirection = s.prevDirection ∧ s' = s) ∨
    (s.pendingDirection ≠ s.prevDirection ∧ ∃ rel, releaseCalls s ig = some rel ∧
      s' = { s with
             buttonCalls := s.buttonCalls ++ rel ++ activateCalls s ig
             activeDiagonalButton := lockAfter s
             prevDirection := s.pendingDirection }) := by
  rw [createDeskEvent_eq] at h
  by_cases hp : s.pendingDirection = s.prevDirection
  · left
    simp [hp] at h
    exact ⟨hp, h.symm⟩
  · right
    simp only [ne_eq, hp, not_false_eq_true, if_true, Option.map_eq_some'] at h
    obtain ⟨rel, hrel, rfl⟩ := h
    exact ⟨hp, rel, hrel, rfl⟩

theorem createDeskEvent_effective_lock (s s' : JoyDPad) (ig : Bool)
    (h : createDeskEvent s ig = some s') (hne : s.pendingDirection ≠ s.prevDirection) :
    (s'.activeDiagonalButton ≠ none ↔
      isDiagonal s'.prevDirection = true ∧
        (s'.currentMode = JoyMode.EightWayMode ∨ s'.currentMode = JoyMode.FourWayDiagonal)) := by
  rcases createDeskEvent_some_cases s s' ig h with ⟨hp, -⟩ | ⟨-, rel, -, rfl⟩
  · exact absurd hp hne
  · simp only [lockAfter]
    split_ifs with hc
    · simp [hc.1, hc.2]
    · simp only [ne_eq, not_true_eq_false, false_iff]
      intro hh
      exact hc ⟨hh.2, hh.1⟩

/-- C7 (as amended): immediately after a commit that changes the committed
direction (the pending target differs from the committed direction), made by
`joyEvent` on its immediate branch or by the timer, the diagonal lock is
non-empty if and only if the committed direction is one of the four diagonals
and the mode is EightWay or FourWayDiagonal.  This holds from every state, so
in particular from every state reachable from a freshly constructed DPad. -/
theorem lock_iff_after_effective_commit (s : JoyDPad) :
    (∀ value ig s', value ≠ s.pendingDirection → (ig = true ∨ s.dpadDelay = 0) →
      value ≠ s.prevDirection → joyEvent s value ig = some s' →
      (s'.activeDiagonalButton ≠ none ↔
        isDiagonal s'.prevDirection = true ∧
          (s'.currentMode = JoyMode.EightWayMode ∨ s'.currentMode = JoyMode.FourWayDiagonal))) ∧
    (∀ s', s.directionDelayTimer.isActive = true → s.pendingDirection ≠ s.prevDirection →
      timerTimeout s = some s' →
      (s'.activeDiagonalButton ≠ none ↔
        isDiagonal s'.prevDirection = true ∧
          (s'.currentMode = JoyMode.EightWayMode ∨ s'.currentMode = JoyMode.FourWayDiagonal))) := by
  constructor
  · intro value ig s' hv hb hne h
    rcases joyEvent_cases s s' value ig h with ⟨-, -, -, -, -, -, hh⟩ |
      ⟨-, -, s0, hs0, hp, hprev, -⟩
    · rcases hh with hh | hh
      · exact absurd hh hv
      · exact absurd hb hh
    · exact createDeskEvent_effective_lock s0 s' ig hs0 (by rw [hp, hprev]; exact hne)
  · intro s' ht hne h
    simp only [timerTimeout, ht, if_true, dpadDirectionChangeEvent] at h
    exact createDeskEvent_effective_lock _ s' _ h hne

theorem lock_iff_after_effective_commit_witness :
    ((stateAfter 0 (pendingAfterModeChangeRun ++ [DPadAction.joyEvent DpadLeftUp true])).activeDiagonalButton
        ≠ none ↔
      isDiagonal (stateAfter 0 (pendingAfterModeChangeRun ++
          [DPadAction.joyEvent DpadLeftUp true])).prevDirection = true ∧
        ((stateAfter 0 (pendingAfterModeChangeRun ++
            [DPadAction.joyEvent DpadLeftUp true])).currentMode = JoyMode.EightWayMode ∨
          (stateAfter 0 (pendingAfterModeChangeRun ++
            [DPadAction.joyEvent DpadLeftUp true])).currentMode = JoyMode.FourWayDiagonal)) :=
  (lock_iff_after_effective_commit (stateAfter 0 pendingAfterModeChangeRun)).1
    DpadLeftUp true _ (by decide) (Or.inl rfl) (by decide) (by decide)

/-- C7 (counterexample): after Up-Right is committed in Standard mode, the
mode is set to EightWay and Up is left pending, the bypass submission of
Up-Right runs the commit with the pending target equal to the committed
direction; immediately after it the committed direction is a diagonal and the
mode is EightWay, yet the lock is empty. -/
theorem lock_empty_after_commit_in_changed_mode :
    run (new 0) pendingAfterModeChangeRun = some (stateAfter 0 pendingAfterModeChangeRun) ∧
    DpadRightUp ≠ (stateAfter 0 pendingAfterModeChangeRun).pendingDirection ∧
    ∃ s', joyEvent (stateAfter 0 pendingAfterModeChangeRun) DpadRightUp true = some s' ∧
      ¬ (s'.activeDiagonalButton ≠ none ↔
          isDiagonal s'.prevDirection = true ∧
            (s'.currentMode = JoyMode.EightWayMode ∨ s'.currentMode = JoyMode.FourWayDiagonal)) :=
  ⟨by decide, by decide,
    stateAfter 0 (pendingAfterModeChangeRun ++ [DPadAction.joyEvent DpadRightUp true]),
    by decide, by decide⟩

/-- C8 (as amended): in every state reached from a freshly constructed DPad by
direction submissions, timer firings, delay changes and mode changes, each
mode change being made while the committed direction is centered, no diagonal
button is active at the same time as a cardinal button, in particular as one
of its two component cardinal buttons. -/
theorem diagonal_exclusive_of_centered_mode_changes (addr : Nat) (acts : List DPadAction)
    (s : JoyDPad) (hr : run (new addr) acts = some s)
    (hg : modeChangesWhileCentered (new addr) acts = true)
    (d k : Nat) (hd : isDiagonal d = true) (hk : isCardinal k = true) :
    ¬ (s.isActive d = true ∧ s.isActive k = true) :=
  Consistent_no_diagonal_with_cardinal s
    (Consistent_run acts (new addr) s (Consistent_new addr) hg hr) d k hd hk

theorem diagonal_exclusive_of_centered_mode_changes_witness :
    run (new 0) centeredModeChangeRun = some (stateAfter 0 centeredModeChangeRun) ∧
    (stateAfter 0 centeredModeChangeRun).isActive DpadRightUp = true ∧
    ¬ ((stateAfter 0 centeredModeChangeRun).isActive DpadRightUp = true ∧
        (stateAfter 0 centeredModeChangeRun).isActive DpadUp = true) :=
  ⟨by decide, by decide,
    diagonal_exclusive_of_centered_mode_changes 0 centeredModeChangeRun
      (stateAfter 0 centeredModeChangeRun) (by decide) (by decide) DpadRightUp DpadUp
      (by decide) (by decide)⟩

/-- C8 (counterexample): Up-Right committed in Standard mode, then the mode
set to EightWay, then Up-Left committed: the Up-Left diagonal button is active
together with its component cardinal Up. -/
theorem diagonal_with_component_after_mode_change :
    run (new 0) modeChangeRun = some (stateAfter 0 modeChangeRun) ∧
    isDiagonal DpadLeftUp = true ∧ isCardinal DpadUp = true ∧ DpadLeftUp &&& DpadUp ≠ 0 ∧
    (stateAfter 0 modeChangeRun).isActive DpadLeftUp = true ∧
    (stateAfter 0 modeChangeRun).isActive DpadUp = true := by
  decide

theorem isDiagonal_not_cardinal (d : Nat) (h : isDiagonal d = true) : isCardinal d = false := by
  rcases isDiagonal_cases d with ⟨-, g | g | g | g⟩ | ⟨g, -⟩
  · subst g; rfl
  · subst g; rfl
  · subst g; rfl
  · subst g; rfl
  · rw [h] at g; cases g

theorem fourWayDiagonal_joyEvent (s : JoyDPad) (d : Nat) (ig : Bool)
    (hm : s.currentMode = JoyMode.FourWayDiagonal) (h0 : s.dpadDelay = 0)
    (hn : isNamed s.prevDirection = true) (hd : isNamed d = true)
    (hc : ∀ c ∈ s.buttonCalls, isCardinal c.button.direction = true → c.pressed = false) :
    ∃ s1, joyEvent s d ig = some s1 ∧ s1.currentMode = JoyMode.FourWayDiagonal ∧
      s1.dpadDelay = 0 ∧ isNamed s1.prevDirection = true ∧
      ∀ c ∈ s1.buttonCalls, isCardinal c.button.direction = true → c.pressed = false := by
  have hex : ∃ s1, joyEvent s d ig = some s1 := by
    by_cases hv : d = s.pendingDirection
    · exact ⟨s, by simp [joyEvent, hv]⟩
    · obtain ⟨s0, hj, -, -, hp, -⟩ := joyEvent_immediate_eq s d ig hv (Or.inr h0)
      rw [hj]
      exact createDeskEvent_isSome_of_named s0 ig (by rw [hp]; exact hn)
  obtain ⟨s1, hs1⟩ := hex
  refine ⟨s1, hs1, ?_⟩
  rcases joyEvent_cases s s1 d ig hs1 with ⟨e1, -, e3, -, e5, e6, -⟩ |
    ⟨-, -, s0, hs0, e0, e1, -, e3, -, e5, e6⟩
  · exact ⟨e3.trans hm, e6.trans h0, by rw [e1]; exact hn, by rw [e5]; exact hc⟩
  · rcases createDeskEvent_some_cases s0 s1 ig hs0 with ⟨-, rfl⟩ | ⟨-, rel, hrel, rfl⟩
    · exact ⟨e3.trans hm, e6.trans h0, by rw [e1]; exact hn, by rw [e5]; exact hc⟩
    · refine ⟨e3.trans hm, e6.trans h0, by show isNamed s0.pendingDirection = true; rw [e0]; exact hd,
        ?_⟩
      intro c hcm hcard
      simp only [List.mem_append] at hcm
      rcases hcm with (hcm | hcm) | hcm
      · exact hc c (by rw [← e5]; exact hcm) hcard
      · exact releaseCalls_pressed s0 ig rel hrel c hcm
      · exfalso
        simp only [activateCalls, e3.trans hm] at hcm
        split_ifs at hcm with hdiag
        · simp only [List.mem_singleton] at hcm
          subst hcm
          have := isDiagonal_not_cardinal _ hdiag
          simp only at hcard
          rw [this] at hcard
          cases hcard
        · cases hcm

theorem fourWayDiagonal_run (ds : List (Nat × Bool)) :
    ∀ s : JoyDPad, s.currentMode = JoyMode.FourWayDiagonal → s.dpadDelay = 0 →
      isNamed s.prevDirection = true →
      (∀ c ∈ s.buttonCalls, isCardinal c.button.direction = true → c.pressed = false) →
      (∀ p ∈ ds, isNamed p.1 = true) →
      ∃ s', run s (submissions ds) = some s' ∧
        ∀ c ∈ s'.buttonCalls, isCardinal c.button.direction = true → c.pressed = false := by
  induction ds with
  | nil =>
    intro s _ _ _ hc _
    exact ⟨s, rfl, hc⟩
  | cons p rest ih =>
    intro s hm h0 hn hc hd
    obtain ⟨s1, hs1, hm1, h01, hn1, hc1⟩ :=
      fourWayDiagonal_joyEvent s p.1 p.2 hm h0 hn (hd p (List.mem_cons_self _ _)) hc
    obtain ⟨s', hs', hc'⟩ :=
      ih s1 hm1 h01 hn1 hc1 (fun q hq => hd q (List.mem_cons_of_mem _ hq))
    refine ⟨s', ?_, hc'⟩
    simp only [submissions, List.map_cons, run, step, hs1, Option.some_bind]
    exact hs'

/-- C6 (as amended): in FourWayDiagonal mode, every sequence of commits over
the nine named directions from a freshly constructed DPad runs to the end, and
no call it makes on a cardinal button is an activation: a cardinal button
receives deactivations only. -/
theorem fourWayDiagonal_never_activates_cardinal (addr : Nat) (ds : List (Nat × Bool))
    (hd : ∀ p ∈ ds, isNamed p.1 = true) :
    ∃ s, run (freshIn addr JoyMode.FourWayDiagonal) (submissions ds) = some s ∧
      ∀ c ∈ s.buttonCalls, isCardinal c.button.direction = true → c.pressed = false :=
  fourWayDiagonal_run ds (freshIn addr JoyMode.FourWayDiagonal) rfl rfl rfl
    (by intro c hc; cases hc) hd

theorem fourWayDiagonal_never_activates_cardinal_witness :
    ∃ s, run (freshIn 0 JoyMode.FourWayDiagonal) (submissions cardinalSweep) = some s ∧
      ∀ c ∈ s.buttonCalls, isCardinal c.button.direction = true → c.pressed = false :=
  fourWayDiagonal_never_activates_cardinal 0 cardinalSweep (by decide)

/-- C6 (counterexample): in FourWayDiagonal mode on a freshly constructed
DPad, committing Up and then Right makes a call on the cardinal Up button (a
deactivation, from the release of the committed direction). -/
theorem fourWayDiagonal_calls_cardinal :
    (run (freshIn 0 JoyMode.FourWayDiagonal) (submissions cardinalSweep)).map
        (fun s => s.buttonCalls) =
      some [{ button := { owner := 0, direction := DpadUp }, pressed := false, ignoresets := false }] ∧
    isCardinal DpadUp = true := by
  decide

/-- The deferred branch of `joyEvent` in closed form: the value is latched,
and the timer is stopped if the value is a non-centered return to the
committed direction and started if idle otherwise. -/
theorem joyEvent_deferred_exact (s : JoyDPad) (value : Nat)
    (hv : value ≠ s.pendingDirection) (hd : s.dpadDelay ≠ 0) :
    joyEvent s value false =
      some (if value ≠ DpadCentered ∧ value = s.prevDirection then
              stopTimerIfActive (latched s value)
            else startTimerIfIdle (latched s value)) := by
  simp only [joyEvent, ne_eq, hv, not_false_eq_true, if_true, Bool.false_eq_true, false_or, hd,
    if_false, emit, latched, submissionSignals]
  by_cases h0 : value = 0
  · subst h0
    simp
  · by_cases hc : s.prevDirection = 0
    · have : ¬ value = s.prevDirection := by rw [hc]; exact h0
      simp [h0, hc, this, hd]
    · by_cases hp : value = s.prevDirection
      · simp [h0, hc, hp, hd]
      · simp [h0, hc, hp, hd]

/-- C11: with delay > 0 and the timer running, a non-bypass submission of a
value different from both the pending and the committed direction returns the
state with the value latched as pending direction; no call is made on the
timer, which stays as it was (running, same interval, so same deadline), and
no button is called. -/
theorem joyEvent_deferred_keeps_timer (s : JoyDPad) (value : Nat)
    (hd : 0 < s.dpadDelay) (ht : s.directionDelayTimer.isActive = true)
    (hv : value ≠ s.pendingDirection) (hp : value ≠ s.prevDirection) :
    joyEvent s value false = some (latched s value) ∧
    (latched s value).pendingDirection = value ∧
    (latched s value).directionDelayTimer = s.directionDelayTimer ∧
    (latched s value).directionDelayTimer.isActive = true ∧
    (latched s value).timerCalls = s.timerCalls ∧
    (latched s value).prevDirection = s.prevDirection ∧
    (latched s value).activeDiagonalButton = s.activeDiagonalButton ∧
    (latched s value).buttonCalls = s.buttonCalls := by
  refine ⟨?_, rfl, rfl, ht, rfl, rfl, rfl, rfl⟩
  rw [joyEvent_deferred_exact s value hv (ne_of_gt hd)]
  have h1 : ¬ (value ≠ DpadCentered ∧ value = s.prevDirection) := fun h => hp h.2
  have h2 : (latched s value).directionDelayTimer.isActive = true := ht
  simp only [h1, if_false, startTimerIfIdle, h2, if_true]

theorem joyEvent_deferred_keeps_timer_witness :
    joyEvent sampleReversal DpadLeft false = some (latched sampleReversal DpadLeft) ∧
    (latched sampleReversal DpadLeft).pendingDirection = DpadLeft ∧
    (latched sampleReversal DpadLeft).directionDelayTimer = sampleReversal.directionDelayTimer ∧
    (latched sampleReversal DpadLeft).directionDelayTimer.isActive = true ∧
    (latched sampleReversal DpadLeft).timerCalls = sampleReversal.timerCalls ∧
    (latched sampleReversal DpadLeft).prevDirection = sampleReversal.prevDirection ∧
    (latched sampleReversal DpadLeft).activeDiagonalButton = sampleReversal.activeDiagonalButton ∧
    (latched sampleReversal DpadLeft).buttonCalls = sampleReversal.buttonCalls :=
  joyEvent_deferred_keeps_timer sampleReversal DpadLeft (by decide) rfl (by decide) (by decide)

/-- C12 (the code at the failing input): with delay 50, the committed
direction centered and Up pending with the timer running, the non-bypass
submission of the centered value latches it, emits `released`, makes no call
on the timer and leaves it running; whereas with Up committed and Down
pending, the non-bypass submission of Up stops the timer. -/
theorem joyEvent_centered_return_keeps_timer :
    joyEvent sampleDeferred DpadCentered false =
      some { sampleDeferred with
             pendingDirection := DpadCentered
             signals := [Signal.released DpadCentered] } ∧
    sampleDeferred.prevDirection = DpadCentered ∧
    sampleDeferred.directionDelayTimer.isActive = true ∧
    (joyEvent sampleReversal DpadUp false).map (fun s => s.directionDelayTimer.isActive) =
      some false ∧
    (joyEvent sampleReversal DpadUp false).map (fun s => s.timerCalls) =
      some [TimerCall.start 50, TimerCall.stop] := by
  decide

/-- C14: `setDPadDelay(v)` stores v and emits `dpadDelayChanged(v)` then
`propertyUpdated` when v is 0 or lies in 10..1000, and returns the state
unchanged otherwise; 5 and 1500 are rejected, 0, 10 and 1000 accepted. -/
theorem setDPadDelay_validation (s : JoyDPad) (v : Int) :
    ((v = 0 ∨ (10 ≤ v ∧ v ≤ 1000)) →
      setDPadDelay s v =
        { s with
          dpadDelay := v
          signals := s.signals ++ [Signal.dpadDelayChanged v, Signal.propertyUpdated] }) ∧
    (¬ (v = 0 ∨ (10 ≤ v ∧ v ≤ 1000)) → setDPadDelay s v = s) ∧
    setDPadDelay s 5 = s ∧ setDPadDelay s 1500 = s ∧
    (setDPadDelay s 0).dpadDelay = 0 ∧ (setDPadDelay s 10).dpadDelay = 10 ∧
    (setDPadDelay s 1000).dpadDelay = 1000 := by
  refine ⟨?_, ?_, ?_, ?_, ?_, ?_, ?_⟩
  · intro h
    have h2 : (v ≥ 10 ∧ v ≤ 1000) ∨ v = 0 := by
      rcases h with h | h
      · exact Or.inr h
      · exact Or.inl h
    simp [setDPadDelay, h2, emit]
  · intro h
    have h2 : ¬ ((v ≥ 10 ∧ v ≤ 1000) ∨ v = 0) := by
      intro hh
      apply h
      rcases hh with hh | hh
      · exact Or.inr hh
      · exact Or.inl hh
    simp only [setDPadDelay, h2, if_false]
  · simp [setDPadDelay]
  · simp [setDPadDelay]
  · simp [setDPadDelay, emit]
  · simp [setDPadDelay, emit]
  · simp [setDPadDelay, emit]

theorem setDPadDelay_validation_witness :
    setDPadDelay (setDPadDelay (new 0) 250) 1500 =
      { new 0 with
        dpadDelay := 250
        signals := [Signal.dpadDelayChanged 250, Signal.propertyUpdated] } :=
  ((setDPadDelay_validation (setDPadDelay (new 0) 250) 1500).2.1 (by decide)).trans
    ((setDPadDelay_validation (new 0) 250).1 (by decide))

/-- C15: `setJoyMode(m)` sets the mode to m and emits `joyModeChanged` then
`propertyUpdated`; it calls no button and no timer method and leaves the
committed direction, the pending direction, the lock, the delay, the timer
and the queued event as they were. -/
theorem setJoyMode_frame (s : JoyDPad) (m : JoyMode) :
    setJoyMode s m =
      { s with
        currentMode := m
        signals := s.signals ++ [Signal.joyModeChanged, Signal.propertyUpdated] } ∧
    (setJoyMode s m).currentMode = m ∧
    (setJoyMode s m).buttonCalls = s.buttonCalls ∧
    (setJoyMode s m).prevDirection = s.prevDirection ∧
    (setJoyMode s m).pendingDirection = s.pendingDirection ∧
    (setJoyMode s m).activeDiagonalButton = s.activeDiagonalButton ∧
    (setJoyMode s m).dpadDelay = s.dpadDelay ∧
    (setJoyMode s m).directionDelayTimer = s.directionDelayTimer ∧
    (setJoyMode s m).timerCalls = s.timerCalls := by
  refine ⟨?_, rfl, rfl, rfl, rfl, rfl, rfl, rfl, rfl⟩
  simp [setJoyMode, emit]

theorem startTimerIfIdle_active (s : JoyDPad) :
    (startTimerIfIdle s).directionDelayTimer.isActive = true := by
  unfold startTimerIfIdle timerStart
  cases h : s.directionDelayTimer.isActive <;> simp [h]

/-- One non-bypass submission on a DPad with a non-zero delay: it returns,
calls no button, leaves the committed direction, the lock, the mode and the
delay alone, latches the value, and leaves the timer running unless the
pending direction is now the committed one. -/
theorem deferred_step (t : JoyDPad) (d : Nat) (hd : t.dpadDelay ≠ 0)
    (hinv : t.pendingDirection ≠ t.prevDirection → t.directionDelayTimer.isActive = true) :
    ∃ t', joyEvent t d false = some t' ∧ t'.buttonCalls = t.buttonCalls ∧
      t'.prevDirection = t.prevDirection ∧ t'.activeDiagonalButton = t.activeDiagonalButton ∧
      t'.currentMode = t.currentMode ∧ t'.addr = t.addr ∧ t'.dpadDelay = t.dpadDelay ∧
      t'.pendingDirection = d ∧
      (t'.pendingDirection ≠ t'.prevDirection → t'.directionDelayTimer.isActive = true) := by
  by_cases hv : d = t.pendingDirection
  · refine ⟨t, by simp [joyEvent, hv], rfl, rfl, rfl, rfl, rfl, rfl, hv.symm, hinv⟩
  · rw [joyEvent_deferred_exact t d hv hd]
    by_cases hc : d ≠ DpadCentered ∧ d = t.prevDirection
    · refine ⟨stopTimerIfActive (latched t d), by rw [if_pos hc], ?_⟩
      obtain ⟨-, h2, h3, h4, h5, h6, h7, h8, -⟩ := stopTimerIfActive_frame (latched t d)
      refine ⟨h7, h3, h4, h5, h6, h8, h2, ?_⟩
      intro hne
      exact absurd (h2.trans (hc.2.trans h3.symm)) hne
    · refine ⟨startTimerIfIdle (latched t d), by rw [if_neg hc], ?_⟩
      obtain ⟨h2, h3, h4, h5, h6, h7, h8, -⟩ := startTimerIfIdle_frame (latched t d)
      exact ⟨h7, h3, h4, h5, h6, h8, h2, fun _ => startTimerIfIdle_active _⟩

theorem deferred_run (ds : List Nat) :
    ∀ t : JoyDPad, t.dpadDelay ≠ 0 →
      (t.pendingDirection ≠ t.prevDirection → t.directionDelayTimer.isActive = true) →
      ∃ t', run t (deferredSubmissions ds) = some t' ∧ t'.buttonCalls = t.buttonCalls ∧
        t'.prevDirection = t.prevDirection ∧ t'.activeDiagonalButton = t.activeDiagonalButton ∧
        t'.currentMode = t.currentMode ∧ t'.addr = t.addr ∧ t'.dpadDelay = t.dpadDelay ∧
        (t'.pendingDirection ≠ t'.prevDirection → t'.directionDelayTimer.isActive = true) ∧
        ∀ h : ds ≠ [], t'.pendingDirection = ds.getLast h := by
  induction ds with
  | nil =>
    intro t _ hinv
    exact ⟨t, rfl, rfl, rfl, rfl, rfl, rfl, rfl, hinv, fun h => absurd rfl h⟩
  | cons d rest ih =>
    intro t hd hinv
    obtain ⟨t1, hj, c1, p1, l1, m1, a1, d1, q1, i1⟩ := deferred_step t d hd hinv
    obtain ⟨t', hr, c2, p2, l2, m2, a2, d2, i2, q2⟩ := ih t1 (by rw [d1]; exact hd) i1
    refine ⟨t', ?_, c2.trans c1, p2.trans p1, l2.trans l1, m2.trans m1, a2.trans a1,
      d2.trans d1, i2, ?_⟩
    · simp only [deferredSubmissions, List.map_cons, run, step, hj, Option.some_bind]
      exact hr
    · intro h
      cases rest with
      | nil =>
        simp only [deferredSubmissions, List.map_nil, run, Option.some.injEq] at hr
        subst hr
        simpa using q1
      | cons e rest2 =>
        rw [List.getLast_cons (List.cons_ne_nil e rest2)]
        exact q2 (List.cons_ne_nil e rest2)

/-- C13: from a DPad whose pending direction is the committed one (an idle
DPad in particular) with a delay in 10..1000, every non-empty sequence of non-bypass submissions
returns without a button call and without a change of the committed direction
or of the lock, and leaves the last submitted value pending; the timer is
running if that value differs from the committed direction, and when a
running timer fires, what it returns is the result of one commit from the
committed direction, lock and call log of the initial state to the last
submitted value (so no button call for an intermediate value), after which
the committed direction is the last submitted value. -/
theorem deferred_sequence_commits_last (s : JoyDPad) (ds : List Nat) (hne : ds ≠ [])
    (hpp : s.pendingDirection = s.prevDirection)
    (hd : 10 ≤ s.dpadDelay ∧ s.dpadDelay ≤ 1000) :
    ∃ s1, run s (deferredSubmissions ds) = some s1 ∧
      s1.buttonCalls = s.buttonCalls ∧ s1.prevDirection = s.prevDirection ∧
      s1.activeDiagonalButton = s.activeDiagonalButton ∧
      s1.pendingDirection = ds.getLast hne ∧
      (ds.getLast hne ≠ s.prevDirection → s1.directionDelayTimer.isActive = true) ∧
      (s1.directionDelayTimer.isActive = true →
        (∀ s2, timerTimeout s1 = some s2 →
          s2.prevDirection = ds.getLast hne ∧ s2.directionDelayTimer.isActive = false ∧
          ∃ s0, createDeskEvent s0 false = some s2 ∧ s0.pendingDirection = ds.getLast hne ∧
            s0.prevDirection = s.prevDirection ∧
            s0.activeDiagonalButton = s.activeDiagonalButton ∧
            s0.currentMode = s.currentMode ∧ s0.addr = s.addr ∧
            s0.buttonCalls = s.buttonCalls) ∧
        (isNamed s.prevDirection = true → ∃ s2, timerTimeout s1 = some s2)) := by
  have hd0 : s.dpadDelay ≠ 0 := by omega
  obtain ⟨s1, hr, c1, p1, l1, m1, a1, -, i1, q1⟩ :=
    deferred_run ds s hd0 (fun h => absurd hpp h)
  have hq := q1 hne
  refine ⟨s1, hr, c1, p1, l1, hq, ?_, ?_⟩
  · intro h
    exact i1 (by rw [hq, p1]; exact h)
  · intro ht
    have hfire : timerTimeout s1 = createDeskEvent
        { s1 with directionDelayTimer := { s1.directionDelayTimer with isActive := false } }
        false := by
      simp only [timerTimeout, ht, if_true, dpadDirectionChangeEvent,
        createDeskEventDefaultIgnoresets]
    constructor
    · intro s2 h2
      rw [hfire] at h2
      have hf := createDeskEvent_frame _ s2 false h2
      refine ⟨?_, ?_, _, h2, hq, p1, l1, m1, a1, c1⟩
      · rw [hf]; exact hq
      · rw [hf]
    · intro hn
      rw [hfire]
      exact createDeskEvent_isSome_of_named _ false (by show isNamed s1.prevDirection = true; rw [p1]; exact hn)

theorem deferred_sequence_commits_last_witness :
    (∃ s1, run freshDelay50 (deferredSubmissions [DpadUp, DpadDown, DpadUp]) = some s1 ∧
      s1.buttonCalls = freshDelay50.buttonCalls ∧ s1.prevDirection = freshDelay50.prevDirection ∧
      s1.activeDiagonalButton = freshDelay50.activeDiagonalButton ∧
      s1.pendingDirection = DpadUp ∧
      (DpadUp ≠ freshDelay50.prevDirection → s1.directionDelayTimer.isActive = true) ∧
      (s1.directionDelayTimer.isActive = true →
        (∀ s2, timerTimeout s1 = some s2 →
          s2.prevDirection = DpadUp ∧ s2.directionDelayTimer.isActive = false ∧
          ∃ s0, createDeskEvent s0 false = some s2 ∧ s0.pendingDirection = DpadUp ∧
            s0.prevDirection = freshDelay50.prevDirection ∧
            s0.activeDiagonalButton = freshDelay50.activeDiagonalButton ∧
            s0.currentMode = freshDelay50.currentMode ∧ s0.addr = freshDelay50.addr ∧
            s0.buttonCalls = freshDelay50.buttonCalls) ∧
        (isNamed freshDelay50.prevDirection = true → ∃ s2, timerTimeout s1 = some s2))) ∧
    (run freshDelay50
        (deferredSubmissions [DpadUp, DpadDown, DpadUp] ++ [DPadAction.timeout])).map
      (fun s => (s.buttonCalls, s.prevDirection, s.timerCalls)) =
      some ([{ button := { owner := 0, direction := DpadUp }, pressed := true, ignoresets := false }],
        DpadUp, [TimerCall.start 50]) :=
  ⟨deferred_sequence_commits_last freshDelay50 [DpadUp, DpadDown, DpadUp] (by decide) rfl
    (by decide), by decide⟩

theorem createDeskEvent_withQueue (s : JoyDPad) (ig e i : Bool) (d : Nat) :
    createDeskEvent (withQueue s e d i) ig =
      (createDeskEvent s ig).map fun t => withQueue t e d i := by
  rw [createDeskEvent_eq, createDeskEvent_eq]
  have h1 : releaseCalls (withQueue s e d i) ig = releaseCalls s ig := rfl
  have h2 : activateCalls (withQueue s e d i) ig = activateCalls s ig := rfl
  have h3 : lockAfter (withQueue s e d i) = lockAfter s := rfl
  have h4 : (withQueue s e d i).pendingDirection = s.pendingDirection := rfl
  have h5 : (withQueue s e d i).prevDirection = s.prevDirection := rfl
  rw [h1, h2, h3, h4, h5]
  by_cases hp : s.pendingDirection = s.prevDirection
  · simp [hp]
  · simp only [ne_eq, hp, not_false_eq_true, if_true]
    cases releaseCalls s ig with
    | none => rfl
    | some rel => rfl

/-- The method `joyEvent` in closed form. -/
theorem joyEvent_eq (s : JoyDPad) (v : Nat) (ig : Bool) :
    joyEvent s v ig =
      if v = s.pendingDirection then some s
      else if ig = true ∨ s.dpadDelay = 0 then
        createDeskEvent (stopTimerIfActive (latched s v)) ig
      else
        some (if v ≠ DpadCentered ∧ v = s.prevDirection then stopTimerIfActive (latched s v)
              else startTimerIfIdle (latched s v)) := by
  by_cases hv : v = s.pendingDirection
  · simp [joyEvent, hv]
  · rw [if_neg hv]
    by_cases hb : ig = true ∨ s.dpadDelay = 0
    · rw [if_pos hb]
      simp only [joyEvent, ne_eq, hv, not_false_eq_true, if_true, emit, latched, submissionSignals]
      by_cases h0 : v = 0
      · subst h0
        simp [hb]
      · by_cases hc : s.prevDirection = 0
        · simp [h0, hc, hb]
        · simp [h0, hc, hb]
    · rw [if_neg hb]
      have hb1 : ig = false := by
        cases ig
        · rfl
        · exact absurd (Or.inl rfl) hb
      subst hb1
      exact joyEvent_deferred_exact s v hv (fun hh => hb (Or.inr hh))

theorem stopTimerIfActive_withQueue (s : JoyDPad) (e i : Bool) (d : Nat) :
    stopTimerIfActive (withQueue s e d i) = withQueue (stopTimerIfActive s) e d i := by
  unfold stopTimerIfActive
  have h : (withQueue s e d i).directionDelayTimer.isActive = s.directionDelayTimer.isActive := rfl
  rw [h]
  split_ifs <;> rfl

theorem startTimerIfIdle_withQueue (s : JoyDPad) (e i : Bool) (d : Nat) :
    startTimerIfIdle (withQueue s e d i) = withQueue (startTimerIfIdle s) e d i := by
  unfold startTimerIfIdle
  have h : (withQueue s e d i).directionDelayTimer.isActive = s.directionDelayTimer.isActive := rfl
  rw [h]
  split_ifs <;> rfl

theorem joyEvent_withQueue (s : JoyDPad) (v : Nat) (ig e i : Bool) (d : Nat) :
    joyEvent (withQueue s e d i) v ig = (joyEvent s v ig).map fun t => withQueue t e d i := by
  rw [joyEvent_eq, joyEvent_eq]
  have h4 : (withQueue s e d i).pendingDirection = s.pendingDirection := rfl
  have h5 : (withQueue s e d i).prevDirection = s.prevDirection := rfl
  have h6 : (withQueue s e d i).dpadDelay = s.dpadDelay := rfl
  have h7 : latched (withQueue s e d i) v = withQueue (latched s v) e d i := rfl
  rw [h4, h5, h6, h7, stopTimerIfActive_withQueue, startTimerIfIdle_withQueue,
    createDeskEvent_withQueue]
  split_ifs <;> rfl

theorem withQueue_withQueue (s : JoyDPad) (e1 i1 e2 i2 : Bool) (d1 d2 : Nat) :
    withQueue (withQueue s e1 d1 i1) e2 d2 i2 = withQueue s e2 d2 i2 := rfl

/-- C18 (as amended): for every state, values v1, v2 and flags b1, b2,
`queuePendingEvent(v1, b1)`, `queuePendingEvent(v2, b2)`, then
`activatePendingEvent()` gives what `joyEvent(v2, b2)` followed by
`clearPendingEvent()` gives (and fails when `joyEvent(v2, b2)` fails); v1 and
b1 do not occur in the result.  On a state with nothing queued this is what
`joyEvent(v2, b2)` alone gives. -/
theorem activate_after_two_queues (s : JoyDPad) (v1 v2 : Nat) (b1 b2 : Bool) :
    activatePendingEvent (queuePendingEvent (queuePendingEvent s v1 b1) v2 b2) =
      (joyEvent s v2 b2).map clearPendingEvent ∧
    (s.pendingEvent = false → s.pendingEventDirection = DpadCentered →
      s.pendingIgnoreSets = false →
      activatePendingEvent (queuePendingEvent (queuePendingEvent s v1 b1) v2 b2) =
        joyEvent s v2 b2) := by
  have key : activatePendingEvent (queuePendingEvent (queuePendingEvent s v1 b1) v2 b2) =
      (joyEvent s v2 b2).map clearPendingEvent := by
    have h1 : queuePendingEvent (queuePendingEvent s v1 b1) v2 b2 = withQueue s true v2 b2 := rfl
    rw [h1]
    have h2 : activatePendingEvent (withQueue s true v2 b2) =
        (joyEvent (withQueue s true v2 b2) v2 b2).map fun s1 =>
          withQueue s1 false DpadCentered false := rfl
    rw [h2, joyEvent_withQueue]
    cases joyEvent s v2 b2 with
    | none => rfl
    | some t => rfl
  refine ⟨key, ?_⟩
  intro he hd hi
  rw [key]
  have hs : withQueue s false DpadCentered false = s := by
    cases s
    simp only [withQueue] at *
    simp_all
  have hj := joyEvent_withQueue s v2 b2 false false DpadCentered
  rw [hs] at hj
  exact hj.symm

theorem activate_after_two_queues_witness :
    activatePendingEvent (queuePendingEvent (queuePendingEvent (new 0) DpadUp true) DpadLeftUp false) =
      joyEvent (new 0) DpadLeftUp false :=
  (activate_after_two_queues (new 0) DpadUp DpadLeftUp true false).2 rfl rfl rfl

/-- C18 (counterexample): on a state with Down queued, queueing Up, queueing
Right and flushing leaves nothing queued, whereas `joyEvent(Right, false)`
alone leaves Down queued: the two resulting states differ. -/
theorem activate_after_two_queues_differs :
    activatePendingEvent (queuePendingEvent (queuePendingEvent sampleQueued DpadUp false)
        DpadRight false) ≠ joyEvent sampleQueued DpadRight false ∧
    (activatePendingEvent (queuePendingEvent (queuePendingEvent sampleQueued DpadUp false)
        DpadRight false)).map hasPendingEvent = some false ∧
    (joyEvent sampleQueued DpadRight false).map hasPendingEvent = some true := by
  decide

theorem mem_buttonKeys (k : Nat) : k ∈ buttonKeys ↔ (isCardinal k = true ∨ isDiagonal k = true) := by
  simp only [buttonKeys, List.mem_cons, List.mem_singleton, List.not_mem_nil, or_false,
    isCardinal, isDiagonal, Bool.or_eq_true, beq_iff_eq]
  constructor <;> intro h <;> omega

theorem mem_order (order : List Nat) (h : IterationOrder order) (k : Nat) :
    k ∈ order ↔ (isCardinal k = true ∨ isDiagonal k = true) := by
  rw [← mem_buttonKeys]
  exact h.mem_iff

theorem buttons_value_eq_some (s : JoyDPad) (k : Nat) (b : ButtonRef) :
    s.buttons_value k = some b ↔
      (isCardinal k = true ∨ isDiagonal k = true) ∧ b = { owner := s.addr, direction := k } := by
  rw [buttons_value_eq]
  by_cases h : isCardinal k = true ∨ isDiagonal k = true
  · rw [if_pos h]
    constructor
    · intro hb
      exact ⟨h, (Option.some.inj hb).symm⟩
    · rintro ⟨-, rfl⟩
      rfl
  · rw [if_neg h]
    constructor
    · intro hb
      cases hb
    · rintro ⟨hk, -⟩
      exact absurd hk h

theorem isDefault_foldl (s : JoyDPad) (defaults : ButtonRef → Bool) (order : List Nat) :
    ∀ init : Bool,
      order.foldl
        (fun value k =>
          match s.buttons_value k with
          | some button => value && defaults button
          | none => value) init =
      (init && order.all fun k =>
        match s.buttons_value k with
        | some button => defaults button
        | none => true) := by
  induction order with
  | nil => intro init; simp
  | cons k rest ih =>
    intro init
    simp only [List.foldl_cons, List.all_cons, ih]
    cases s.buttons_value k with
    | none => simp
    | some b => simp [Bool.and_assoc]

theorem isDefault_iff (order : List Nat) (horder : IterationOrder order)
    (defaults : ButtonRef → Bool) (s : JoyDPad) :
    isDefault order defaults s = true ↔
      s.currentMode = JoyMode.StandardMode ∧ s.dpadDelay = 0 ∧
        ∀ k b, s.buttons_value k = some b → defaults b = true := by
  unfold isDefault
  rw [isDefault_foldl]
  simp only [Bool.true_and, Bool.and_eq_true, decide_eq_true_eq, List.all_eq_true, DEFAULTDPADDELAY]
  constructor
  · rintro ⟨⟨h1, h2⟩, h3⟩
    refine ⟨h1, h2, ?_⟩
    intro k b hb
    have hk : k ∈ order := (mem_order order horder k).2 ((buttons_value_eq_some s k b).1 hb).1
    have := h3 k hk
    rw [hb] at this
    exact this
  · rintro ⟨h1, h2, h3⟩
    refine ⟨⟨h1, h2⟩, ?_⟩
    intro k _
    cases hb : s.buttons_value k with
    | none => rfl
    | some b => exact h3 k b hb

/-- C16: whatever order the iterator visits the eight buttons in,
`isDefault()` is true if and only if the mode is Standard, the delay is 0 and
every button stored in `buttons` answers true to its own `isDefault()`; the
buttons stored are those of the eight direction keys. -/
theorem isDefault_spec (order : List Nat) (horder : IterationOrder order)
    (defaults : ButtonRef → Bool) (s : JoyDPad) :
    (isDefault order defaults s = true ↔
      s.currentMode = JoyMode.StandardMode ∧ s.dpadDelay = 0 ∧
        ∀ k b, s.buttons_value k = some b → defaults b = true) ∧
    (∀ k, (∃ b, s.buttons_value k = some b) ↔ k ∈ buttonKeys) ∧
    buttonKeys.length = 8 ∧ buttonKeys.Nodup := by
  refine ⟨isDefault_iff order horder defaults s, ?_, rfl, by decide⟩
  intro k
  rw [mem_buttonKeys]
  constructor
  · rintro ⟨b, hb⟩
    exact ((buttons_value_eq_some s k b).1 hb).1
  · intro hk
    exact ⟨_, (buttons_value_eq_some s k _).2 ⟨hk, rfl⟩⟩

theorem isDefault_spec_witness :
    isDefault buttonKeys.reverse sampleDefaults (new 0) = false ∧
    isDefault buttonKeys.reverse sampleDefaults (new 1) = true ∧
    (isDefault buttonKeys.reverse sampleDefaults (new 1) = true ↔
      (new 1).currentMode = JoyMode.StandardMode ∧ (new 1).dpadDelay = 0 ∧
        ∀ k b, (new 1).buttons_value k = some b → sampleDefaults b = true) :=
  ⟨by decide, by decide,
    (isDefault_spec buttonKeys.reverse (List.reverse_perm buttonKeys) sampleDefaults
      (new 1)).1⟩

/-- The step of the loop of `copyAssignments` for a key of the hash: the
button copy from the source's button to the destination's. -/
theorem copyStep_valid (src dest : JoyDPad) (k : Nat)
    (hk : isCardinal k = true ∨ isDiagonal k = true)
    (copyButton : (ButtonRef → Bool) → ButtonRef → ButtonRef → (ButtonRef → Bool))
    (w : ButtonRef → Bool) :
    (match dest.buttons_value k with
      | some destButton =>
        match src.buttons_value destButton.direction with
        | some sourceButton => copyButton w sourceButton destButton
        | none => w
      | none => w) =
      copyButton w { owner := src.addr, direction := k } { owner := dest.addr, direction := k } := by
  rw [(buttons_value_eq_some dest k _).2 ⟨hk, rfl⟩]
  simp only
  rw [(buttons_value_eq_some src k _).2 ⟨hk, rfl⟩]

theorem copyStep_invalid (src dest : JoyDPad) (k : Nat)
    (hk : ¬ (isCardinal k = true ∨ isDiagonal k = true))
    (copyButton : (ButtonRef → Bool) → ButtonRef → ButtonRef → (ButtonRef → Bool))
    (w : ButtonRef → Bool) :
    (match dest.buttons_value k with
      | some destButton =>
        match src.buttons_value destButton.direction with
        | some sourceButton => copyButton w sourceButton destButton
        | none => w
      | none => w) = w := by
  rw [buttons_value_eq, if_neg hk]

theorem copyStep_source (src dest : JoyDPad) (k j : Nat)
    (copyButton : (ButtonRef → Bool) → ButtonRef → ButtonRef → (ButtonRef → Bool))
    (hcopy : ∀ w a b, copyButton w a b b = w a)
    (hframe : ∀ w a b c, c ≠ b → copyButton w a b c = w c)
    (w : ButtonRef → Bool) :
    (match dest.buttons_value k with
      | some destButton =>
        match src.buttons_value destButton.direction with
        | some sourceButton => copyButton w sourceButton destButton
        | none => w
      | none => w) { owner := src.addr, direction := j } =
      w { owner := src.addr, direction := j } := by
  by_cases hk : isCardinal k = true ∨ isDiagonal k = true
  · rw [copyStep_valid src dest k hk]
    by_cases he : ({ owner := src.addr, direction := j } : ButtonRef) =
        { owner := dest.addr, direction := k }
    · have ha : src.addr = dest.addr := by injection he
      have hj : j = k := by injection he
      subst hj
      rw [ha, hcopy]
    · exact hframe _ _ _ _ he
  · rw [copyStep_invalid src dest k hk]

theorem copyLoop_source (src dest : JoyDPad)
    (copyButton : (ButtonRef → Bool) → ButtonRef → ButtonRef → (ButtonRef → Bool))
    (hcopy : ∀ w a b, copyButton w a b b = w a)
    (hframe : ∀ w a b c, c ≠ b → copyButton w a b c = w c) (l : List Nat) :
    ∀ (w : ButtonRef → Bool) (j : Nat),
      (l.foldl
        (fun w k =>
          match dest.buttons_value k with
          | some destButton =>
            match src.buttons_value destButton.direction with
            | some sourceButton => copyButton w sourceButton destButton
            | none => w
          | none => w) w) { owner := src.addr, direction := j } =
        w { owner := src.addr, direction := j } := by
  induction l with
  | nil => intro w j; rfl
  | cons k rest ih =>
    intro w j
    rw [List.foldl_cons, ih]
    exact copyStep_source src dest k j copyButton hcopy hframe w

theorem copyLoop_dest_untouched (src dest : JoyDPad)
    (copyButton : (ButtonRef → Bool) → ButtonRef → ButtonRef → (ButtonRef → Bool))
    (hframe : ∀ w a b c, c ≠ b → copyButton w a b c = w c) (l : List Nat) :
    ∀ (w : ButtonRef → Bool) (j : Nat), j ∉ l →
      (l.foldl
        (fun w k =>
          match dest.buttons_value k with
          | some destButton =>
            match src.buttons_value destButton.direction with
            | some sourceButton => copyButton w sourceButton destButton
            | none => w
          | none => w) w) { owner := dest.addr, direction := j } =
        w { owner := dest.addr, direction := j } := by
  induction l with
  | nil => intro w j _; rfl
  | cons k rest ih =>
    intro w j hj
    rw [List.foldl_cons, ih _ j (fun h => hj (List.mem_cons_of_mem _ h))]
    have hjk : j ≠ k := fun h => hj (h ▸ List.mem_cons_self _ _)
    by_cases hk : isCardinal k = true ∨ isDiagonal k = true
    · rw [copyStep_valid src dest k hk]
      apply hframe
      intro he
      injection he with _ h2
      exact hjk h2
    · rw [copyStep_invalid src dest k hk]

theorem copyLoop_dest (src dest : JoyDPad)
    (copyButton : (ButtonRef → Bool) → ButtonRef → ButtonRef → (ButtonRef → Bool))
    (hcopy : ∀ w a b, copyButton w a b b = w a)
    (hframe : ∀ w a b c, c ≠ b → copyButton w a b c = w c) (l : List Nat) :
    ∀ (w : ButtonRef → Bool) (j : Nat), j ∈ l → (isCardinal j = true ∨ isDiagonal j = true) →
      (l.foldl
        (fun w k =>
          match dest.buttons_value k with
          | some destButton =>
            match src.buttons_value destButton.direction with
            | some sourceButton => copyButton w sourceButton destButton
            | none => w
          | none => w) w) { owner := dest.addr, direction := j } =
        w { owner := src.addr, direction := j } := by
  induction l with
  | nil => intro w j hj; cases hj
  | cons k rest ih =>
    intro w j hj hv
    rw [List.foldl_cons]
    by_cases hr : j ∈ rest
    · rw [ih _ j hr hv]
      exact copyStep_source src dest k j copyButton hcopy hframe w
    · have hjk : j = k := by
        rcases List.mem_cons.1 hj with h | h
        · exact h
        · exact absurd h hr
      subst hjk
      rw [copyLoop_dest_untouched src dest copyButton hframe rest _ j hr,
        copyStep_valid src dest j hv, hcopy]

/-- C17: whatever order the iterator visits the buttons in, and whatever the
source's mode, delay and button defaults, if a button copy makes the
destination button's `isDefault()` answer equal to the source button's and
changes no other button's answer, then after `src.copyAssignments(dest)` the
destination's `isDefault()` equals the source's, which is what it was before
the call. -/
theorem copyAssignments_preserves_isDefault (order : List Nat) (horder : IterationOrder order)
    (copyButton : (ButtonRef → Bool) → ButtonRef → ButtonRef → (ButtonRef → Bool))
    (hcopy : ∀ w a b, copyButton w a b b = w a)
    (hframe : ∀ w a b c, c ≠ b → copyButton w a b c = w c)
    (defaults : ButtonRef → Bool) (src dest : JoyDPad) :
    isDefault order (copyAssignments order copyButton defaults src dest).2.2
        (copyAssignments order copyButton defaults src dest).2.1 =
      isDefault order (copyAssignments order copyButton defaults src dest).2.2
        (copyAssignments order copyButton defaults src dest).1 ∧
    isDefault order (copyAssignments order copyButton defaults src dest).2.2
        (copyAssignments order copyButton defaults src dest).1 =
      isDefault order defaults src := by
  have hsrc := copyLoop_source src dest copyButton hcopy hframe order defaults
  have hdst := copyLoop_dest src dest copyButton hcopy hframe order defaults
  constructor
  · rw [Bool.eq_iff_iff, isDefault_iff order horder, isDefault_iff order horder]
    simp only [copyAssignments]
    constructor
    · rintro ⟨h1, h2, h3⟩
      refine ⟨by split_ifs <;> exact h1, by split_ifs <;> exact h2, ?_⟩
      intro k b hb
      have hb2 : src.buttons_value k = some b := by split_ifs at hb <;> exact hb
      obtain ⟨hk, rfl⟩ := (buttons_value_eq_some src k b).1 hb2
      rw [hsrc k, ← hdst k ((mem_order order horder k).2 hk) hk]
      exact h3 k _ ((buttons_value_eq_some _ k _).2 ⟨hk, rfl⟩)
    · rintro ⟨h1, h2, h3⟩
      refine ⟨by split_ifs at h1 <;> exact h1, by split_ifs at h2 <;> exact h2, ?_⟩
      intro k b hb
      obtain ⟨hk, rfl⟩ := (buttons_value_eq_some _ k b).1 hb
      show _ = true
      rw [hdst k ((mem_order order horder k).2 hk) hk, ← hsrc k]
      apply h3 k
      split_ifs <;> exact (buttons_value_eq_some src k _).2 ⟨hk, rfl⟩
  · rw [Bool.eq_iff_iff, isDefault_iff order horder, isDefault_iff order horder]
    simp only [copyAssignments]
    constructor
    · rintro ⟨h1, h2, h3⟩
      refine ⟨by split_ifs at h1 <;> exact h1, by split_ifs at h2 <;> exact h2, ?_⟩
      intro k b hb
      obtain ⟨hk, rfl⟩ := (buttons_value_eq_some src k b).1 hb
      rw [← hsrc k]
      apply h3 k
      split_ifs <;> exact (buttons_value_eq_some src k _).2 ⟨hk, rfl⟩
    · rintro ⟨h1, h2, h3⟩
      refine ⟨by split_ifs <;> exact h1, by split_ifs <;> exact h2, ?_⟩
      intro k b hb
      have hb2 : src.buttons_value k = some b := by split_ifs at hb <;> exact hb
      obtain ⟨hk, rfl⟩ := (buttons_value_eq_some src k b).1 hb2
      rw [hsrc k]
      exact h3 k _ hb2

theorem copyAssignments_preserves_isDefault_witness :
    isDefault buttonKeys sampleDefaults (new 0) = false ∧
    isDefault buttonKeys sampleDefaults (new 1) = true ∧
    isDefault buttonKeys
        (copyAssignments buttonKeys sampleCopyButton sampleDefaults (new 0) (new 1)).2.2
        (copyAssignments buttonKeys sampleCopyButton sampleDefaults (new 0) (new 1)).2.1 = false ∧
    (isDefault buttonKeys
        (copyAssignments buttonKeys sampleCopyButton sampleDefaults (new 0) (new 1)).2.2
        (copyAssignments buttonKeys sampleCopyButton sampleDefaults (new 0) (new 1)).2.1 =
      isDefault buttonKeys
        (copyAssignments buttonKeys sampleCopyButton sampleDefaults (new 0) (new 1)).2.2
        (copyAssignments buttonKeys sampleCopyButton sampleDefaults (new 0) (new 1)).1 ∧
    isDefault buttonKeys
        (copyAssignments buttonKeys sampleCopyButton sampleDefaults (new 0) (new 1)).2.2
        (copyAssignments buttonKeys sampleCopyButton sampleDefaults (new 0) (new 1)).1 =
      isDefault buttonKeys sampleDefaults (new 0)) :=
  ⟨by decide, by decide, by decide,
    copyAssignments_preserves_isDefault buttonKeys (List.Perm.refl _) sampleCopyButton
      (fun w a b => by simp [sampleCopyButton])
      (fun w a b c h => by simp [sampleCopyButton, h])
      sampleDefaults (new 0) (new 1)⟩

theorem releaseLoop_eq (s : JoyDPad) (l : List Nat) :
    ∀ acc : JoyDPad,
      l.foldl
        (fun acc k =>
          match s.buttons_value k with
          | some button => acc.buttonJoyEvent button false true
          | none => acc) acc =
      { acc with
        buttonCalls := acc.buttonCalls ++ l.filterMap fun k =>
          (s.buttons_value k).map fun b =>
            ({ button := b, pressed := false, ignoresets := true } : ButtonCall) } := by
  induction l with
  | nil => intro acc; simp
  | cons k rest ih =>
    intro acc
    rw [List.foldl_cons, ih]
    cases hb : s.buttons_value k with
    | none => simp [hb]
    | some b => simp [hb, buttonJoyEvent]

theorem mem_getApplicableButtons (s : JoyDPad) (p : Nat × Option ButtonRef)
    (h : p ∈ getApplicableButtons s) :
    (isCardinal p.1 = true ∨ isDiagonal p.1 = true) ∧
      p.2 = some { owner := s.addr, direction := p.1 } := by
  unfold getApplicableButtons at h
  rcases List.mem_append.1 h with h | h
  · split_ifs at h
    · simp only [List.mem_cons, List.mem_singleton, List.not_mem_nil, or_false] at h
      rcases h with rfl | rfl | rfl | rfl <;> exact ⟨Or.inl rfl, rfl⟩
    · cases h
  · split_ifs at h
    · simp only [List.mem_cons, List.mem_singleton, List.not_mem_nil, or_false] at h
      rcases h with rfl | rfl | rfl | rfl <;> exact ⟨Or.inr rfl, rfl⟩
    · cases h

/-- C19: whatever order the iterator visits the buttons in, in every mode and
whatever calls the buttons received before, `releaseButtonEvents()` adds
deactivations only to the call log, and every entry of the hash that
`getApplicableButtons()` returns for the current mode is a button that
received one of them (`joyEvent(false, true)`) and is inactive afterwards. -/
theorem releaseButtonEvents_releases_applicable (order : List Nat)
    (horder : IterationOrder order) (s : JoyDPad) :
    ∃ added, (releaseButtonEvents order s).buttonCalls = s.buttonCalls ++ added ∧
      (∀ c ∈ added, c.pressed = false) ∧
      ∀ p ∈ getApplicableButtons s, ∃ b, p.2 = some b ∧
        ({ button := b, pressed := false, ignoresets := true } : ButtonCall) ∈ added ∧
        buttonActive (releaseButtonEvents order s).buttonCalls b = false := by
  have hcalls : (releaseButtonEvents order s).buttonCalls =
      s.buttonCalls ++ order.filterMap fun k =>
        (s.buttons_value k).map fun b =>
          ({ button := b, pressed := false, ignoresets := true } : ButtonCall) := by
    unfold releaseButtonEvents
    rw [releaseLoop_eq]
  have hpressed : ∀ c ∈ order.filterMap (fun k =>
      (s.buttons_value k).map fun b =>
        ({ button := b, pressed := false, ignoresets := true } : ButtonCall)),
      c.pressed = false := by
    intro c hc
    obtain ⟨k, -, hk⟩ := List.mem_filterMap.1 hc
    cases hb : s.buttons_value k with
    | none => simp [hb] at hk
    | some b =>
      simp only [hb, Option.map_some', Option.some.injEq] at hk
      rw [← hk]
  refine ⟨_, hcalls, hpressed, ?_⟩
  intro p hp
  obtain ⟨hk, hb⟩ := mem_getApplicableButtons s p hp
  have hmem : (ButtonCall.mk { owner := s.addr, direction := p.1 } false true) ∈
      order.filterMap (fun k =>
        (s.buttons_value k).map fun b =>
          ({ button := b, pressed := false, ignoresets := true } : ButtonCall)) := by
    apply List.mem_filterMap.2
    refine ⟨p.1, (mem_order order horder p.1).2 hk, ?_⟩
    rw [(buttons_value_eq_some s p.1 _).2 ⟨hk, rfl⟩]
    rfl
  refine ⟨_, hb, hmem, ?_⟩
  rw [hcalls, buttonActive_append_uniform false _ _ _ hpressed]
  have hany : (order.filterMap fun k =>
      (s.buttons_value k).map fun b =>
        ({ button := b, pressed := false, ignoresets := true } : ButtonCall)).any
      (fun c => c.button == { owner := s.addr, direction := p.1 }) = true := by
    rw [List.any_eq_true]
    exact ⟨_, hmem, by simp⟩
  rw [if_pos hany]

theorem releaseButtonEvents_releases_applicable_witness :
    ∃ added, (releaseButtonEvents buttonKeys.reverse sampleEightWay).buttonCalls =
        sampleEightWay.buttonCalls ++ added ∧
      (∀ c ∈ added, c.pressed = false) ∧
      ∀ p ∈ getApplicableButtons sampleEightWay, ∃ b, p.2 = some b ∧
        ({ button := b, pressed := false, ignoresets := true } : ButtonCall) ∈ added ∧
        buttonActive (releaseButtonEvents buttonKeys.reverse sampleEightWay).buttonCalls b = false :=
  releaseButtonEvents_releases_applicable buttonKeys.reverse (List.reverse_perm buttonKeys)
    sampleEightWay

theorem isNamed_false (d : Nat) (h : isNamed d = false) :
    d ≠ 0 ∧ isCardinal d = false ∧ isDiagonal d = false := by
  simp only [isNamed, Bool.or_eq_false_iff, beq_eq_false_iff_ne, ne_eq] at h
  exact ⟨h.1.1, h.1.2, h.2⟩

theorem foldCardinal_unnamed (d : Nat) (h : isNamed d = false) : foldCardinal d = 0 := by
  obtain ⟨-, hc, hd⟩ := isNamed_false d h
  rcases foldCardinal_cases d with ⟨h0, -⟩ | ⟨-, g | g⟩ | ⟨-, g | g⟩ | ⟨-, g | g⟩ | ⟨-, g | g⟩
  · exact h0
  all_goals (subst g; first | exact absurd hc (by decide) | exact absurd hd (by decide))

theorem activateCalls_unnamed (s : JoyDPad) (ig : Bool)
    (hm : s.currentMode ≠ JoyMode.StandardMode) (hn : isNamed s.pendingDirection = false) :
    activateCalls s ig = [] ∧ lockAfter s = none := by
  obtain ⟨-, hc, hd⟩ := isNamed_false _ hn
  have hf := foldCardinal_unnamed _ hn
  constructor
  · unfold activateCalls
    cases hmode : s.currentMode
    · exact absurd hmode hm
    · simp [hc, hd]
    · simp [hf]
    · simp [hd]
  · simp [lockAfter, hd]

/-- The release of an unnamed committed direction in EightWay mode with no
lock held looks up `buttons.value(prevDirection)`, gets a null pointer and
calls `joyEvent` on it: the commit fails. -/
theorem createDeskEvent_unnamed_release_fails :
    createDeskEvent sampleUnnamedCommitted false = none ∧
    createDeskEvent { sampleUnnamedCommitted with currentMode := JoyMode.FourWayDiagonal } false =
      none ∧
    isNamed sampleUnnamedCommitted.prevDirection = false := by
  decide

/-- C20 (as amended): for a commit to a pending direction different from the
committed one, (a) the commit does not fail in Standard and FourWayCardinal
mode, nor in any mode when a lock is held or the committed direction is one of
the nine named directions; (b) in EightWay, FourWayCardinal and
FourWayDiagonal mode a commit to a value that is not a named direction
activates no button and leaves the lock empty, and makes no call at all when
the committed direction is centered and no lock is held; (c) in
FourWayCardinal mode a commit from a value that is not a named direction, no
lock held, releases no button, and makes no call at all when the pending
value is not a named direction either; (d) in Standard mode with no lock held
the four direction flags are applied one by one whatever the values are. -/
theorem unnamed_direction_commit (s : JoyDPad) (ig : Bool)
    (hne : s.pendingDirection ≠ s.prevDirection) :
    ((s.currentMode = JoyMode.StandardMode ∨ s.currentMode = JoyMode.FourWayCardinal ∨
        s.activeDiagonalButton ≠ none ∨ isNamed s.prevDirection = true) →
      ∃ s', createDeskEvent s ig = some s') ∧
    (s.currentMode ≠ JoyMode.StandardMode → isNamed s.pendingDirection = false →
      ∀ s', createDeskEvent s ig = some s' →
        s'.activeDiagonalButton = none ∧
        ∃ rel, s'.buttonCalls = s.buttonCalls ++ rel ∧ ∀ c ∈ rel, c.pressed = false) ∧
    (s.currentMode ≠ JoyMode.StandardMode → s.activeDiagonalButton = none →
      s.prevDirection = DpadCentered → isNamed s.pendingDirection = false →
      createDeskEvent s ig = some { s with prevDirection := s.pendingDirection }) ∧
    (s.currentMode = JoyMode.FourWayCardinal → s.activeDiagonalButton = none →
      isNamed s.prevDirection = false →
      ∃ s' act, createDeskEvent s ig = some s' ∧ s'.buttonCalls = s.buttonCalls ++ act ∧
        ∀ c ∈ act, c.pressed = true) ∧
    (s.currentMode = JoyMode.FourWayCardinal → s.activeDiagonalButton = none →
      isNamed s.prevDirection = false → isNamed s.pendingDirection = false →
      createDeskEvent s ig = some { s with prevDirection := s.pendingDirection }) ∧
    (s.currentMode = JoyMode.StandardMode → s.activeDiagonalButton = none →
      createDeskEvent s ig = some
        { s with
          buttonCalls := s.buttonCalls ++
            standardCalls s.addr s.prevDirection s.pendingDirection false ig ++
            standardCalls s.addr s.pendingDirection s.prevDirection true ig
          prevDirection := s.pendingDirection }) := by
  have hcde := createDeskEvent_eq s ig
  simp only [ne_eq, hne, not_false_eq_true, if_true] at hcde
  have h4c : s.currentMode = JoyMode.FourWayCardinal → s.activeDiagonalButton = none →
      isNamed s.prevDirection = false → releaseCalls s ig = some [] := by
    intro hm hl hn
    simp [releaseCalls, hl, hm, foldCardinal_unnamed _ hn]
  refine ⟨?_, ?_, ?_, ?_, ?_, ?_⟩
  · intro h
    have hrel : ∃ rel, releaseCalls s ig = some rel := by
      rcases h with h | h | h | h
      · unfold releaseCalls
        cases s.activeDiagonalButton with
        | some b => exact ⟨_, rfl⟩
        | none => simp only [h]; exact ⟨_, rfl⟩
      · unfold releaseCalls
        cases s.activeDiagonalButton with
        | some b => exact ⟨_, rfl⟩
        | none => simp only [h]; split_ifs <;> exact ⟨_, rfl⟩
      · unfold releaseCalls
        cases hl : s.activeDiagonalButton with
        | some b => exact ⟨_, rfl⟩
        | none => exact absurd hl h
      · exact releaseCalls_isSome_of_named s ig h
    obtain ⟨rel, hrel⟩ := hrel
    rw [hcde, hrel]
    exact ⟨_, rfl⟩
  · intro hm hn s' hs
    obtain ⟨ha, hl⟩ := activateCalls_unnamed s ig hm hn
    rw [hcde] at hs
    obtain ⟨rel, hrel, rfl⟩ := Option.map_eq_some'.1 hs
    refine ⟨hl, rel, ?_, releaseCalls_pressed s ig rel hrel⟩
    simp [ha]
  · intro hm hl h0 hn
    obtain ⟨ha, hla⟩ := activateCalls_unnamed s ig hm hn
    have hrel : releaseCalls s ig = some [] := by
      unfold releaseCalls
      rw [hl]
      cases hmode : s.currentMode
      · exact absurd hmode hm
      · simp [h0]
      · simp [h0, foldCardinal]
      · simp [h0]
    rw [hcde, hrel, ha, hla]
    cases s
    simp_all
  · intro hm hl hn
    refine ⟨{ s with
        buttonCalls := s.buttonCalls ++ [] ++ activateCalls s ig
        activeDiagonalButton := lockAfter s
        prevDirection := s.pendingDirection }, activateCalls s ig, ?_, ?_, activateCalls_pressed s ig⟩
    · rw [hcde, h4c hm hl hn]
      rfl
    · simp
  · intro hm hl hn hn2
    obtain ⟨ha, hla⟩ := activateCalls_unnamed s ig (by rw [hm]; decide) hn2
    rw [hcde, h4c hm hl hn, ha, hla]
    cases s
    simp_all
  · intro hm hl
    have hrel : releaseCalls s ig =
        some (standardCalls s.addr s.prevDirection s.pendingDirection false ig) := by
      simp [releaseCalls, hl, hm]
    have hact : activateCalls s ig =
        standardCalls s.addr s.pendingDirection s.prevDirection true ig := by
      simp [activateCalls, hm]
    have hlock : lockAfter s = none := by simp [lockAfter, hm]
    rw [hcde, hrel, hact, hlock]
    cases s
    simp_all

theorem unnamed_direction_commit_witness :
    isNamed sampleUnnamedPending.pendingDirection = false ∧
    createDeskEvent sampleUnnamedPending true =
      some { sampleUnnamedPending with prevDirection := 5 } :=
  ⟨by decide,
    (unnamed_direction_commit sampleUnnamedPending true (by decide)).2.2.1 (by decide) rfl rfl
      (by decide)⟩

/-- C20 (counterexample): in Standard mode the commit from centered to
Up+Down (5), which is not one of the nine named directions, activates the Up
button and the Down button: the list of transitions is not empty. -/
theorem standard_unnamed_commit_activates :
    isNamed sampleUpDownPending.pendingDirection = false ∧
    sampleUpDownPending.currentMode = JoyMode.StandardMode ∧
    createDeskEvent sampleUpDownPending false =
      some { sampleUpDownPending with
             prevDirection := 5
             buttonCalls :=
               [{ button := { owner := 0, direction := DpadUp }, pressed := true, ignoresets := false },
                { button := { owner := 0, direction := DpadDown }, pressed := true, ignoresets := false }] } := by
  decide

theorem joyEvent_signals_eq (s s' : JoyDPad) (value : Nat) (ig : Bool)
    (h : joyEvent s value ig = some s') :
    s'.signals = s.signals ++ (if value = s.pendingDirection then [] else submissionSignals s value) := by
  rw [joyEvent_eq] at h
  by_cases hv : value = s.pendingDirection
  · simp only [hv, if_true, Option.some.injEq] at h
    subst h
    simp [hv]
  · simp only [hv, if_false] at h ⊢
    have hl : (latched s value).signals = s.signals ++ submissionSignals s value := rfl
    split_ifs at h with hb hc
    · have hf := createDeskEvent_frame _ s' ig h
      rw [hf]
      show (stopTimerIfActive (latched s value)).signals = _
      rw [(stopTimerIfActive_frame (latched s value)).2.2.2.2.2.2.2.2, hl]
    · cases h
      rw [(stopTimerIfActive_frame (latched s value)).2.2.2.2.2.2.2.2, hl]
    · cases h
      rw [(startTimerIfIdle_frame (latched s value)).2.2.2.2.2.2.2, hl]

theorem joyEvent_isSome_of_named (s : JoyDPad) (value : Nat) (ig : Bool)
    (hn : isNamed s.prevDirection = true) : ∃ s', joyEvent s value ig = some s' := by
  rw [joyEvent_eq]
  by_cases hv : value = s.pendingDirection
  · rw [if_pos hv]
    exact ⟨_, rfl⟩
  · rw [if_neg hv]
    by_cases hb : ig = true ∨ s.dpadDelay = 0
    · rw [if_pos hb]
      apply createDeskEvent_isSome_of_named
      rw [(stopTimerIfActive_frame (latched s value)).2.2.1]
      exact hn
    · rw [if_neg hb]
      exact ⟨_, rfl⟩

/-- C21 (as amended): a bypass submission of a value different from the
pending direction leaves the timer not running in whatever state it returns,
having called `stop()` on it if it was running; it does return when the
committed direction is one of the nine named directions. -/
theorem bypass_submission_stops_timer (s : JoyDPad) (value : Nat)
    (hv : value ≠ s.pendingDirection) :
    (∀ s', joyEvent s value true = some s' →
      s'.directionDelayTimer.isActive = false ∧
      (s.directionDelayTimer.isActive = true →
        s'.timerCalls = s.timerCalls ++ [TimerCall.stop])) ∧
    (isNamed s.prevDirection = true → ∃ s', joyEvent s value true = some s') := by
  refine ⟨?_, joyEvent_isSome_of_named s value true⟩
  intro s' h
  rw [joyEvent_eq] at h
  simp only [hv, if_false, true_or, if_true] at h
  have hf := createDeskEvent_frame _ s' true h
  constructor
  · rw [hf]
    exact (stopTimerIfActive_frame (latched s value)).1
  · intro ht
    rw [hf]
    show (stopTimerIfActive (latched s value)).timerCalls = _
    have ht2 : (latched s value).directionDelayTimer.isActive = true := ht
    simp only [stopTimerIfActive, ht2, if_true, timerStop]
    rfl

theorem bypass_submission_stops_timer_witness :
    sampleDeferred.directionDelayTimer.isActive = true ∧
    sampleDeferredBypassed.directionDelayTimer.isActive = false ∧
    (sampleDeferred.directionDelayTimer.isActive = true →
      sampleDeferredBypassed.timerCalls = sampleDeferred.timerCalls ++ [TimerCall.stop]) :=
  ⟨rfl, (bypass_submission_stops_timer sampleDeferred DpadRight (by decide)).1
    sampleDeferredBypassed (by decide)⟩

/-- C21 (counterexample): with Up pending and the timer running, the bypass
submission of Up is ignored by the guard `value != pendingDirection` and the
timer is still running afterwards. -/
theorem bypass_of_pending_value_keeps_timer :
    sampleDeferred.directionDelayTimer.isActive = true ∧
    joyEvent sampleDeferred DpadUp true = some sampleDeferred ∧
    (joyEvent sampleDeferred DpadUp true).map (fun s => s.directionDelayTimer.isActive) =
      some true := by
  decide

/-- C23: whatever `joyEvent` returns has the signal log of the state it was
given followed by at most one signal; `active(value)` is emitted if and only
if the value differs from the pending direction, is not centered, and the
committed direction is centered; `released(value)` is emitted if and only if
the value differs from the pending direction and is centered; nothing else is
emitted.  `joyEvent` does return when the committed direction is one of the
nine named directions. -/
theorem joyEvent_signals (s : JoyDPad) (value : Nat) (ig : Bool) :
    (∀ s', joyEvent s value ig = some s' →
      ∃ added, s'.signals = s.signals ++ added ∧ added.length ≤ 1 ∧
        (Signal.active value ∈ added ↔
          (value ≠ s.pendingDirection ∧ value ≠ DpadCentered ∧
            s.prevDirection = DpadCentered)) ∧
        (Signal.released value ∈ added ↔
          (value ≠ s.pendingDirection ∧ value = DpadCentered)) ∧
        ∀ sig ∈ added, sig = Signal.active value ∨ sig = Signal.released value) ∧
    (isNamed s.prevDirection = true → ∃ s', joyEvent s value ig = some s') := by
  refine ⟨?_, joyEvent_isSome_of_named s value ig⟩
  intro s' h
  refine ⟨_, joyEvent_signals_eq s s' value ig h, ?_⟩
  by_cases hv : value = s.pendingDirection
  · simp [hv]
  · by_cases h0 : value = DpadCentered
    · subst h0
      simp [hv, submissionSignals]
    · by_cases hc : s.prevDirection = DpadCentered
      · simp [hv, h0, hc, submissionSignals]
      · simp [hv, h0, hc, submissionSignals]

theorem joyEvent_signals_witness :
    ∃ added, sampleDeferredBypassed.signals = sampleDeferred.signals ++ added ∧
      added.length ≤ 1 ∧
      (Signal.active DpadRight ∈ added ↔
        (DpadRight ≠ sampleDeferred.pendingDirection ∧ DpadRight ≠ DpadCentered ∧
          sampleDeferred.prevDirection = DpadCentered)) ∧
      (Signal.released DpadRight ∈ added ↔
        (DpadRight ≠ sampleDeferred.pendingDirection ∧ DpadRight = DpadCentered)) ∧
      ∀ sig ∈ added, sig = Signal.active DpadRight ∨ sig = Signal.released DpadRight :=
  (joyEvent_signals sampleDeferred DpadRight true).1 sampleDeferredBypassed (by decide)

/-- What `joyEvent` leaves in the two direction members. -/
theorem joyEvent_directions (s s' : JoyDPad) (value : Nat) (ig : Bool)
    (h : joyEvent s value ig = some s') :
    s'.pendingDirection = value ∧
      (s'.prevDirection = s.prevDirection ∨ s'.prevDirection = value) := by
  rw [joyEvent_eq] at h
  by_cases hv : value = s.pendingDirection
  · simp only [hv, if_true, Option.some.injEq] at h
    subst h
    exact ⟨hv.symm, Or.inl rfl⟩
  · rw [if_neg hv] at h
    by_cases hb : ig = true ∨ s.dpadDelay = 0
    · rw [if_pos hb] at h
      have hf := createDeskEvent_frame _ s' ig h
      have hp : (stopTimerIfActive (latched s value)).pendingDirection = value :=
        (stopTimerIfActive_frame (latched s value)).2.1
      rw [hf]
      exact ⟨hp, Or.inr hp⟩
    · rw [if_neg hb] at h
      simp only [Option.some.injEq] at h
      subst h
      split_ifs
      · exact ⟨(stopTimerIfActive_frame (latched s value)).2.1,
          Or.inl (stopTimerIfActive_frame (latched s value)).2.2.1⟩
      · exact ⟨(startTimerIfIdle_frame (latched s value)).1,
          Or.inl (startTimerIfIdle_frame (latched s value)).2.1⟩

/-- What the timer firing leaves in the two direction members. -/
theorem timerTimeout_directions (s s' : JoyDPad) (h : timerTimeout s = some s') :
    s'.pendingDirection = s.pendingDirection ∧
      (s'.prevDirection = s.prevDirection ∨ s'.prevDirection = s.pendingDirection) := by
  unfold timerTimeout dpadDirectionChangeEvent at h
  split_ifs at h
  · have hf := createDeskEvent_frame _ s' _ h
    rw [hf]
    exact ⟨rfl, Or.inr rfl⟩
  · cases h
    exact ⟨rfl, Or.inl rfl⟩

theorem timerTimeout_isSome_of_named (s : JoyDPad) (hn : isNamed s.prevDirection = true) :
    ∃ s', timerTimeout s = some s' := by
  unfold timerTimeout dpadDirectionChangeEvent
  split_ifs
  · exact createDeskEvent_isSome_of_named _ _ hn
  · exact ⟨_, rfl⟩

/-- A sequence of actions whose submissions are all of named directions
never fails from a state whose committed and pending directions are named,
and ends in such a state. -/
theorem run_named (acts : List DPadAction) :
    ∀ s : JoyDPad, isNamed s.prevDirection = true → isNamed s.pendingDirection = true →
      namedSubmissionsOnly acts = true →
      ∃ s', run s acts = some s' ∧ isNamed s'.prevDirection = true ∧
        isNamed s'.pendingDirection = true := by
  induction acts with
  | nil => intro s h1 h2 _; exact ⟨s, rfl, h1, h2⟩
  | cons a rest ih =>
    intro s h1 h2 hn
    simp only [namedSubmissionsOnly, List.all_cons, Bool.and_eq_true] at hn
    have hrest : namedSubmissionsOnly rest = true := hn.2
    have hstep : ∃ s1, s.step a = some s1 ∧ isNamed s1.prevDirection = true ∧
        isNamed s1.pendingDirection = true := by
      cases a with
      | joyEvent value ig =>
        obtain ⟨s1, hs1⟩ := joyEvent_isSome_of_named s value ig h1
        obtain ⟨hp, hq⟩ := joyEvent_directions s s1 value ig hs1
        have hv : isNamed value = true := hn.1
        refine ⟨s1, hs1, ?_, by rw [hp]; exact hv⟩
        rcases hq with hq | hq
        · rw [hq]; exact h1
        · rw [hq]; exact hv
      | timeout =>
        obtain ⟨s1, hs1⟩ := timerTimeout_isSome_of_named s h1
        obtain ⟨hp, hq⟩ := timerTimeout_directions s s1 hs1
        refine ⟨s1, hs1, ?_, by rw [hp]; exact h2⟩
        rcases hq with hq | hq
        · rw [hq]; exact h1
        · rw [hq]; exact h2
      | setJoyMode mode => exact ⟨_, rfl, h1, h2⟩
      | setDPadDelay value =>
        refine ⟨_, rfl, ?_, ?_⟩
        · show isNamed (setDPadDelay s value).prevDirection = true
          unfold setDPadDelay
          split_ifs <;> exact h1
        · show isNamed (setDPadDelay s value).pendingDirection = true
          unfold setDPadDelay
          split_ifs <;> exact h2
    obtain ⟨s1, hs1, g1, g2⟩ := hstep
    obtain ⟨s', hs', k1, k2⟩ := ih s1 g1 g2 hrest
    refine ⟨s', ?_, k1, k2⟩
    simp only [run, hs1, Option.some_bind]
    exact hs'

/-- C22 (as amended): every sequence of submissions of named directions,
timer firings, delay changes and mode changes from a freshly constructed DPad
runs to the end, and if each of its mode changes is made while the committed
direction is centered, then in the state reached no button of the DPad is
active whenever the committed direction is centered. -/
theorem centered_means_no_button_active (addr : Nat) (acts : List DPadAction)
    (hn : namedSubmissionsOnly acts = true) :
    ∃ s, run (new addr) acts = some s ∧
      (modeChangesWhileCentered (new addr) acts = true →
        s.prevDirection = DpadCentered → ∀ k, s.isActive k = false) := by
  obtain ⟨s, hs, -, -⟩ := run_named acts (new addr) rfl rfl hn
  refine ⟨s, hs, ?_⟩
  intro hg h0 k
  have hc := Consistent_run acts (new addr) s (Consistent_new addr) hg hs
  rw [hc.2 k, h0]
  exact activeIn_centered _ k

theorem centered_means_no_button_active_witness :
    namedSubmissionsOnly centeredRun = true ∧
    modeChangesWhileCentered (new 0) centeredRun = true ∧
    (run (new 0) centeredRun).map (fun s => s.prevDirection) = some DpadCentered ∧
    ∃ s, run (new 0) centeredRun = some s ∧
      (modeChangesWhileCentered (new 0) centeredRun = true →
        s.prevDirection = DpadCentered → ∀ k, s.isActive k = false) :=
  ⟨by decide, by decide, by decide, centered_means_no_button_active 0 centeredRun (by decide)⟩

/-- C22 (counterexample): Up-Right committed in Standard mode, the mode set to
EightWay, then Centered committed: the committed direction is centered and the
Up and Right buttons are still active. -/
theorem centered_with_stale_buttons :
    namedSubmissionsOnly staleCenteredRun = true ∧
    run (new 0) staleCenteredRun = some (stateAfter 0 staleCenteredRun) ∧
    (stateAfter 0 staleCenteredRun).prevDirection = DpadCentered ∧
    (stateAfter 0 staleCenteredRun).isActive DpadUp = true ∧
    (stateAfter 0 staleCenteredRun).isActive DpadRight = true := by
  decide

theorem createDeskEvent_isSome_of_mode (s : JoyDPad) (ig : Bool)
    (h : s.currentMode = JoyMode.StandardMode ∨ s.currentMode = JoyMode.FourWayCardinal) :
    ∃ s', createDeskEvent s ig = some s' := by
  rw [createDeskEvent_eq]
  have hrel : ∃ rel, releaseCalls s ig = some rel := by
    unfold releaseCalls
    cases s.activeDiagonalButton with
    | some b => exact ⟨_, rfl⟩
    | none =>
      rcases h with h | h
      · simp only [h]; exact ⟨_, rfl⟩
      · simp only [h]; split_ifs <;> exact ⟨_, rfl⟩
  obtain ⟨rel, hrel⟩ := hrel
  rw [hrel]
  split_ifs <;> exact ⟨_, rfl⟩

/-- A submission on a DPad whose delay is 0 and whose pending direction is
the committed one: it returns when the mode is Standard or FourWayCardinal or
the committed direction is named, and what it returns has the same mode,
identity and delay, and the submitted value as committed and pending
direction. -/
theorem joyEvent_undelayed (s : JoyDPad) (value : Nat) (ig : Bool)
    (hd : s.dpadDelay = 0) (hp : s.pendingDirection = s.prevDirection)
    (hm : s.currentMode = JoyMode.StandardMode ∨ s.currentMode = JoyMode.FourWayCardinal ∨
      isNamed s.prevDirection = true) :
    ∃ s', joyEvent s value ig = some s' ∧ s'.currentMode = s.currentMode ∧
      s'.addr = s.addr ∧ s'.dpadDelay = 0 ∧ s'.pendingDirection = s'.prevDirection ∧
      s'.prevDirection = value := by
  by_cases hv : value = s.pendingDirection
  · refine ⟨s, by rw [joyEvent_eq, if_pos hv], rfl, rfl, hd, hp, ?_⟩
    rw [← hp, hv]
  · have hj : joyEvent s value ig = createDeskEvent (stopTimerIfActive (latched s value)) ig := by
      rw [joyEvent_eq, if_neg hv, if_pos (Or.inr hd)]
    obtain ⟨-, f2, f3, -, f5, f6, -, f8, -⟩ := stopTimerIfActive_frame (latched s value)
    have hex : ∃ s', createDeskEvent (stopTimerIfActive (latched s value)) ig = some s' := by
      rcases hm with hm | hm | hm
      · exact createDeskEvent_isSome_of_mode _ ig (Or.inl (f5.trans hm))
      · exact createDeskEvent_isSome_of_mode _ ig (Or.inr (f5.trans hm))
      · exact createDeskEvent_isSome_of_named _ ig (by rw [f3]; exact hm)
    obtain ⟨s', hs'⟩ := hex
    have hf := createDeskEvent_frame _ s' ig hs'
    refine ⟨s', hj.trans hs', ?_, ?_, ?_, ?_, ?_⟩
    · rw [hf]; exact f5
    · rw [hf]; exact f6
    · rw [hf]; exact f8.trans hd
    · rw [hf]
    · rw [hf]; exact f2

theorem run_submissions_fixed (ds : List (Nat × Bool)) :
    ∀ s : JoyDPad, Consistent s → s.dpadDelay = 0 → s.pendingDirection = s.prevDirection →
      (s.currentMode = JoyMode.StandardMode ∨ s.currentMode = JoyMode.FourWayCardinal ∨
        (isNamed s.prevDirection = true ∧ ∀ p ∈ ds, isNamed p.1 = true)) →
      ∃ s', run s (submissions ds) = some s' ∧ Consistent s' ∧
        s'.currentMode = s.currentMode ∧ s'.addr = s.addr ∧
        s'.prevDirection = lastSubmitted s.prevDirection ds := by
  induction ds with
  | nil => intro s hc _ _ _; exact ⟨s, rfl, hc, rfl, rfl, rfl⟩
  | cons p rest ih =>
    intro s hc hd hp hm
    have hm1 : s.currentMode = JoyMode.StandardMode ∨ s.currentMode = JoyMode.FourWayCardinal ∨
        isNamed s.prevDirection = true := by
      rcases hm with hm | hm | hm
      · exact Or.inl hm
      · exact Or.inr (Or.inl hm)
      · exact Or.inr (Or.inr hm.1)
    obtain ⟨s1, hs1, m1, a1, d1, p1, v1⟩ := joyEvent_undelayed s p.1 p.2 hd hp hm1
    have hc1 := Consistent_joyEvent s s1 p.1 p.2 hc hs1
    have hm2 : s1.currentMode = JoyMode.StandardMode ∨ s1.currentMode = JoyMode.FourWayCardinal ∨
        (isNamed s1.prevDirection = true ∧ ∀ q ∈ rest, isNamed q.1 = true) := by
      rcases hm with hm | hm | hm
      · exact Or.inl (m1.trans hm)
      · exact Or.inr (Or.inl (m1.trans hm))
      · refine Or.inr (Or.inr ⟨?_, fun q hq => hm.2 q (List.mem_cons_of_mem _ hq)⟩)
        rw [v1]
        exact hm.2 p (List.mem_cons_self _ _)
    obtain ⟨s', hs', hc', m', a', v'⟩ := ih s1 hc1 d1 p1 hm2
    refine ⟨s', ?_, hc', m'.trans m1, a'.trans a1, ?_⟩
    · simp only [submissions, List.map_cons, run, step, hs1, Option.some_bind]
      exact hs'
    · rw [v', v1]
      rfl

theorem Consistent_freshIn (addr : Nat) (mode : JoyMode) : Consistent (freshIn addr mode) :=
  Consistent_setJoyMode (new addr) mode rfl (Consistent_new addr)

/-- C27: in Standard mode every sequence of commits from a freshly
constructed DPad, of whatever values, runs to the end; the committed direction
is then the last value submitted, each cardinal button is active if and only
if its flag is set in the committed direction, and no diagonal button is
active.  Committing Up+Right and then Up leaves Up active and Right inactive
with the three calls Up on, Right on, Right off, none of them on the Left or
the Down button. -/
theorem standard_buttons_follow_flags (addr : Nat) (ds : List (Nat × Bool)) :
    (∃ s, run (new addr) (submissions ds) = some s ∧
      s.currentMode = JoyMode.StandardMode ∧
      s.prevDirection = lastSubmitted DpadCentered ds ∧
      (∀ k, isCardinal k = true → (s.isActive k = true ↔ s.prevDirection &&& k ≠ 0)) ∧
      (∀ k, isDiagonal k = true → s.isActive k = false)) ∧
    (∃ s2, run (new addr) (submissions [(DpadRightUp, false), (DpadUp, false)]) = some s2 ∧
      s2.isActive DpadUp = true ∧ s2.isActive DpadRight = false ∧
      s2.buttonCalls =
        [{ button := { owner := addr, direction := DpadUp }, pressed := true, ignoresets := false },
         { button := { owner := addr, direction := DpadRight }, pressed := true, ignoresets := false },
         { button := { owner := addr, direction := DpadRight }, pressed := false, ignoresets := false }] ∧
      ∀ c ∈ s2.buttonCalls, c.button.direction ≠ DpadLeft ∧ c.button.direction ≠ DpadDown) := by
  constructor
  · obtain ⟨s, hs, hc, hm, -, hv⟩ :=
      run_submissions_fixed ds (new addr) (Consistent_new addr) rfl rfl (Or.inl rfl)
    have hm1 : s.currentMode = JoyMode.StandardMode := hm
    refine ⟨s, hs, hm1, hv, ?_, ?_⟩
    · intro k hk
      rw [hc.2 k, hm1]
      simp [activeIn, hk, hasFlag]
    · intro k hk
      rw [hc.2 k, hm1]
      simp [activeIn, isDiagonal_not_cardinal k hk]
  · obtain ⟨s, hs, hc, hm, -, hv⟩ :=
      run_submissions_fixed [(DpadRightUp, false), (DpadUp, false)] (new addr)
        (Consistent_new addr) rfl rfl (Or.inl rfl)
    have hm1 : s.currentMode = JoyMode.StandardMode := hm
    have hv1 : s.prevDirection = DpadUp := hv
    have hrun : run (new addr) (submissions [(DpadRightUp, false), (DpadUp, false)]) =
        some { new addr with
               prevDirection := DpadUp
               pendingDirection := DpadUp
               signals := [Signal.active DpadRightUp]
               buttonCalls :=
                 [{ button := { owner := addr, direction := DpadUp }, pressed := true, ignoresets := false },
                  { button := { owner := addr, direction := DpadRight }, pressed := true, ignoresets := false },
                  { button := { owner := addr, direction := DpadRight }, pressed := false, ignoresets := false }] } := by
      simp +decide [run, step, submissions, joyEvent, createDeskEvent, releasePhase,
        activatePhase, callButtonIf, callButton, buttons_value, buttonJoyEvent, hasFlag, new,
        emit, stopTimerIfActive, DEFAULTDPADDELAY, DpadRightUp, DpadUp, DpadDown, DpadLeft,
        DpadRight, DpadCentered]
    have hcalls : s.buttonCalls =
        [{ button := { owner := addr, direction := DpadUp }, pressed := true, ignoresets := false },
         { button := { owner := addr, direction := DpadRight }, pressed := true, ignoresets := false },
         { button := { owner := addr, direction := DpadRight }, pressed := false, ignoresets := false }] := by
      rw [hrun] at hs
      cases hs
      rfl
    refine ⟨s, hs, ?_, ?_, hcalls, ?_⟩
    · rw [hc.2 DpadUp, hm1, hv1]; rfl
    · rw [hc.2 DpadRight, hm1, hv1]; rfl
    · intro c hcm
      rw [hcalls] at hcm
      simp only [List.mem_cons, List.mem_singleton, List.not_mem_nil, or_false] at hcm
      rcases hcm with rfl | rfl | rfl <;> exact ⟨by simp, by simp⟩

theorem named_nonzero (d : Nat) (hn : isNamed d = true) (h0 : d ≠ 0) :
    isCardinal d = true ∨ isDiagonal d = true := by
  simpa [isNamed, h0] using hn

theorem lastSubmitted_named (ds : List (Nat × Bool)) (hd : ∀ p ∈ ds, isNamed p.1 = true) :
    ∀ d0, isNamed d0 = true → isNamed (lastSubmitted d0 ds) = true := by
  induction ds with
  | nil => intro d0 h; exact h
  | cons p rest ih =>
    intro d0 _
    exact ih (fun q hq => hd q (List.mem_cons_of_mem _ hq)) p.1 (hd p (List.mem_cons_self _ _))

/-- C28: in EightWay mode every sequence of commits over the nine named
directions from a freshly constructed DPad runs to the end; the committed
direction is then the last value submitted, and a button of the DPad is
active if and only if it is the button stored under the committed direction
and that direction is not centered: at most one button is active. -/
theorem eightWay_single_button (addr : Nat) (ds : List (Nat × Bool))
    (hd : ∀ p ∈ ds, isNamed p.1 = true) :
    ∃ s, run (freshIn addr JoyMode.EightWayMode) (submissions ds) = some s ∧
      s.currentMode = JoyMode.EightWayMode ∧
      s.prevDirection = lastSubmitted DpadCentered ds ∧
      isNamed s.prevDirection = true ∧
      (∀ k, s.isActive k = true ↔ (k = s.prevDirection ∧ s.prevDirection ≠ DpadCentered)) ∧
      (∀ j k, s.isActive j = true → s.isActive k = true → j = k) := by
  obtain ⟨s, hs, hc, hm, -, hv⟩ :=
    run_submissions_fixed ds (freshIn addr JoyMode.EightWayMode)
      (Consistent_freshIn addr _) rfl rfl (Or.inr (Or.inr ⟨rfl, hd⟩))
  have hm1 : s.currentMode = JoyMode.EightWayMode := hm
  have hv1 : s.prevDirection = lastSubmitted DpadCentered ds := hv
  have hn : isNamed s.prevDirection = true := by
    rw [hv1]; exact lastSubmitted_named ds hd _ rfl
  have hiff : ∀ k, s.isActive k = true ↔ (k = s.prevDirection ∧ s.prevDirection ≠ DpadCentered) := by
    intro k
    rw [hc.2 k, hm1]
    simp only [activeIn, Bool.and_eq_true, Bool.or_eq_true, beq_iff_eq]
    constructor
    · rintro ⟨hk, rfl⟩
      refine ⟨rfl, ?_⟩
      intro h0
      rw [h0] at hk
      rcases hk with hk | hk <;> exact absurd hk (by decide)
    · rintro ⟨rfl, h0⟩
      exact ⟨named_nonzero _ hn h0, rfl⟩
  refine ⟨s, hs, hm1, hv1, hn, hiff, ?_⟩
  intro j k hj hk
  rw [((hiff j).1 hj).1, ((hiff k).1 hk).1]

theorem eightWay_single_button_witness :
    ∃ s, run (freshIn 0 JoyMode.EightWayMode) (submissions fullSweep) = some s ∧
      s.currentMode = JoyMode.EightWayMode ∧
      s.prevDirection = DpadLeftDown ∧
      isNamed s.prevDirection = true ∧
      (∀ k, s.isActive k = true ↔ (k = s.prevDirection ∧ s.prevDirection ≠ DpadCentered)) ∧
      (∀ j k, s.isActive j = true → s.isActive k = true → j = k) :=
  eightWay_single_button 0 fullSweep (by decide)

/-- A commit in FourWayCardinal mode with no lock held calls cardinal
buttons only. -/
theorem fourWayCardinal_commit_calls (s s' : JoyDPad) (ig : Bool)
    (hm : s.currentMode = JoyMode.FourWayCardinal) (hl : s.activeDiagonalButton = none)
    (h : createDeskEvent s ig = some s') :
    s'.activeDiagonalButton = none ∧
      ∀ c ∈ s'.buttonCalls, c ∈ s.buttonCalls ∨ isCardinal c.button.direction = true := by
  have hfold : ∀ d, foldCardinal d ≠ 0 → isCardinal (foldCardinal d) = true := by
    intro d h0
    rcases foldCardinal_cases d with ⟨g, -⟩ | ⟨g, -⟩ | ⟨g, -⟩ | ⟨g, -⟩ | ⟨g, -⟩
    · exact absurd g h0
    all_goals (rw [g]; rfl)
  rcases createDeskEvent_some_cases s s' ig h with ⟨-, rfl⟩ | ⟨-, rel, hrel, rfl⟩
  · exact ⟨hl, fun c hc => Or.inl hc⟩
  · refine ⟨by simp [lockAfter, hm], ?_⟩
    intro c hc
    simp only [List.mem_append] at hc
    rcases hc with (hc | hc) | hc
    · exact Or.inl hc
    · right
      simp only [releaseCalls, hl, hm] at hrel
      split_ifs at hrel with hf
      · simp only [Option.some.injEq] at hrel
        subst hrel
        simp only [List.mem_singleton] at hc
        subst hc
        exact hfold _ hf.1
      · simp only [Option.some.injEq] at hrel
        subst hrel
        cases hc
    · right
      simp only [activateCalls, hm] at hc
      split_ifs at hc with hf
      · simp only [List.mem_singleton] at hc
        subst hc
        exact hfold _ hf
      · cases hc

theorem fourWayCardinal_run_calls (ds : List (Nat × Bool)) :
    ∀ s s' : JoyDPad, s.currentMode = JoyMode.FourWayCardinal → s.activeDiagonalButton = none →
      (∀ c ∈ s.buttonCalls, isCardinal c.button.direction = true) →
      run s (submissions ds) = some s' →
      ∀ c ∈ s'.buttonCalls, isCardinal c.button.direction = true := by
  induction ds with
  | nil =>
    intro s s' _ _ hc h
    simp only [submissions, List.map_nil, run, Option.some.injEq] at h
    subst h
    exact hc
  | cons p rest ih =>
    intro s s' hm hl hc h
    simp only [submissions, List.map_cons, run, step] at h
    cases hs1 : joyEvent s p.1 p.2 with
    | none => simp [hs1] at h
    | some s1 =>
      simp only [hs1, Option.some_bind] at h
      have key : s1.currentMode = JoyMode.FourWayCardinal ∧ s1.activeDiagonalButton = none ∧
          ∀ c ∈ s1.buttonCalls, isCardinal c.button.direction = true := by
        rcases joyEvent_cases s s1 p.1 p.2 hs1 with ⟨-, e2, e3, -, e5, -⟩ |
          ⟨-, -, s0, hs0, -, -, e2, e3, -, e5, -⟩
        · exact ⟨e3.trans hm, e2.trans hl, by rw [e5]; exact hc⟩
        · obtain ⟨g1, g2⟩ := fourWayCardinal_commit_calls s0 s1 p.2 (e3.trans hm) (e2.trans hl) hs0
          have hf := createDeskEvent_frame s0 s1 p.2 hs0
          refine ⟨?_, g1, ?_⟩
          · rw [hf]; exact e3.trans hm
          · intro c hcm
            rcases g2 c hcm with g | g
            · exact hc c (by rw [← e5]; exact g)
            · exact g
      exact ih s1 s' key.1 key.2.1 key.2.2 h

/-- C29: in FourWayCardinal mode every sequence of commits over the nine
named directions from a freshly constructed DPad runs to the end; the
committed direction is then the last value submitted, a button of the DPad is
active if and only if it is the cardinal button the committed direction folds
to (none for centered), every call in the log is on a cardinal button, so no
diagonal button was ever activated, and the lock is empty.  The folding is
Up, Up-Right to Up; Down, Down-Left to Down; Left, Up-Left to Left; Right,
Down-Right to Right. -/
theorem fourWayCardinal_folded_button (addr : Nat) (ds : List (Nat × Bool))
    (hd : ∀ p ∈ ds, isNamed p.1 = true) :
    (∃ s, run (freshIn addr JoyMode.FourWayCardinal) (submissions ds) = some s ∧
      s.currentMode = JoyMode.FourWayCardinal ∧
      s.prevDirection = lastSubmitted DpadCentered ds ∧
      isNamed s.prevDirection = true ∧
      (∀ k, s.isActive k = true ↔
        (k = foldCardinal s.prevDirection ∧ s.prevDirection ≠ DpadCentered)) ∧
      (∀ c ∈ s.buttonCalls,
        isCardinal c.button.direction = true ∧ isDiagonal c.button.direction = false) ∧
      s.activeDiagonalButton = none) ∧
    (foldCardinal DpadUp = DpadUp ∧ foldCardinal DpadRightUp = DpadUp ∧
      foldCardinal DpadDown = DpadDown ∧ foldCardinal DpadLeftDown = DpadDown ∧
      foldCardinal DpadLeft = DpadLeft ∧ foldCardinal DpadLeftUp = DpadLeft ∧
      foldCardinal DpadRight = DpadRight ∧ foldCardinal DpadRightDown = DpadRight) := by
  refine ⟨?_, by decide⟩
  obtain ⟨s, hs, hc, hm, -, hv⟩ :=
    run_submissions_fixed ds (freshIn addr JoyMode.FourWayCardinal)
      (Consistent_freshIn addr _) rfl rfl (Or.inr (Or.inl rfl))
  have hm1 : s.currentMode = JoyMode.FourWayCardinal := hm
  have hv1 : s.prevDirection = lastSubmitted DpadCentered ds := hv
  have hn : isNamed s.prevDirection = true := by
    rw [hv1]; exact lastSubmitted_named ds hd _ rfl
  have hcalls := fourWayCardinal_run_calls ds (freshIn addr JoyMode.FourWayCardinal) s rfl rfl
    (by intro c hc; cases hc) hs
  refine ⟨s, hs, hm1, hv1, hn, ?_, ?_, ?_⟩
  · intro k
    rw [hc.2 k, hm1]
    simp only [activeIn, Bool.and_eq_true, bne_iff_ne, ne_eq, beq_iff_eq]
    constructor
    · rintro ⟨hk0, hk⟩
      refine ⟨hk, ?_⟩
      intro h0
      rw [h0] at hk
      exact hk0 hk
    · rintro ⟨hk, h0⟩
      refine ⟨?_, hk⟩
      rw [hk]
      rcases named_nonzero _ hn h0 with hcd | hcd
      · rcases isCardinal_cases s.prevDirection with ⟨-, g | g | g | g⟩ | ⟨g, -⟩
        · rw [g]; decide
        · rw [g]; decide
        · rw [g]; decide
        · rw [g]; decide
        · rw [hcd] at g; cases g
      · rcases isDiagonal_cases s.prevDirection with ⟨-, g | g | g | g⟩ | ⟨g, -⟩
        · rw [g]; decide
        · rw [g]; decide
        · rw [g]; decide
        · rw [g]; decide
        · rw [hcd] at g; cases g
  · intro c hcm
    have h1 := hcalls c hcm
    refine ⟨h1, ?_⟩
    rcases isDiagonal_cases c.button.direction with ⟨-, g | g | g | g⟩ | ⟨g, -⟩
    · rw [g] at h1; cases h1
    · rw [g] at h1; cases h1
    · rw [g] at h1; cases h1
    · rw [g] at h1; cases h1
    · exact g
  · rw [hc.1, hm1]
    simp [lockOf]

theorem fourWayCardinal_folded_button_witness :
    ∃ s, run (freshIn 0 JoyMode.FourWayCardinal) (submissions fullSweep) = some s ∧
      s.currentMode = JoyMode.FourWayCardinal ∧
      s.prevDirection = DpadLeftDown ∧
      isNamed s.prevDirection = true ∧
      (∀ k, s.isActive k = true ↔
        (k = foldCardinal s.prevDirection ∧ s.prevDirection ≠ DpadCentered)) ∧
      (∀ c ∈ s.buttonCalls,
        isCardinal c.button.direction = true ∧ isDiagonal c.button.direction = false) ∧
      s.activeDiagonalButton = none :=
  (fourWayCardinal_folded_button 0 fullSweep (by decide)).1

/-- C30: in FourWayDiagonal mode every sequence of commits over the nine
named directions from a freshly constructed DPad runs to the end; the
committed direction is then the last value submitted, a button of the DPad is
active if and only if the committed direction is a diagonal and the button is
the one stored under it, and the lock holds that button when the committed
direction is a diagonal and is empty otherwise. -/
theorem fourWayDiagonal_single_diagonal (addr : Nat) (ds : List (Nat × Bool))
    (hd : ∀ p ∈ ds, isNamed p.1 = true) :
    ∃ s, run (freshIn addr JoyMode.FourWayDiagonal) (submissions ds) = some s ∧
      s.currentMode = JoyMode.FourWayDiagonal ∧
      s.prevDirection = lastSubmitted DpadCentered ds ∧
      s.addr = addr ∧
      (∀ k, s.isActive k = true ↔ (isDiagonal s.prevDirection = true ∧ k = s.prevDirection)) ∧
      (isDiagonal s.prevDirection = true →
        s.activeDiagonalButton = some { owner := addr, direction := s.prevDirection } ∧
        s.isActive s.prevDirection = true) ∧
      (isDiagonal s.prevDirection = false →
        s.activeDiagonalButton = none ∧ ∀ k, s.isActive k = false) := by
  obtain ⟨s, hs, hc, hm, ha, hv⟩ :=
    run_submissions_fixed ds (freshIn addr JoyMode.FourWayDiagonal)
      (Consistent_freshIn addr _) rfl rfl (Or.inr (Or.inr ⟨rfl, hd⟩))
  have hm1 : s.currentMode = JoyMode.FourWayDiagonal := hm
  have ha1 : s.addr = addr := ha
  have hiff : ∀ k, s.isActive k = true ↔
      (isDiagonal s.prevDirection = true ∧ k = s.prevDirection) := by
    intro k
    rw [hc.2 k, hm1]
    simp only [activeIn, Bool.and_eq_true, beq_iff_eq]
    constructor
    · rintro ⟨hk, rfl⟩
      exact ⟨hk, rfl⟩
    · rintro ⟨hk, rfl⟩
      exact ⟨hk, rfl⟩
  refine ⟨s, hs, hm1, hv, ha1, hiff, ?_, ?_⟩
  · intro hdiag
    refine ⟨?_, (hiff _).2 ⟨hdiag, rfl⟩⟩
    rw [hc.1, hm1, ha1]
    simp [lockOf, hdiag]
  · intro hdiag
    refine ⟨?_, ?_⟩
    · rw [hc.1, hm1]
      simp [lockOf, hdiag]
    · intro k
      cases hk : s.isActive k with
      | false => rfl
      | true =>
        have := ((hiff k).1 hk).1
        rw [hdiag] at this
        cases this

theorem fourWayDiagonal_single_diagonal_witness :
    ∃ s, run (freshIn 0 JoyMode.FourWayDiagonal) (submissions fullSweep) = some s ∧
      s.currentMode = JoyMode.FourWayDiagonal ∧
      s.prevDirection = DpadLeftDown ∧
      s.addr = 0 ∧
      (∀ k, s.isActive k = true ↔ (isDiagonal s.prevDirection = true ∧ k = s.prevDirection)) ∧
      (isDiagonal s.prevDirection = true →
        s.activeDiagonalButton = some { owner := 0, direction := s.prevDirection } ∧
        s.isActive s.prevDirection = true) ∧
      (isDiagonal s.prevDirection = false →
        s.activeDiagonalButton = none ∧ ∀ k, s.isActive k = false) :=
  fourWayDiagonal_single_diagonal 0 fullSweep (by decide)

theorem digitValue_digitChar (d : Nat) (h : d < 10) : digitValue (digitChar d) = some d := by
  interval_cases d <;> rfl

theorem parseDigits_append (xs ys : List Char) :
    ∀ acc, parseDigits (xs ++ ys) acc = (parseDigits xs acc).bind (parseDigits ys) := by
  induction xs with
  | nil => intro acc; rfl
  | cons c cs ih =>
    intro acc
    simp only [List.cons_append, parseDigits]
    cases digitValue c with
    | none => rfl
    | some v => exact ih _

theorem parseDigits_renderNat :
    ∀ fuel n, n < fuel → parseDigits (renderNat fuel n) 0 = some n := by
  intro fuel
  induction fuel with
  | zero => intro n h; exact absurd h (Nat.not_lt_zero _)
  | succ fuel ih =>
    intro n h
    have hlast : parseDigits [digitChar (n % 10)] = fun acc => some (acc * 10 + n % 10) := by
      funext acc
      simp only [parseDigits, digitValue_digitChar (n % 10) (Nat.mod_lt _ (by decide))]
    rw [renderNat, parseDigits_append, hlast]
    by_cases h0 : n / 10 = 0
    · rw [if_pos h0]
      simp only [parseDigits, Option.some_bind]
      congr 1
      omega
    · rw [if_neg h0, ih (n / 10) (by omega)]
      simp only [Option.some_bind]
      congr 1
      omega

theorem renderNat_head (n : Nat) :
    ∃ c cs, renderNat (n + 1) n = c :: cs ∧ (digitValue c).isSome = true := by
  have hp := parseDigits_renderNat (n + 1) n (Nat.lt_succ_self n)
  cases hr : renderNat (n + 1) n with
  | nil =>
    have : renderNat (n + 1) n ≠ [] := by simp [renderNat]
    exact absurd hr this
  | cons c cs =>
    refine ⟨c, cs, rfl, ?_⟩
    rw [hr, parseDigits] at hp
    cases hv : digitValue c with
    | none => rw [hv] at hp; cases hp
    | some v => rfl

theorem digit_not_space (c : Char) (h : (digitValue c).isSome = true) :
    QChar_isSpace c = false ∧ c ≠ '-' ∧ c.toNat ≠ 0x2212 ∧ c ≠ '+' := by
  unfold digitValue at h
  split_ifs at h with h0 h1 h2 h3 h4 h5 h6 h7 h8 h9
  · subst h0; decide
  · subst h1; decide
  · subst h2; decide
  · subst h3; decide
  · subst h4; decide
  · subst h5; decide
  · subst h6; decide
  · subst h7; decide
  · subst h8; decide
  · subst h9; decide
  · cases h

theorem parseDigits_isSome (cs : List Char) :
    ∀ acc v, parseDigits cs acc = some v → ∀ c ∈ cs, (digitValue c).isSome = true := by
  induction cs with
  | nil => intro acc v _ c hc; cases hc
  | cons d ds ih =>
    intro acc v h c hc
    rw [parseDigits] at h
    cases hd : digitValue d with
    | none => rw [hd] at h; cases h
    | some w =>
      rw [hd] at h
      rcases List.mem_cons.1 hc with rfl | hc
      · rw [hd]; rfl
      · exact ih _ v h c hc

theorem parseDigits_none (cs : List Char)
    (h : (cs.all fun c => (digitValue c).isSome) = false) :
    ∀ acc, parseDigits cs acc = none := by
  intro acc
  cases hp : parseDigits cs acc with
  | none => rfl
  | some v =>
    have hall := parseDigits_isSome cs acc v hp
    have : (cs.all fun c => (digitValue c).isSome) = true := by
      rw [List.all_eq_true]
      exact hall
    rw [this] at h
    cases h

theorem dropWhile_none (p : Char → Bool) (cs : List Char) (h : ∀ c ∈ cs, p c = false) :
    cs.dropWhile p = cs := by
  cases cs with
  | nil => rfl
  | cons c rest =>
    rw [List.dropWhile_cons, h c (List.mem_cons_self _ _)]
    rfl

theorem trimSpace_eq (cs : List Char) (h : ∀ c ∈ cs, QChar_isSpace c = false) :
    trimSpace cs = cs := by
  unfold trimSpace
  rw [dropWhile_none _ cs h, dropWhile_none _ cs.reverse, List.reverse_reverse]
  intro c hc
  exact h c (List.mem_reverse.1 hc)

/-- Reading back a written number: `toInt` of `number` of a natural number
within the range of `int` is that number. -/
theorem QString_toInt_number (n : Nat) (hn : n ≤ 2147483647) :
    QString_toInt (QString_number (n : Int)) = (n : Int) := by
  obtain ⟨c, cs, hr, hc⟩ := renderNat_head n
  have hp := parseDigits_renderNat (n + 1) n (Nat.lt_succ_self n)
  have hnum : QString_number (n : Int) = String.mk (c :: cs) := by
    unfold QString_number
    rw [if_neg (by omega), Int.natAbs_ofNat, hr]
  rw [hr] at hp
  have hdigits := parseDigits_isSome (c :: cs) 0 n hp
  have htrim : trimSpace (c :: cs) = c :: cs :=
    trimSpace_eq _ fun d hd => (digit_not_space d (hdigits d hd)).1
  obtain ⟨-, hminus, hminus2, hplus⟩ := digit_not_space c hc
  have hsign : ¬ (c = '-' ∨ c.toNat = 0x2212) := by
    intro h
    rcases h with h | h
    · exact hminus h
    · exact hminus2 h
  have hsplit : splitSign (c :: cs) = (false, c :: cs) := by
    show (if c = '-' ∨ c.toNat = 0x2212 then (true, cs)
      else if c = '+' then (false, cs) else (false, c :: cs)) = (false, c :: cs)
    rw [if_neg hsign, if_neg hplus]
  rw [hnum]
  unfold QString_toInt
  simp only [htrim, hsplit, hp, Option.map_some', reduceCtorEq, if_false, Bool.false_eq_true]
  show (if -2147483648 ≤ (n : Int) ∧ (n : Int) ≤ 2147483647 then (n : Int) else 0) = (n : Int)
  rw [if_pos (by omega)]

/-- The conversion of a text that is not a decimal number fails: `toInt`
returns 0. -/
theorem QString_toInt_not_number (t : String) (h : isDecimalNumber t = false) :
    QString_toInt t = 0 := by
  unfold isDecimalNumber at h
  unfold QString_toInt
  by_cases he : (splitSign (trimSpace t.data)).2 = []
  · simp only [he, if_true]
  · have hne : (splitSign (trimSpace t.data)).2.isEmpty = false := by
      cases hl : (splitSign (trimSpace t.data)).2 with
      | nil => exact absurd hl he
      | cons c cs => rfl
    rw [hne] at h
    simp only [Bool.not_false, Bool.true_and] at h
    simp only [he, if_false, parseDigits_none _ h 0, Option.map_none']

/-- Sample conversions: surrounding whitespace is skipped, a sign is read,
and text with anything but digits after that is not a number. -/
theorem QString_toInt_samples :
    QString_toInt " 50 " = 50 ∧ QString_toInt "\t-12\n" = -12 ∧ QString_toInt "+7" = 7 ∧
    QString_toInt "soon" = 0 ∧ QString_toInt "5 0" = 0 ∧ QString_toInt "1.5" = 0 ∧
    QString_toInt "" = 0 ∧ QString_toInt "-" = 0 ∧ QString_toInt "99999999999" = 0 ∧
    isDecimalNumber " 50 " = true ∧ isDecimalNumber "soon" = false ∧
    isDecimalNumber "" = false ∧ isDecimalNumber "1.5" = false := by
  decide

theorem textElements_buttons (s : JoyDPad) (order : List Nat) :
    textElements
      (order.filterMap fun k => (s.buttons_value k).map XmlWrite.buttonWriteConfig) = [] := by
  induction order with
  | nil => rfl
  | cons k rest ih =>
    unfold textElements at ih ⊢
    rw [List.filterMap_cons]
    cases hb : s.buttons_value k with
    | none => simpa using ih
    | some b => simpa using ih

/-- C24: when `isDefault()` is true, `writeConfig` makes no call on the
writer; when it is false, the calls are `writeStartElement("dpad")`, the
`index` attribute, a mode part, a delay part, the buttons' own `writeConfig`
calls and one `writeEndElement()`.  The mode part is empty for Standard and
one `mode` text element with the token of the mode otherwise; the delay part
is one `dpadDelay` text element with the number when the delay is greater
than 0 and empty otherwise. -/
theorem writeConfig_elements (order : List Nat) (defaults : ButtonRef → Bool) (index : Int)
    (s : JoyDPad) :
    (isDefault order defaults s = true → writeConfig order defaults index s = []) ∧
    (isDefault order defaults s = false →
      ∃ modePart delayPart buttonPart,
        writeConfig order defaults index s =
          [XmlWrite.writeStartElement "dpad",
           XmlWrite.writeAttribute "index" (QString_number (index + 1))] ++
          modePart ++ delayPart ++ buttonPart ++ [XmlWrite.writeEndElement] ∧
        (s.currentMode = JoyMode.StandardMode → modePart = []) ∧
        (s.currentMode = JoyMode.EightWayMode →
          modePart = [XmlWrite.writeTextElement "mode" "eight-way"]) ∧
        (s.currentMode = JoyMode.FourWayCardinal →
          modePart = [XmlWrite.writeTextElement "mode" "four-way"]) ∧
        (s.currentMode = JoyMode.FourWayDiagonal →
          modePart = [XmlWrite.writeTextElement "mode" "diagonal"]) ∧
        (0 < s.dpadDelay →
          delayPart = [XmlWrite.writeTextElement "dpadDelay" (QString_number s.dpadDelay)]) ∧
        (s.dpadDelay ≤ 0 → delayPart = []) ∧
        (∀ w ∈ buttonPart, ∃ b, w = XmlWrite.buttonWriteConfig b)) ∧
    writeConfig buttonKeys sampleDefaults 3 (new 1) = [] ∧
    writeConfig [DpadUp, DpadLeft] sampleDefaults 3 sampleConfigured =
      [XmlWrite.writeStartElement "dpad", XmlWrite.writeAttribute "index" "4",
       XmlWrite.writeTextElement "mode" "four-way", XmlWrite.writeTextElement "dpadDelay" "50",
       XmlWrite.buttonWriteConfig { owner := 0, direction := DpadUp },
       XmlWrite.buttonWriteConfig { owner := 0, direction := DpadLeft },
       XmlWrite.writeEndElement] := by
  refine ⟨?_, ?_, by decide, by decide⟩
  · intro h
    simp [writeConfig, h]
  · intro h
    refine ⟨if s.currentMode = JoyMode.EightWayMode then
          [XmlWrite.writeTextElement "mode" "eight-way"]
        else if s.currentMode = JoyMode.FourWayCardinal then
          [XmlWrite.writeTextElement "mode" "four-way"]
        else if s.currentMode = JoyMode.FourWayDiagonal then
          [XmlWrite.writeTextElement "mode" "diagonal"]
        else [],
      if s.dpadDelay > DEFAULTDPADDELAY then
          [XmlWrite.writeTextElement "dpadDelay" (QString_number s.dpadDelay)]
        else [],
      order.filterMap (fun k => (s.buttons_value k).map XmlWrite.buttonWriteConfig),
      ?_, ?_, ?_, ?_, ?_, ?_, ?_, ?_⟩
    · simp only [writeConfig, h, Bool.not_false, if_true, getXmlName, xmlName]
    · intro hm; simp [hm]
    · intro hm; simp [hm]
    · intro hm; simp [hm]
    · intro hm; simp [hm]
    · intro hd; simp [DEFAULTDPADDELAY, hd]
    · intro hd; simp [DEFAULTDPADDELAY, not_lt.2 hd]
    · intro w hw
      simp only [List.mem_filterMap, Option.map_eq_some'] at hw
      obtain ⟨k, -, b, -, hb⟩ := hw
      exact ⟨b, hb.symm⟩

/-- C25: for every DPad that is not default and whose delay is valid (0 or
10..1000), calling `readMainConfig` on a freshly constructed DPad for each
text element that `writeConfig` wrote, in the order written, gives a DPad
with the mode and the delay of the DPad written. -/
theorem writeConfig_readMainConfig_roundtrip (order : List Nat) (defaults : ButtonRef → Bool)
    (index : Int) (addr : Nat) (s : JoyDPad)
    (hnd : isDefault order defaults s = false)
    (hd : s.dpadDelay = 0 ∨ (10 ≤ s.dpadDelay ∧ s.dpadDelay ≤ 1000)) :
    (readElements (new addr) (textElements (writeConfig order defaults index s))).currentMode =
        s.currentMode ∧
      (readElements (new addr) (textElements (writeConfig order defaults index s))).dpadDelay =
        s.dpadDelay := by
  have hel : textElements (writeConfig order defaults index s) =
      (if s.currentMode = JoyMode.EightWayMode then [writtenElement "mode" "eight-way"]
       else if s.currentMode = JoyMode.FourWayCardinal then [writtenElement "mode" "four-way"]
       else if s.currentMode = JoyMode.FourWayDiagonal then [writtenElement "mode" "diagonal"]
       else []) ++
      (if s.dpadDelay > 0 then [writtenElement "dpadDelay" (QString_number s.dpadDelay)]
       else []) := by
    have hb := textElements_buttons s order
    unfold textElements at hb ⊢
    simp only [writeConfig, hnd, Bool.not_false, if_true, List.filterMap_append, hb,
      DEFAULTDPADDELAY]
    cases s.currentMode <;> by_cases hpos : s.dpadDelay > 0 <;> simp [hpos]
  have hdelay : ∀ s0 : JoyDPad, 0 < s.dpadDelay →
      readMainConfig s0 (writtenElement "dpadDelay" (QString_number s.dpadDelay)) =
        (true, s0.setDPadDelay s.dpadDelay, [ReaderCall.readElementText]) := by
    intro s0 hpos
    obtain ⟨n, hn⟩ := Int.eq_ofNat_of_zero_le (le_of_lt hpos)
    have hle : n ≤ 2147483647 := by omega
    simp only [readMainConfig, writtenElement]
    rw [if_neg (by decide), if_neg (by decide), if_pos (by decide), hn, QString_toInt_number n hle]
  have hmode8 : ∀ s0 : JoyDPad, readMainConfig s0 (writtenElement "mode" "eight-way") =
      (true, s0.setJoyMode JoyMode.EightWayMode, [ReaderCall.readElementText]) := by
    intro s0
    simp [readMainConfig, writtenElement]
  have hmode4 : ∀ s0 : JoyDPad, readMainConfig s0 (writtenElement "mode" "four-way") =
      (true, s0.setJoyMode JoyMode.FourWayCardinal, [ReaderCall.readElementText]) := by
    intro s0
    simp [readMainConfig, writtenElement]
  have hmoded : ∀ s0 : JoyDPad, readMainConfig s0 (writtenElement "mode" "diagonal") =
      (true, s0.setJoyMode JoyMode.FourWayDiagonal, [ReaderCall.readElementText]) := by
    intro s0
    simp [readMainConfig, writtenElement]
  rw [hel]
  have hvalid : (s.dpadDelay ≥ 10 ∧ s.dpadDelay ≤ 1000) ∨ s.dpadDelay = 0 := by omega
  by_cases hpos : s.dpadDelay > 0
  · rw [if_pos hpos]
    cases hm : s.currentMode <;>
      simp only [reduceCtorEq, if_true, if_false, readElements, List.singleton_append,
        List.nil_append, List.foldl, hdelay _ hpos, hmode8, hmode4, hmoded] <;>
      simp [setDPadDelay, hvalid, emit, setJoyMode, new]
  · rw [if_neg hpos]
    have h0 : s.dpadDelay = 0 := by omega
    cases hm : s.currentMode <;>
      simp only [reduceCtorEq, if_true, if_false, readElements, List.append_nil,
        List.foldl, hmode8, hmode4, hmoded] <;>
      simp [h0, emit, setJoyMode, new, DEFAULTDPADDELAY]

theorem writeConfig_readMainConfig_roundtrip_witness :
    isDefault buttonKeys sampleDefaults sampleConfigured = false ∧
    textElements (writeConfig buttonKeys sampleDefaults 3 sampleConfigured) =
      [writtenElement "mode" "four-way", writtenElement "dpadDelay" "50"] ∧
    (readElements (new 1)
      (textElements (writeConfig buttonKeys sampleDefaults 3 sampleConfigured))).currentMode =
        JoyMode.FourWayCardinal ∧
    (readElements (new 1)
      (textElements (writeConfig buttonKeys sampleDefaults 3 sampleConfigured))).dpadDelay = 50 :=
  ⟨by decide, by decide,
    writeConfig_readMainConfig_roundtrip buttonKeys sampleDefaults 3 1 sampleConfigured
      (by decide) (by decide)⟩

/-- C26 (counterexample): on a freshly constructed DPad a `mode` entry with
the text "sideways" and a `dpadDelay` entry with the text "soon" are both
reported as found; and on a DPad in EightWay mode with a delay of 50 ms the
unknown mode text leaves the mode EightWay, not Standard. -/
theorem malformed_entry_reported_found :
    (readMainConfig (new 0) (writtenElement "mode" "sideways")).1 = true ∧
    (readMainConfig (new 0) (writtenElement "dpadDelay" "soon")).1 = true ∧
    (readMainConfig (freshIn 0 JoyMode.EightWayMode)
      (writtenElement "mode" "sideways")).2.1.currentMode = JoyMode.EightWayMode := by
  decide

/-- C26 (amended): `readMainConfig` reports a `mode` entry and a `dpadDelay`
entry as found whatever their text.  A mode text that is none of "eight-way",
"four-way", "diagonal" leaves the DPad as it was, so the mode stays what it
was (Standard on a freshly constructed DPad).  A delay text that is not a
decimal number is read by `toInt()` as 0, which `setDPadDelay` accepts: the
delay becomes 0, the mode is unchanged, and `dpadDelayChanged(0)` and
`propertyUpdated` are emitted.  In both cases the only call on the reader is
`readElementText()`. -/
theorem malformed_entry_found_and_ignored (s : JoyDPad) (xml : XmlElement)
    (hstart : xml.isStartElement = true) :
    (xml.name = "mode" ∨ xml.name = "dpadDelay" → (readMainConfig s xml).1 = true) ∧
    (xml.name = "mode" → xml.text ≠ "eight-way" → xml.text ≠ "four-way" →
      xml.text ≠ "diagonal" →
      readMainConfig s xml = (true, s, [ReaderCall.readElementText])) ∧
    (xml.name = "dpadDelay" → isDecimalNumber xml.text = false →
      QString_toInt xml.text = 0 ∧
      readMainConfig s xml = (true, s.setDPadDelay 0, [ReaderCall.readElementText]) ∧
      (s.setDPadDelay 0).dpadDelay = 0 ∧
      (s.setDPadDelay 0).currentMode = s.currentMode ∧
      (s.setDPadDelay 0).signals =
        s.signals ++ [Signal.dpadDelayChanged 0, Signal.propertyUpdated]) := by
  refine ⟨?_, ?_, ?_⟩
  · intro hn
    rcases hn with hn | hn
    · simp only [readMainConfig, hn, hstart, and_true]
      rw [if_neg (by decide), if_pos trivial]
      show (if xml.text = "eight-way" then
          (true, s.setJoyMode JoyMode.EightWayMode, [ReaderCall.readElementText])
        else if xml.text = "four-way" then
          (true, s.setJoyMode JoyMode.FourWayCardinal, [ReaderCall.readElementText])
        else if xml.text = "diagonal" then
          (true, s.setJoyMode JoyMode.FourWayDiagonal, [ReaderCall.readElementText])
        else (true, s, [ReaderCall.readElementText])).1 = true
      split_ifs <;> rfl
    · simp [readMainConfig, hn, hstart]
  · intro hn h1 h2 h3
    simp [readMainConfig, hn, hstart, h1, h2, h3]
  · intro hn hnum
    have h0 := QString_toInt_not_number xml.text hnum
    refine ⟨h0, ?_, ?_, ?_, ?_⟩
    · simp [readMainConfig, hn, hstart, h0]
    · simp [setDPadDelay, emit]
    · simp [setDPadDelay, emit]
    · simp [setDPadDelay, emit]

theorem malformed_entry_found_and_ignored_witness :
    readMainConfig (new 0) (writtenElement "mode" "sideways") =
      (true, new 0, [ReaderCall.readElementText]) ∧
    isDecimalNumber "soon" = false ∧
    (QString_toInt "soon" = 0 ∧
      readMainConfig sampleConfigured (writtenElement "dpadDelay" "soon") =
        (true, sampleConfigured.setDPadDelay 0, [ReaderCall.readElementText]) ∧
      (sampleConfigured.setDPadDelay 0).dpadDelay = 0 ∧
      (sampleConfigured.setDPadDelay 0).currentMode = sampleConfigured.currentMode ∧
      (sampleConfigured.setDPadDelay 0).signals =
        sampleConfigured.signals ++ [Signal.dpadDelayChanged 0, Signal.propertyUpdated]) ∧
    sampleConfigured.dpadDelay = 50 ∧
    (readMainConfig sampleConfigured (writtenElement "dpadDelay" "soon")).2.1.dpadDelay = 0 :=
  ⟨(malformed_entry_found_and_ignored (new 0) (writtenElement "mode" "sideways") rfl).2.1 rfl
      (by decide) (by decide) (by decide),
    by decide,
    (malformed_entry_found_and_ignored sampleConfigured (writtenElement "dpadDelay" "soon")
      rfl).2.2 rfl (by decide),
    by decide, by decide⟩

/-- A commit leaves the committed direction equal to the pending one, which
it does not change. -/
theorem createDeskEvent_directions (s s' : JoyDPad) (ig : Bool)
    (h : createDeskEvent s ig = some s') :
    s'.prevDirection = s.pendingDirection ∧ s'.pendingDirection = s.pendingDirection := by
  have hf := createDeskEvent_frame s s' ig h
  constructor
  · rw [hf]
  · rw [hf]

/-- The timer firing in closed form. -/
theorem timerTimeout_eq (s : JoyDPad) :
    timerTimeout s =
      if s.directionDelayTimer.isActive = true then
        createDeskEvent
          { s with directionDelayTimer := { s.directionDelayTimer with isActive := false } } false
      else some s := by
  unfold timerTimeout dpadDirectionChangeEvent createDeskEventDefaultIgnoresets
  cases s.directionDelayTimer.isActive <;> simp

/-- C31: for every state with a delay greater than 0 and every raw direction,
`joyEvent(value, false)` returns, and the state it returns differs from the
one given at most in the pending direction (which is the value), the timer
and its call log, and the signals emitted: no button call is made, and the
committed direction, the lock, the mode, the delay and the queue are
unchanged.  Whatever the delay and the bypass flag, a submission that changes
the committed direction has gone through `createDeskEvent`, which set the
committed direction to the submitted value. -/
theorem joyEvent_without_bypass_frame (s : JoyDPad) (value : Nat) (hd : 0 < s.dpadDelay) :
    (∃ s', joyEvent s value false = some s' ∧
      s' = { s with
             pendingDirection := value
             directionDelayTimer := s'.directionDelayTimer
             timerCalls := s'.timerCalls
             signals := s'.signals } ∧
      s'.buttonCalls = s.buttonCalls ∧ s'.prevDirection = s.prevDirection ∧
      s'.activeDiagonalButton = s.activeDiagonalButton) ∧
    (∀ v ig s', joyEvent s v ig = some s' → s'.prevDirection ≠ s.prevDirection →
      (ig = true ∨ s.dpadDelay = 0) ∧ s'.prevDirection = v ∧
      ∃ s0, createDeskEvent s0 ig = some s' ∧ s0.pendingDirection = v ∧
        s0.prevDirection = s.prevDirection ∧ s0.buttonCalls = s.buttonCalls) := by
  have hd0 : s.dpadDelay ≠ 0 := by omega
  constructor
  · by_cases hv : value = s.pendingDirection
    · refine ⟨s, ?_, ?_, rfl, rfl, rfl⟩
      · rw [joyEvent_eq, if_pos hv]
      · rw [hv]
    · rw [joyEvent_deferred_exact s value hv hd0]
      refine ⟨_, rfl, ?_, ?_, ?_, ?_⟩
      · split_ifs <;>
          simp only [stopTimerIfActive, startTimerIfIdle, latched, timerStop, timerStart] <;>
          split_ifs <;> rfl
      · split_ifs
        · exact (stopTimerIfActive_frame _).2.2.2.2.2.2.1
        · exact (startTimerIfIdle_frame _).2.2.2.2.2.1
      · split_ifs
        · exact (stopTimerIfActive_frame _).2.2.1
        · exact (startTimerIfIdle_frame _).2.1
      · split_ifs
        · exact (stopTimerIfActive_frame _).2.2.2.1
        · exact (startTimerIfIdle_frame _).2.2.1
  · intro v ig s' h hne
    rcases joyEvent_cases s s' v ig h with ⟨e1, -⟩ | ⟨-, hb, s0, hs0, e1, e2, -, -, -, e6, -⟩
    · exact absurd e1 hne
    · refine ⟨hb, ?_, s0, hs0, e1, e2, e6⟩
      rw [(createDeskEvent_directions s0 s' ig hs0).1, e1]

theorem joyEvent_without_bypass_frame_witness :
    (∃ s', joyEvent sampleReversal DpadLeft false = some s' ∧
      s' = { sampleReversal with
             pendingDirection := DpadLeft
             directionDelayTimer := s'.directionDelayTimer
             timerCalls := s'.timerCalls
             signals := s'.signals } ∧
      s'.buttonCalls = sampleReversal.buttonCalls ∧
      s'.prevDirection = sampleReversal.prevDirection ∧
      s'.activeDiagonalButton = sampleReversal.activeDiagonalButton) :=
  (joyEvent_without_bypass_frame sampleReversal DpadLeft (by decide)).1

/-- C32: the slot of the timer commits the pending direction of the state it
runs in: in whatever state `dpadDirectionChangeEvent` returns, the committed
direction is the pending direction held when it ran, and that pending
direction is unchanged; the slot does return when the committed direction is
one of the nine named directions.  The same holds of every commit
(`createDeskEvent` with either flag), so after a submission that commits at
once the committed and the pending direction are both the submitted value.
With a delay of 50 ms, Up submitted and then Right before the timer fires,
the firing commits Right: the only button call is the activation of Right. -/
theorem commit_takes_current_pending (s : JoyDPad) :
    (∀ s', dpadDirectionChangeEvent s = some s' →
      s'.prevDirection = s.pendingDirection ∧ s'.pendingDirection = s.pendingDirection) ∧
    (isNamed s.prevDirection = true → ∃ s', dpadDirectionChangeEvent s = some s') ∧
    (∀ s', s.directionDelayTimer.isActive = true → timerTimeout s = some s' →
      s'.prevDirection = s.pendingDirection ∧ s'.pendingDirection = s.pendingDirection) ∧
    (∀ ig s', createDeskEvent s ig = some s' →
      s'.prevDirection = s'.pendingDirection ∧ s'.pendingDirection = s.pendingDirection) ∧
    (∀ value ig s', joyEvent s value ig = some s' → value ≠ s.pendingDirection →
      (ig = true ∨ s.dpadDelay = 0) →
      s'.prevDirection = value ∧ s'.pendingDirection = value) ∧
    (run (new 0) retargetedRun).map (fun t => (t.prevDirection, t.pendingDirection, t.buttonCalls)) =
      some (DpadRight, DpadRight,
        [{ button := { owner := 0, direction := DpadRight }, pressed := true,
           ignoresets := false }]) := by
  refine ⟨?_, ?_, ?_, ?_, ?_, by decide⟩
  · intro s' h
    exact createDeskEvent_directions s s' _ h
  · intro hn
    exact createDeskEvent_isSome_of_named s _ hn
  · intro s' ht h
    rw [timerTimeout_eq, if_pos ht] at h
    have hdir := createDeskEvent_directions _ s' false h
    exact hdir
  · intro ig s' h
    have hdir := createDeskEvent_directions s s' ig h
    exact ⟨hdir.1.trans hdir.2.symm, hdir.2⟩
  · intro value ig s' h hv hb
    rw [joyEvent_eq, if_neg hv, if_pos hb] at h
    have hdir := createDeskEvent_directions _ s' ig h
    rw [(stopTimerIfActive_frame (latched s value)).2.1] at hdir
    exact hdir

theorem commit_takes_current_pending_witness :
    (isNamed sampleReversal.prevDirection = true ∧
      ∃ s', dpadDirectionChangeEvent sampleReversal = some s') ∧
    (dpadDirectionChangeEvent sampleReversal).map
      (fun t => (t.prevDirection, t.pendingDirection)) = some (DpadDown, DpadDown) :=
  ⟨⟨by decide, (commit_takes_current_pending sampleReversal).2.1 (by decide)⟩, by decide⟩

/-- C34: `hasPendingEvent()` is true after `queuePendingEvent` and false
after `clearPendingEvent` and in whatever state `activatePendingEvent`
returns, which it does when the committed direction is one of the nine named
directions.  With nothing queued, `activatePendingEvent` returns the state it
was given.  After `clearPendingEvent` the queue is empty, so
`activatePendingEvent` returns the state unchanged, whatever had been queued. -/
theorem queue_contract (s : JoyDPad) (value : Nat) (ig : Bool) :
    hasPendingEvent (queuePendingEvent s value ig) = true ∧
    hasPendingEvent (clearPendingEvent s) = false ∧
    (∀ s', activatePendingEvent s = some s' → hasPendingEvent s' = false) ∧
    (isNamed s.prevDirection = true → ∃ s', activatePendingEvent s = some s') ∧
    (hasPendingEvent s = false → activatePendingEvent s = some s) ∧
    (hasPendingEvent s = false →
      activatePendingEvent (clearPendingEvent (queuePendingEvent s value ig)) =
        some (clearPendingEvent s)) ∧
    activatePendingEvent (clearPendingEvent s) = some (clearPendingEvent s) ∧
    clearPendingEvent (queuePendingEvent s value ig) = clearPendingEvent s ∧
    (clearPendingEvent s).buttonCalls = s.buttonCalls ∧
    (clearPendingEvent s).prevDirection = s.prevDirection ∧
    (clearPendingEvent s).pendingDirection = s.pendingDirection := by
  have hclear : activatePendingEvent (clearPendingEvent s) = some (clearPendingEvent s) := by
    simp [activatePendingEvent, clearPendingEvent, withQueue]
  have hcq : clearPendingEvent (queuePendingEvent s value ig) = clearPendingEvent s := by
    simp [clearPendingEvent, queuePendingEvent, withQueue]
  refine ⟨rfl, rfl, ?_, ?_, ?_, ?_, hclear, hcq, rfl, rfl, rfl⟩
  · intro s' h
    unfold activatePendingEvent at h
    by_cases hp : s.pendingEvent = true
    · rw [if_pos hp] at h
      cases hj : joyEvent s s.pendingEventDirection s.pendingIgnoreSets with
      | none => rw [hj] at h; cases h
      | some s1 =>
        rw [hj] at h
        simp only [Option.map_some', Option.some.injEq] at h
        rw [← h]
        rfl
    · rw [if_neg hp] at h
      simp only [Option.some.injEq] at h
      rw [← h]
      simpa [hasPendingEvent] using hp
  · intro hn
    unfold activatePendingEvent
    by_cases hp : s.pendingEvent = true
    · rw [if_pos hp]
      obtain ⟨s1, hs1⟩ := joyEvent_isSome_of_named s s.pendingEventDirection s.pendingIgnoreSets hn
      exact ⟨_, by rw [hs1]; rfl⟩
    · rw [if_neg hp]
      exact ⟨s, rfl⟩
  · intro hp
    have hp2 : s.pendingEvent = false := hp
    simp [activatePendingEvent, hp2]
  · intro _
    rw [hcq]
    exact hclear

theorem queue_contract_witness :
    hasPendingEvent sampleQueued = true ∧
    (∃ s', activatePendingEvent sampleQueued = some s') ∧
    (activatePendingEvent sampleQueued).map hasPendingEvent = some false ∧
    activatePendingEvent (new 0) = some (new 0) ∧
    activatePendingEvent (clearPendingEvent sampleQueued) = some (new 0) :=
  ⟨by decide, (queue_contract sampleQueued DpadCentered false).2.2.2.1 (by decide), by decide,
    (queue_contract (new 0) DpadCentered false).2.2.2.2.1 (by decide), by decide⟩

/-- Each action keeps the pending direction equal to the committed one
whenever it leaves the timer not running. -/
theorem idle_step (s s' : JoyDPad) (a : DPadAction) (h : step s a = some s')
    (hinv : s.directionDelayTimer.isActive = false → s.pendingDirection = s.prevDirection) :
    s'.directionDelayTimer.isActive = false → s'.pendingDirection = s'.prevDirection := by
  cases a with
  | joyEvent v ig =>
    simp only [step] at h
    rw [joyEvent_eq] at h
    by_cases hv : v = s.pendingDirection
    · rw [if_pos hv] at h
      simp only [Option.some.injEq] at h
      rw [← h]
      exact hinv
    · rw [if_neg hv] at h
      by_cases hb : ig = true ∨ s.dpadDelay = 0
      · rw [if_pos hb] at h
        intro _
        have hdir := createDeskEvent_directions _ s' ig h
        exact hdir.2.trans hdir.1.symm
      · rw [if_neg hb] at h
        simp only [Option.some.injEq] at h
        by_cases hc : v ≠ DpadCentered ∧ v = s.prevDirection
        · rw [if_pos hc] at h
          intro _
          rw [← h, (stopTimerIfActive_frame _).2.1, (stopTimerIfActive_frame _).2.2.1]
          exact hc.2
        · rw [if_neg hc] at h
          intro hidle
          rw [← h, startTimerIfIdle_active] at hidle
          cases hidle
  | timeout =>
    simp only [step] at h
    rw [timerTimeout_eq] at h
    by_cases ht : s.directionDelayTimer.isActive = true
    · rw [if_pos ht] at h
      intro _
      have hdir := createDeskEvent_directions _ s' _ h
      exact hdir.2.trans hdir.1.symm
    · rw [if_neg ht] at h
      simp only [Option.some.injEq] at h
      rw [← h]
      exact hinv
  | setJoyMode m =>
    simp only [step, Option.some.injEq] at h
    rw [← h]
    exact hinv
  | setDPadDelay d =>
    simp only [step, Option.some.injEq] at h
    rw [← h]
    unfold setDPadDelay
    split_ifs
    · exact hinv
    · exact hinv

theorem idle_run (acts : List DPadAction) :
    ∀ s s' : JoyDPad, run s acts = some s' →
      (s.directionDelayTimer.isActive = false → s.pendingDirection = s.prevDirection) →
      s'.directionDelayTimer.isActive = false → s'.pendingDirection = s'.prevDirection := by
  induction acts with
  | nil =>
    intro s s' h hinv
    simp only [run, Option.some.injEq] at h
    rw [← h]
    exact hinv
  | cons a rest ih =>
    intro s s' h hinv
    simp only [run] at h
    cases hs1 : step s a with
    | none => rw [hs1] at h; cases h
    | some s1 =>
      rw [hs1] at h
      exact ih s1 s' h (idle_step s s1 a hs1 hinv)

/-- C36: in every state reached from a freshly constructed DPad by a sequence
of submissions (with any bypass flag), timer firings, mode changes and delay
changes, the pending direction equals the committed direction whenever the
timer is not running; and every such sequence whose submissions are of named
directions does reach a state. -/
theorem idle_timer_means_committed (addr : Nat) (acts : List DPadAction) :
    (∀ s, run (new addr) acts = some s → s.directionDelayTimer.isActive = false →
      s.pendingDirection = s.prevDirection) ∧
    (namedSubmissionsOnly acts = true → ∃ s, run (new addr) acts = some s) := by
  constructor
  · intro s h
    exact idle_run acts (new addr) s h (fun _ => rfl)
  · intro hn
    obtain ⟨s, hs, -⟩ := run_named acts (new addr) rfl rfl hn
    exact ⟨s, hs⟩

theorem idle_timer_means_committed_witness :
    (run (new 0) retargetedRun).map
      (fun t => (t.directionDelayTimer.isActive, t.pendingDirection, t.prevDirection)) =
      some (false, DpadRight, DpadRight) ∧
    (run (new 0) latchedRun).map
      (fun t => (t.directionDelayTimer.isActive, t.pendingDirection, t.prevDirection)) =
      some (true, DpadUp, DpadCentered) ∧
    (stateAfter 0 retargetedRun).pendingDirection = (stateAfter 0 retargetedRun).prevDirection ∧
    ∃ s, run (new 0) retargetedRun = some s :=
  ⟨by decide, by decide,
    (idle_timer_means_committed 0 retargetedRun).1 (stateAfter 0 retargetedRun) (by decide)
      (by decide),
    (idle_timer_means_committed 0 retargetedRun).2 (by decide)⟩

theorem setDPadDelay_valid (s : JoyDPad) (value : Int)
    (h : s.dpadDelay = 0 ∨ (10 ≤ s.dpadDelay ∧ s.dpadDelay ≤ 1000)) :
    (s.setDPadDelay value).dpadDelay = 0 ∨
      (10 ≤ (s.setDPadDelay value).dpadDelay ∧ (s.setDPadDelay value).dpadDelay ≤ 1000) := by
  unfold setDPadDelay
  split_ifs with hv
  · simp only [emit]
    omega
  · exact h

theorem readMainConfig_dpadDelay (s : JoyDPad) (xml : XmlElement) :
    (s.readMainConfig xml).2.1.dpadDelay = s.dpadDelay ∨
      ∃ value, (s.readMainConfig xml).2.1 = s.setDPadDelay value := by
  unfold readMainConfig
  by_cases h1 : xml.name = "dpadbutton" ∧ xml.isStartElement = true
  · left
    rw [if_pos h1]
    show (match s.getJoyButton (QString_toInt xml.index) with
      | some button => (true, s, [ReaderCall.buttonReadConfig button])
      | none => (true, s, [ReaderCall.skipCurrentElement])).2.1.dpadDelay = s.dpadDelay
    cases s.getJoyButton (QString_toInt xml.index) <;> rfl
  · rw [if_neg h1]
    by_cases h2 : xml.name = "mode" ∧ xml.isStartElement = true
    · left
      rw [if_pos h2]
      show (if xml.text = "eight-way" then
          (true, s.setJoyMode JoyMode.EightWayMode, [ReaderCall.readElementText])
        else if xml.text = "four-way" then
          (true, s.setJoyMode JoyMode.FourWayCardinal, [ReaderCall.readElementText])
        else if xml.text = "diagonal" then
          (true, s.setJoyMode JoyMode.FourWayDiagonal, [ReaderCall.readElementText])
        else (true, s, [ReaderCall.readElementText])).2.1.dpadDelay = s.dpadDelay
      split_ifs <;> rfl
    · rw [if_neg h2]
      by_cases h3 : xml.name = "dpadDelay" ∧ xml.isStartElement = true
      · right
        rw [if_pos h3]
        exact ⟨_, rfl⟩
      · left
        rw [if_neg h3]

/-- C33: every state reached from freshly constructed DPads by calls of
`setDPadDelay` with any integer, of `readMainConfig` on any element and of
`copyAssignments` between DPads reached in the same way has a delay that is
0 or lies in the range 10..1000. -/
theorem reachable_delay_valid (s : JoyDPad) (h : ConfigReachable s) :
    s.dpadDelay = 0 ∨ (10 ≤ s.dpadDelay ∧ s.dpadDelay ≤ 1000) := by
  induction h with
  | fresh addr => left; rfl
  | setDPadDelay s value _ ih => exact setDPadDelay_valid s value ih
  | readMainConfig s xml _ ih =>
    rcases readMainConfig_dpadDelay s xml with h | ⟨value, h⟩
    · rw [h]; exact ih
    · rw [h]; exact setDPadDelay_valid s value ih
  | copySource order copyButton defaults src dest _ _ ihs _ =>
    have : (copyAssignments order copyButton defaults src dest).1.dpadDelay = src.dpadDelay := by
      simp only [copyAssignments]
      split_ifs <;> rfl
    rw [this]
    exact ihs
  | copyDestination order copyButton defaults src dest _ _ ihs _ =>
    exact ihs

theorem reachable_delay_valid_witness :
    ConfigReachable sampleCopied ∧ sampleOutOfRange.dpadDelay = 0 ∧
    sampleCopied.dpadDelay = 50 ∧
    (sampleCopied.dpadDelay = 0 ∨ (10 ≤ sampleCopied.dpadDelay ∧ sampleCopied.dpadDelay ≤ 1000)) :=
  ⟨ConfigReachable.copyDestination _ _ _ _ _
      (ConfigReachable.setDPadDelay _ _ (ConfigReachable.fresh 0))
      (ConfigReachable.readMainConfig _ _ (ConfigReachable.fresh 1)),
    by decide, by decide,
    reachable_delay_valid sampleCopied
      (ConfigReachable.copyDestination _ _ _ _ _
        (ConfigReachable.setDPadDelay _ _ (ConfigReachable.fresh 0))
        (ConfigReachable.readMainConfig _ _ (ConfigReachable.fresh 1)))⟩

theorem activityRecord_append (log added : List Signal) :
    activityRecord (log ++ added) = added.foldl noteSignal (activityRecord log) := by
  unfold activityRecord
  rw [List.foldl_append]

/-- With pending and committed direction equal, a firing of the timer changes
the timer at most. -/
theorem timerTimeout_settled (s : JoyDPad) (hp : s.pendingDirection = s.prevDirection) :
    ∃ s', timerTimeout s = some s' ∧ s'.signals = s.signals ∧
      s'.prevDirection = s.prevDirection ∧ s'.pendingDirection = s.pendingDirection ∧
      s'.currentMode = s.currentMode ∧ s'.dpadDelay = s.dpadDelay := by
  rw [timerTimeout_eq]
  by_cases ht : s.directionDelayTimer.isActive = true
  · rw [if_pos ht, createDeskEvent_eq, if_neg (by simpa using hp)]
    exact ⟨_, rfl, rfl, rfl, rfl, rfl, rfl⟩
  · rw [if_neg ht]
    exact ⟨s, rfl, rfl, rfl, rfl, rfl, rfl⟩

/-- Without delay and in Standard mode, each submission and each firing
keeps the record of the signal log in step with the committed direction. -/
theorem activity_run (es : List (Option (Nat × Bool))) :
    ∀ s : JoyDPad, s.dpadDelay = 0 → s.currentMode = JoyMode.StandardMode →
      s.pendingDirection = s.prevDirection →
      activityRecord s.signals = some (s.prevDirection != DpadCentered) →
      ∃ s', run s (eventsAndFirings es) = some s' ∧
        activityRecord s'.signals = some (s'.prevDirection != DpadCentered) := by
  induction es with
  | nil =>
    intro s _ _ _ hr
    exact ⟨s, rfl, hr⟩
  | cons e rest ih =>
    intro s hd hm hp hr
    cases e with
    | none =>
      obtain ⟨s1, hs1, g1, g2, g3, g4, g5⟩ := timerTimeout_settled s hp
      obtain ⟨s', hs', hr'⟩ := ih s1 (g5.trans hd) (g4.trans hm) (by rw [g3, g2, hp])
        (by rw [g1, g2]; exact hr)
      refine ⟨s', ?_, hr'⟩
      simp only [eventsAndFirings, List.map_cons, run, step, hs1, Option.some_bind]
      exact hs'
    | some p =>
      obtain ⟨s1, hs1, g1, -, g3, g4, g5⟩ := joyEvent_undelayed s p.1 p.2 hd hp (Or.inl hm)
      have hsig := joyEvent_signals_eq s s1 p.1 p.2 hs1
      have hr1 : activityRecord s1.signals = some (s1.prevDirection != DpadCentered) := by
        rw [hsig, activityRecord_append, hr, g5]
        by_cases hv : p.1 = s.pendingDirection
        · rw [if_pos hv, hv, hp]
          rfl
        · rw [if_neg hv]
          unfold submissionSignals
          by_cases h0 : p.1 = DpadCentered
          · rw [if_neg (by simpa using h0), h0]
            rfl
          · rw [if_pos h0]
            by_cases hc : s.prevDirection = DpadCentered
            · rw [if_pos hc, hc]
              have : (p.1 != DpadCentered) = true := by simpa using h0
              rw [this]
              rfl
            · rw [if_neg hc]
              have h1 : (p.1 != DpadCentered) = true := by simpa using h0
              have h2 : (s.prevDirection != DpadCentered) = true := by simpa using hc
              rw [h1, h2]
              rfl
      obtain ⟨s', hs', hr'⟩ := ih s1 g3 (g1.trans hm) g4 hr1
      refine ⟨s', ?_, hr'⟩
      simp only [eventsAndFirings, List.map_cons, run, step, hs1, Option.some_bind]
      exact hs'

/-- With a delay, `active` is emitted for each new value submitted while
the committed direction is still centered: a delay of 50 ms, then Up and
Right submitted before the timer fires, gives `active(Up)` and `active(Right)`
with no `released` in between. -/
theorem active_twice_while_deferred :
    (run (new 0) deferredTwice).map (fun t => t.signals) =
      some [Signal.dpadDelayChanged 50, Signal.propertyUpdated, Signal.active DpadUp,
        Signal.active DpadRight] ∧
    (run (new 0) deferredTwice).map (fun t => activeOncePerRelease t.signals) = some false := by
  decide

/-- C35: every sequence of submissions (with any value and bypass flag) and
timer firings from a freshly constructed DPad runs to the end, and in the
signal log of the state reached `active` occurs at most once before the
first `released` and at most once between any two consecutive `released`
signals.  The sample sequence Up, Up-Right, firing, Centered, Left, Left,
Centered gives `active(Up)`, `released`, `active(Left)`, `released`. -/
theorem active_once_per_release (addr : Nat) (es : List (Option (Nat × Bool))) :
    (∃ s, run (new addr) (eventsAndFirings es) = some s ∧
      activeOncePerRelease s.signals = true) ∧
    (run (new 0) (eventsAndFirings sampleEvents)).map (fun t => t.signals) =
      some [Signal.active DpadUp, Signal.released DpadCentered, Signal.active DpadLeft,
        Signal.released DpadCentered] := by
  refine ⟨?_, by decide⟩
  obtain ⟨s, hs, hr⟩ := activity_run es (new addr) rfl rfl rfl rfl
  refine ⟨s, hs, ?_⟩
  unfold activeOncePerRelease
  rw [hr]
  rfl

theorem named_cases (d : Nat) (h : isNamed d = true) :
    d = 0 ∨ d = 1 ∨ d = 2 ∨ d = 4 ∨ d = 8 ∨ d = 3 ∨ d = 6 ∨ d = 9 ∨ d = 12 := by
  by_cases h0 : d = 0
  · exact Or.inl h0
  · have hcd : isCardinal d = true ∨ isDiagonal d = true := by simpa [isNamed, h0] using h
    rcases hcd with hc | hc
    · rcases isCardinal_cases d with ⟨-, g⟩ | ⟨g, -⟩
      · omega
      · rw [hc] at g; cases g
    · rcases isDiagonal_cases d with ⟨-, g⟩ | ⟨g, -⟩
      · omega
      · rw [hc] at g; cases g

/-- Every call of the activation half is on a button that
`getApplicableButtons()` lists for the mode. -/
theorem activateCalls_applicable (s : JoyDPad) (ig : Bool) :
    ∀ c ∈ activateCalls s ig, calledEntry c ∈ getApplicableButtons s := by
  intro c hc
  unfold activateCalls at hc
  cases hm : s.currentMode with
  | StandardMode =>
    rw [hm] at hc
    simp only at hc
    obtain ⟨-, -, ho, hk, -⟩ := (mem_standardCalls _ _ _ _ _ c).1 hc
    obtain ⟨⟨o, k⟩, p, i⟩ := c
    simp only at ho hk
    subst ho
    rcases isCardinal_cases k with ⟨-, g | g | g | g⟩ | ⟨g, -⟩
    · subst g; simp [calledEntry, getApplicableButtons, hm, buttons_value, DpadUp, DpadDown, DpadLeft, DpadRight]
    · subst g; simp [calledEntry, getApplicableButtons, hm, buttons_value, DpadUp, DpadDown, DpadLeft, DpadRight]
    · subst g; simp [calledEntry, getApplicableButtons, hm, buttons_value, DpadUp, DpadDown, DpadLeft, DpadRight]
    · subst g; simp [calledEntry, getApplicableButtons, hm, buttons_value, DpadUp, DpadDown, DpadLeft, DpadRight]
    · rw [hk] at g; cases g
  | EightWayMode =>
    rw [hm] at hc
    simp only at hc
    split_ifs at hc with hn
    · simp only [List.mem_singleton] at hc
      subst hc
      have hnamed : isNamed s.pendingDirection = true := by
        rcases hn with h | h <;> simp [isNamed, h]
      have h0 : s.pendingDirection ≠ 0 := by
        intro h0
        rw [h0] at hn
        rcases hn with h | h <;> exact absurd h (by decide)
      rcases named_cases _ hnamed with g | g | g | g | g | g | g | g | g
      · exact absurd g h0
      all_goals
        simp [calledEntry, getApplicableButtons, hm, buttons_value, g, DpadUp, DpadDown,
          DpadLeft, DpadRight, DpadLeftUp, DpadRightUp, DpadRightDown, DpadLeftDown]
    · cases hc
  | FourWayCardinal =>
    rw [hm] at hc
    simp only at hc
    split_ifs at hc with hn
    · simp only [List.mem_singleton] at hc
      subst hc
      rcases foldCardinal_cases s.pendingDirection with ⟨g, -⟩ | ⟨g, -⟩ | ⟨g, -⟩ | ⟨g, -⟩ | ⟨g, -⟩
      · exact absurd g hn
      all_goals
        simp [calledEntry, getApplicableButtons, hm, buttons_value, g, DpadUp, DpadDown,
          DpadLeft, DpadRight]
    · cases hc
  | FourWayDiagonal =>
    rw [hm] at hc
    simp only at hc
    split_ifs at hc with hn
    · simp only [List.mem_singleton] at hc
      subst hc
      rcases isDiagonal_cases s.pendingDirection with ⟨-, g | g | g | g⟩ | ⟨g, -⟩
      · simp [calledEntry, getApplicableButtons, hm, buttons_value, g, DpadLeftUp, DpadRightUp, DpadRightDown, DpadLeftDown]
      · simp [calledEntry, getApplicableButtons, hm, buttons_value, g, DpadLeftUp, DpadRightUp, DpadRightDown, DpadLeftDown]
      · simp [calledEntry, getApplicableButtons, hm, buttons_value, g, DpadLeftUp, DpadRightUp, DpadRightDown, DpadLeftDown]
      · simp [calledEntry, getApplicableButtons, hm, buttons_value, g, DpadLeftUp, DpadRightUp, DpadRightDown, DpadLeftDown]
      · rw [hn] at g; cases g
    · cases hc

/-- C37: in every mode and state, whatever a commit returns has the call log
it was given followed by the calls of the commit, and every activation among
these is on a button that `getApplicableButtons()` returns for the mode; the
commit does return when the committed direction is one of the nine named
directions.  The keys `getApplicableButtons()` returns are the four
cardinals in Standard and FourWayCardinal mode, all eight in EightWay mode
and the four diagonals in FourWayDiagonal mode. -/
theorem commit_activates_applicable (s : JoyDPad) (ig : Bool) :
    (∀ s', createDeskEvent s ig = some s' →
      ∃ added, s'.buttonCalls = s.buttonCalls ++ added ∧
        ∀ c ∈ added, c.pressed = true → calledEntry c ∈ getApplicableButtons s) ∧
    (isNamed s.prevDirection = true → ∃ s', createDeskEvent s ig = some s') ∧
    ((getApplicableButtons s).map (fun p => p.1) =
      match s.currentMode with
      | JoyMode.StandardMode => [DpadUp, DpadDown, DpadLeft, DpadRight]
      | JoyMode.FourWayCardinal => [DpadUp, DpadDown, DpadLeft, DpadRight]
      | JoyMode.EightWayMode =>
        [DpadUp, DpadDown, DpadLeft, DpadRight, DpadLeftUp, DpadRightUp, DpadRightDown,
         DpadLeftDown]
      | JoyMode.FourWayDiagonal => [DpadLeftUp, DpadRightUp, DpadRightDown, DpadLeftDown]) := by
  refine ⟨?_, createDeskEvent_isSome_of_named s ig, ?_⟩
  · intro s' h
    rcases createDeskEvent_some_cases s s' ig h with ⟨-, rfl⟩ | ⟨-, rel, hrel, rfl⟩
    · exact ⟨[], by simp, fun c hc => by cases hc⟩
    · refine ⟨rel ++ activateCalls s ig, by simp, ?_⟩
      intro c hc hp
      rcases List.mem_append.1 hc with hc | hc
      · rw [releaseCalls_pressed s ig rel hrel c hc] at hp
        cases hp
      · exact activateCalls_applicable s ig c hc
  · cases hm : s.currentMode <;> simp [getApplicableButtons, hm]

theorem commit_activates_applicable_witness :
    (isNamed sampleEightWay.prevDirection = true ∧
      ∃ s', createDeskEvent sampleEightWay false = some s') ∧
    (createDeskEvent sampleEightWay false).map (fun t => t.buttonCalls) =
      some (sampleEightWay.buttonCalls ++
        [{ button := { owner := 0, direction := DpadUp }, pressed := false, ignoresets := false },
         { button := { owner := 0, direction := DpadRightUp }, pressed := true,
           ignoresets := false }]) ∧
    (DpadRightUp, some { owner := 0, direction := DpadRightUp }) ∈
      getApplicableButtons sampleEightWay :=
  ⟨⟨by decide, (commit_activates_applicable sampleEightWay false).2.1 (by decide)⟩,
    by decide, by decide⟩

/-- A commit from the centered direction with no lock held makes the calls of
the activation half only. -/
theorem createDeskEvent_from_centered (s : JoyDPad) (ig : Bool)
    (hprev : s.prevDirection = DpadCentered) (hlock : s.activeDiagonalButton = none) :
    ∃ s', createDeskEvent s ig = some s' ∧
      s'.buttonCalls = s.buttonCalls ++ activateCalls s ig := by
  rw [createDeskEvent_eq]
  by_cases hp : s.pendingDirection ≠ s.prevDirection
  · rw [if_pos hp]
    have hrel : releaseCalls s ig = some [] := by
      unfold releaseCalls
      rw [hlock]
      cases hm : s.currentMode <;>
        simp +decide [hprev, standardCalls, hasFlag, foldCardinal, DpadCentered, DpadUp, DpadDown,
          DpadLeft, DpadRight, DpadRightUp, DpadLeftDown, DpadLeftUp, DpadRightDown]
    rw [hrel]
    exact ⟨_, rfl, by simp⟩
  · rw [if_neg hp]
    refine ⟨s, rfl, ?_⟩
    have h0 : s.pendingDirection = 0 := by
      have := not_not.1 hp
      rw [this, hprev]
    have : activateCalls s ig = [] := by
      unfold activateCalls
      cases hm : s.currentMode <;>
        simp +decide [h0, hprev, standardCalls, hasFlag, foldCardinal, isCardinal, isDiagonal,
          DpadCentered, DpadUp, DpadDown, DpadLeft, DpadRight, DpadRightUp, DpadLeftDown,
          DpadLeftUp, DpadRightDown]
    rw [this, List.append_nil]

/-- C38 (as amended): a commit from the centered direction, no lock held, to
one of the nine named directions returns, and every call it makes is an
activation.  In Standard, EightWay and FourWayDiagonal mode for all nine
directions, and in FourWayCardinal mode for Centered and the four cardinals,
the buttons it calls are exactly the entries of `getDirectionButtons(d)`, in
the same order.  In FourWayCardinal mode for a diagonal `d`,
`getDirectionButtons(d)` is empty while the commit activates the cardinal
button that `d` folds to. -/
theorem getDirectionButtons_matches_commit (s : JoyDPad) (ig : Bool)
    (hprev : s.prevDirection = DpadCentered) (hlock : s.activeDiagonalButton = none)
    (hn : isNamed s.pendingDirection = true) :
    ∃ s' added, createDeskEvent s ig = some s' ∧ s'.buttonCalls = s.buttonCalls ++ added ∧
      (∀ c ∈ added, c.pressed = true ∧ c.ignoresets = ig) ∧
      (¬ (s.currentMode = JoyMode.FourWayCardinal ∧ isDiagonal s.pendingDirection = true) →
        added.map calledEntry = getDirectionButtons s s.pendingDirection) ∧
      (s.currentMode = JoyMode.FourWayCardinal → isDiagonal s.pendingDirection = true →
        getDirectionButtons s s.pendingDirection = [] ∧
        added = [{ button := { owner := s.addr, direction := foldCardinal s.pendingDirection },
                   pressed := true, ignoresets := ig }] ∧
        isCardinal (foldCardinal s.pendingDirection) = true) := by
  obtain ⟨s', hs', hcalls⟩ := createDeskEvent_from_centered s ig hprev hlock
  refine ⟨s', activateCalls s ig, hs', hcalls, ?_, ?_, ?_⟩
  · intro c hc
    refine ⟨activateCalls_pressed s ig c hc, ?_⟩
    unfold activateCalls at hc
    cases hm : s.currentMode <;> rw [hm] at hc <;> simp only at hc
    · exact ((mem_standardCalls _ _ _ _ _ c).1 hc).2.1
    · split_ifs at hc
      · rw [List.mem_singleton.1 hc]
      · cases hc
    · split_ifs at hc
      · rw [List.mem_singleton.1 hc]
      · cases hc
    · split_ifs at hc
      · rw [List.mem_singleton.1 hc]
      · cases hc
  · intro hex
    unfold activateCalls getDirectionButtons
    rcases named_cases _ hn with g | g | g | g | g | g | g | g | g <;>
      cases hm : s.currentMode <;>
      first
        | (exfalso; apply hex; rw [g]; exact ⟨hm, by decide⟩)
        | simp +decide [g, hprev, calledEntry, standardCalls, hasFlag, foldCardinal, isCardinal,
            isDiagonal, buttons_value, DpadCentered, DpadUp, DpadDown, DpadLeft, DpadRight,
            DpadRightUp, DpadLeftDown, DpadLeftUp, DpadRightDown]
  · intro hm hd
    unfold activateCalls getDirectionButtons
    rcases isDiagonal_cases s.pendingDirection with ⟨-, g | g | g | g⟩ | ⟨g, -⟩
    · simp +decide [g, hm, foldCardinal, isCardinal, DpadUp, DpadDown, DpadLeft, DpadRight,
        DpadRightUp, DpadLeftDown, DpadLeftUp, DpadRightDown]
    · simp +decide [g, hm, foldCardinal, isCardinal, DpadUp, DpadDown, DpadLeft, DpadRight,
        DpadRightUp, DpadLeftDown, DpadLeftUp, DpadRightDown]
    · simp +decide [g, hm, foldCardinal, isCardinal, DpadUp, DpadDown, DpadLeft, DpadRight,
        DpadRightUp, DpadLeftDown, DpadLeftUp, DpadRightDown]
    · simp +decide [g, hm, foldCardinal, isCardinal, DpadUp, DpadDown, DpadLeft, DpadRight,
        DpadRightUp, DpadLeftDown, DpadLeftUp, DpadRightDown]
    · rw [hd] at g; cases g

theorem getDirectionButtons_matches_commit_witness :
    (createDeskEvent sampleEightWayPending false).map (fun t => t.buttonCalls) =
      some [{ button := { owner := 0, direction := DpadLeftUp }, pressed := true,
              ignoresets := false }] ∧
    getDirectionButtons sampleEightWayPending DpadLeftUp =
      [(DpadLeftUp, some { owner := 0, direction := DpadLeftUp })] ∧
    ∃ s' added, createDeskEvent sampleEightWayPending false = some s' ∧
      s'.buttonCalls = sampleEightWayPending.buttonCalls ++ added ∧
      (∀ c ∈ added, c.pressed = true ∧ c.ignoresets = false) ∧
      (¬ (sampleEightWayPending.currentMode = JoyMode.FourWayCardinal ∧
          isDiagonal sampleEightWayPending.pendingDirection = true) →
        added.map calledEntry =
          getDirectionButtons sampleEightWayPending sampleEightWayPending.pendingDirection) ∧
      (sampleEightWayPending.currentMode = JoyMode.FourWayCardinal →
        isDiagonal sampleEightWayPending.pendingDirection = true →
        getDirectionButtons sampleEightWayPending sampleEightWayPending.pendingDirection = [] ∧
        added = [{ button := { owner := sampleEightWayPending.addr,
                               direction := foldCardinal sampleEightWayPending.pendingDirection },
                   pressed := true, ignoresets := false }] ∧
        isCardinal (foldCardinal sampleEightWayPending.pendingDirection) = true) :=
  ⟨by decide, by decide,
    getDirectionButtons_matches_commit sampleEightWayPending false rfl rfl (by decide)⟩

/-- C38 (counterexample): in FourWayCardinal mode `getDirectionButtons` of
Up-Right returns no button, while the commit from Centered to Up-Right
activates the Up button. -/
theorem getDirectionButtons_misses_folded_cardinal :
    sampleFoldPending.currentMode = JoyMode.FourWayCardinal ∧
    sampleFoldPending.prevDirection = DpadCentered ∧
    sampleFoldPending.pendingDirection = DpadRightUp ∧
    getDirectionButtons sampleFoldPending DpadRightUp = [] ∧
    (createDeskEvent sampleFoldPending false).map (fun t => t.buttonCalls) =
      some [{ button := { owner := 0, direction := DpadUp }, pressed := true,
              ignoresets := false }] := by
  decide

/-- The method `releaseButtonEvents` changes the call log only, by one
deactivation for each key of the iteration that holds a button. -/
theorem releaseButtonEvents_eq (order : List Nat) (s : JoyDPad) :
    releaseButtonEvents order s =
      { s with
        buttonCalls := s.buttonCalls ++ order.filterMap fun k =>
          (s.buttons_value k).map fun b =>
            ({ button := b, pressed := false, ignoresets := true } : ButtonCall) } := by
  unfold releaseButtonEvents
  rw [releaseLoop_eq]

theorem releaseButtonEvents_inactive (order : List Nat) (horder : IterationOrder order)
    (s : JoyDPad) (k : Nat) (hk : isCardinal k = true ∨ isDiagonal k = true) :
    (releaseButtonEvents order s).isActive k = false := by
  have hpressed : ∀ c ∈ order.filterMap (fun k =>
      (s.buttons_value k).map fun b =>
        ({ button := b, pressed := false, ignoresets := true } : ButtonCall)),
      c.pressed = false := by
    intro c hc
    obtain ⟨j, -, hj⟩ := List.mem_filterMap.1 hc
    cases hb : s.buttons_value j with
    | none => simp [hb] at hj
    | some b =>
      simp only [hb, Option.map_some', Option.some.injEq] at hj
      rw [← hj]
  have hmem : (ButtonCall.mk { owner := s.addr, direction := k } false true) ∈
      order.filterMap (fun k =>
        (s.buttons_value k).map fun b =>
          ({ button := b, pressed := false, ignoresets := true } : ButtonCall)) := by
    apply List.mem_filterMap.2
    refine ⟨k, (mem_order order horder k).2 hk, ?_⟩
    rw [(buttons_value_eq_some s k _).2 ⟨hk, rfl⟩]
    rfl
  have hany : (order.filterMap fun k =>
      (s.buttons_value k).map fun b =>
        ({ button := b, pressed := false, ignoresets := true } : ButtonCall)).any
      (fun c => c.button == { owner := s.addr, direction := k }) = true := by
    rw [List.any_eq_true]
    exact ⟨_, hmem, by simp⟩
  rw [releaseButtonEvents_eq]
  show buttonActive (s.buttonCalls ++ _) { owner := s.addr, direction := k } = false
  rw [buttonActive_append_uniform false _ _ _ hpressed, if_pos hany]

/-- A submission of the committed direction returns and makes no button
call; it returns the state unchanged when the pending direction equals the
committed one. -/
theorem joyEvent_committed_value (t : JoyDPad) (ig : Bool) :
    ∃ t', joyEvent t t.prevDirection ig = some t' ∧ t'.buttonCalls = t.buttonCalls ∧
      t'.prevDirection = t.prevDirection ∧ t'.activeDiagonalButton = t.activeDiagonalButton ∧
      t'.addr = t.addr ∧ t'.pendingDirection = t.prevDirection ∧
      (t.pendingDirection = t.prevDirection → t' = t) := by
  rw [joyEvent_eq]
  by_cases hv : t.prevDirection = t.pendingDirection
  · rw [if_pos hv]
    exact ⟨t, rfl, rfl, rfl, rfl, rfl, hv.symm, fun _ => rfl⟩
  · rw [if_neg hv]
    have hne : t.pendingDirection = t.prevDirection → False := fun h => hv h.symm
    by_cases hb : ig = true ∨ t.dpadDelay = 0
    · rw [if_pos hb, createDeskEvent_eq]
      have hsame : ¬ ((stopTimerIfActive (latched t t.prevDirection)).pendingDirection ≠
          (stopTimerIfActive (latched t t.prevDirection)).prevDirection) := by
        rw [(stopTimerIfActive_frame _).2.1, (stopTimerIfActive_frame _).2.2.1]
        simp [latched]
      rw [if_neg hsame]
      refine ⟨_, rfl, ?_, ?_, ?_, ?_, ?_, fun h => (hne h).elim⟩
      · exact (stopTimerIfActive_frame _).2.2.2.2.2.2.1
      · exact (stopTimerIfActive_frame _).2.2.1
      · exact (stopTimerIfActive_frame _).2.2.2.1
      · exact (stopTimerIfActive_frame _).2.2.2.2.2.1
      · exact (stopTimerIfActive_frame _).2.1
    · rw [if_neg hb]
      refine ⟨_, rfl, ?_, ?_, ?_, ?_, ?_, fun h => (hne h).elim⟩
      · split_ifs
        · exact (stopTimerIfActive_frame _).2.2.2.2.2.2.1
        · exact (startTimerIfIdle_frame _).2.2.2.2.2.1
      · split_ifs
        · exact (stopTimerIfActive_frame _).2.2.1
        · exact (startTimerIfIdle_frame _).2.1
      · split_ifs
        · exact (stopTimerIfActive_frame _).2.2.2.1
        · exact (startTimerIfIdle_frame _).2.2.1
      · split_ifs
        · exact (stopTimerIfActive_frame _).2.2.2.2.2.1
        · exact (startTimerIfIdle_frame _).2.2.2.2.1
      · split_ifs
        · exact (stopTimerIfActive_frame _).2.1
        · exact (startTimerIfIdle_frame _).1

/-- A submission of a committed direction that is not centered, made while
another direction is pending, leaves the timer not running. -/
theorem joyEvent_committed_value_timer (t t' : JoyDPad) (ig : Bool)
    (h : joyEvent t t.prevDirection ig = some t')
    (hp : t.pendingDirection ≠ t.prevDirection) (h0 : t.prevDirection ≠ DpadCentered) :
    t'.directionDelayTimer.isActive = false := by
  rw [joyEvent_eq, if_neg (fun e => hp e.symm)] at h
  by_cases hb : ig = true ∨ t.dpadDelay = 0
  · rw [if_pos hb] at h
    have hf := createDeskEvent_frame _ t' ig h
    rw [hf]
    exact (stopTimerIfActive_frame (latched t t.prevDirection)).1
  · rw [if_neg hb, if_pos ⟨h0, rfl⟩] at h
    simp only [Option.some.injEq] at h
    rw [← h]
    exact (stopTimerIfActive_frame (latched t t.prevDirection)).1

/-- C39 (as amended): whatever order the iterator visits the buttons in,
`releaseButtonEvents()` changes the call log only, so the committed
direction, the pending direction, the lock and the timer are unchanged, and
each of the eight buttons is inactive afterwards.  A following submission of
the direction that was committed, with or without bypass, returns, makes no
button call and leaves the eight buttons inactive, with the pending direction
equal to the committed one; when the pending direction already equals the
committed one it is ignored: the state it returns is the state it was given;
when another direction is pending and the committed direction is not
centered, the timer is not running afterwards. -/
theorem releaseButtonEvents_then_committed (order : List Nat) (horder : IterationOrder order)
    (s : JoyDPad) (ig : Bool) :
    releaseButtonEvents order s =
      { s with buttonCalls := (releaseButtonEvents order s).buttonCalls } ∧
    (∀ k, isCardinal k = true ∨ isDiagonal k = true →
      (releaseButtonEvents order s).isActive k = false) ∧
    (∃ t, joyEvent (releaseButtonEvents order s) s.prevDirection ig = some t ∧
      t.buttonCalls = (releaseButtonEvents order s).buttonCalls ∧
      t.prevDirection = s.prevDirection ∧
      t.pendingDirection = s.prevDirection ∧
      t.activeDiagonalButton = s.activeDiagonalButton ∧
      (∀ k, isCardinal k = true ∨ isDiagonal k = true → t.isActive k = false) ∧
      (s.pendingDirection = s.prevDirection → t = releaseButtonEvents order s) ∧
      (s.pendingDirection ≠ s.prevDirection → s.prevDirection ≠ DpadCentered →
        t.directionDelayTimer.isActive = false)) := by
  have hprev : (releaseButtonEvents order s).prevDirection = s.prevDirection := by
    rw [releaseButtonEvents_eq]
  have hpend : (releaseButtonEvents order s).pendingDirection = s.pendingDirection := by
    rw [releaseButtonEvents_eq]
  have hlock : (releaseButtonEvents order s).activeDiagonalButton = s.activeDiagonalButton := by
    rw [releaseButtonEvents_eq]
  refine ⟨?_, releaseButtonEvents_inactive order horder s, ?_⟩
  · rw [releaseButtonEvents_eq]
  · obtain ⟨t, ht, g1, g2, g3, g4, g5, g6⟩ :=
      joyEvent_committed_value (releaseButtonEvents order s) ig
    have htimer := joyEvent_committed_value_timer (releaseButtonEvents order s) t ig ht
    rw [hprev] at ht
    refine ⟨t, ht, g1, g2.trans hprev, g5.trans hprev, g3.trans hlock, ?_, ?_, ?_⟩
    · intro k hk
      have := releaseButtonEvents_inactive order horder s k hk
      unfold isActive at this ⊢
      rw [g1, g4]
      exact this
    · intro h
      exact g6 (by rw [hpend, hprev]; exact h)
    · intro hp h0
      exact htimer (by rw [hpend, hprev]; exact hp) (by rw [hprev]; exact h0)

theorem releaseButtonEvents_then_committed_witness :
    (stateAfter 0 diagonalHeldRun).pendingDirection =
      (stateAfter 0 diagonalHeldRun).prevDirection ∧
    joyEvent (releaseButtonEvents buttonKeys.reverse (stateAfter 0 diagonalHeldRun))
        DpadRightUp true =
      some (releaseButtonEvents buttonKeys.reverse (stateAfter 0 diagonalHeldRun)) ∧
    (∀ k, isCardinal k = true ∨ isDiagonal k = true →
      (releaseButtonEvents buttonKeys.reverse (stateAfter 0 diagonalHeldRun)).isActive k =
        false) :=
  ⟨by decide, by decide,
    (releaseButtonEvents_then_committed buttonKeys.reverse (List.reverse_perm buttonKeys)
      (stateAfter 0 diagonalHeldRun) true).2.1⟩

/-- C39 (counterexample): with a delay of 50 ms, Up committed and Down
pending with the timer running, `releaseButtonEvents()` followed by the
submission of Up without bypass is not ignored: the pending direction goes
from Down to Up and the timer is stopped. -/
theorem committed_value_after_release_not_ignored :
    (sampleReleased.prevDirection, sampleReleased.pendingDirection,
      sampleReleased.directionDelayTimer.isActive) = (DpadUp, DpadDown, true) ∧
    (joyEvent sampleReleased DpadUp false).map
      (fun t => (t.prevDirection, t.pendingDirection, t.directionDelayTimer.isActive)) =
      some (DpadUp, DpadUp, false) ∧
    joyEvent sampleReleased DpadUp false ≠ some sampleReleased ∧
    (joyEvent sampleReleased DpadUp false).map (fun t => t.timerCalls) =
      some [TimerCall.start 50, TimerCall.stop] := by
  decide

/-- C40: for every source and destination, `copyAssignments` gives the
destination the mode, the delay, the committed direction and the lock
pointer of the source and leaves its pending direction as it was.  With the
source DPad 0 in EightWay mode holding Up-Right (pending and committed
direction Up-Right, the lock on its own Up-Right button) and the destination
a freshly constructed DPad 1 (pending and committed direction Centered), the
destination afterwards has the committed direction Up-Right and the pending
direction Centered, and its lock is the Up-Right button of DPad 0, which is
none of its own eight buttons. -/
theorem copyAssignments_copies_lock_pointer (order : List Nat)
    (copyButton : (ButtonRef → Bool) → ButtonRef → ButtonRef → (ButtonRef → Bool))
    (defaults : ButtonRef → Bool) (src dest : JoyDPad) :
    ((copyAssignments order copyButton defaults src dest).2.1.currentMode = src.currentMode ∧
      (copyAssignments order copyButton defaults src dest).2.1.dpadDelay = src.dpadDelay ∧
      (copyAssignments order copyButton defaults src dest).2.1.prevDirection =
        src.prevDirection ∧
      (copyAssignments order copyButton defaults src dest).2.1.activeDiagonalButton =
        src.activeDiagonalButton ∧
      (copyAssignments order copyButton defaults src dest).2.1.pendingDirection =
        dest.pendingDirection ∧
      (copyAssignments order copyButton defaults src dest).2.1.addr = dest.addr) ∧
    ((stateAfter 0 diagonalHeldRun).pendingDirection = (stateAfter 0 diagonalHeldRun).prevDirection ∧
      (new 1).pendingDirection = (new 1).prevDirection ∧
      run (new 0) diagonalHeldRun = some (stateAfter 0 diagonalHeldRun) ∧
      (stateAfter 0 diagonalHeldRun).activeDiagonalButton =
        some { owner := 0, direction := DpadRightUp } ∧
      sampleCopiedLock.prevDirection = DpadRightUp ∧
      sampleCopiedLock.pendingDirection = DpadCentered ∧
      sampleCopiedLock.activeDiagonalButton = some { owner := 0, direction := DpadRightUp } ∧
      sampleCopiedLock.buttons_value DpadRightUp = some { owner := 1, direction := DpadRightUp } ∧
      ∀ k, sampleCopiedLock.buttons_value k ≠ sampleCopiedLock.activeDiagonalButton) := by
  refine ⟨⟨rfl, rfl, rfl, rfl, rfl, rfl⟩, by decide, by decide, by decide, by decide, by decide,
    by decide, by decide, by decide, ?_⟩
  intro k h
  have hl : sampleCopiedLock.activeDiagonalButton = some { owner := 0, direction := DpadRightUp } := by
    decide
  rw [hl] at h
  have := ((buttons_value_eq_some sampleCopiedLock k _).1 h).2
  have ha : sampleCopiedLock.addr = 1 := by decide
  rw [ha] at this
  have hw : (0 : Nat) = 1 := congrArg ButtonRef.owner this
  exact absurd hw (by decide)

end JoyDPad
